import Mathlib

/-!
# aikit packager: classification, layer building and OCI layout

A shallow embedding of `pkg/packager` of kaito-project/aikit: the native
packager (`pack`, `buildModelPackLayers`, `buildGenericLayer`, `buildTarLayer`,
`writeJSONBlob`, `safeRefName`), the classification and layer emission of the
script that `generateModelpackScript` returns, and the name fallbacks of the
build frontend (`getBuildArg`, `determineName`, `determineRefName`).

* Go strings are embedded as `String`, operated on through their list of
  characters (`String.data`), so that every definition evaluates in the kernel.
  Go compares strings byte-wise on their UTF-8 encoding; for valid UTF-8 this is
  the order of the code points, which is what `strLE` compares.
* File contents and blobs are lists of bytes (`Bytes`).
* A source directory (`SrcTree`) is what the packager observes of it: the
  entries of `filepath.WalkDir`, which are directories and regular files, and
  the results of `os.Stat` and of reading a file. The output directory (`FS`) is
  the list of the writes; functions that write return their result together
  with the new state.
* The standard library and the third-party packages the code calls
  (`crypto/sha256`, `archive/tar`, `path/filepath.Join`, `unicode.ToLower`,
  `time.Now`, `encoding/json`, the constants of the specification packages) are
  not part of the repository; they are taken as the fields of `Lib` and `Codec`,
  and the resolvers of a source as the fields of `World`.
* The bash script that `generateModelpackScript` returns is embedded statement by
  statement (`shellKeeps`, `shellCategory`, `addCategory`), because the
  classification of the script-based engine lives in that text.
* `demoLib`, `demoCodec`, `treeOf` and `worldOf` give concrete instances on which
  the definitions are run.
-/

namespace Aikit

/-! ## Strings -/

/-- Go `strings.HasSuffix`. -/
def hasSuffix (s suf : String) : Bool := suf.data.isSuffixOf s.data

/-- Go `strings.HasPrefix`. -/
def hasPrefix (s pre : String) : Bool := pre.data.isPrefixOf s.data

/-- Go `strings.Contains`. -/
def containsStr (s sub : String) : Bool := s.data.tails.any (fun t => sub.data.isPrefixOf t)

/-- The function `hasAnySuffix` of packager.go: the loop returns true at the first
suffix of `suff` that `s` ends in, false when there is none. -/
def hasAnySuffix (s : String) : List String → Bool
  | [] => false
  | x :: rest => if hasSuffix s x then true else hasAnySuffix s rest

/-- Drop the trailing path separators of a path. -/
def stripTrailingSlashes (cs : List Char) : List Char :=
  (cs.reverse.dropWhile (fun c => c == '/')).reverse

/-- The text after the last path separator. -/
def lastElement (cs : List Char) : List Char :=
  (cs.reverse.takeWhile (fun c => c != '/')).reverse

/-- Go `filepath.Base` on a Unix system: the last element of the path, after the
trailing separators are removed; "." for the empty path and "/" for a path of
separators only. The shell command `basename` agrees with it on non-empty
paths. -/
def base (p : String) : String :=
  if p.data = [] then "."
  else
    let r := lastElement (stripTrailingSlashes p.data)
    if r = [] then "/" else String.mk r

/-- The shell filter `tr A-Z a-z`: the ASCII upper-case letters are mapped to
lower case, every other character is kept. -/
def asciiLower (s : String) : String := String.mk (s.data.map Char.toLower)

/-- Byte-wise comparison of two Go strings (`a <= b`), on the code points. -/
def strLE : List Char → List Char → Bool
  | [], _ => true
  | _ :: _, [] => false
  | a :: as, b :: bs =>
    if a.toNat < b.toNat then true
    else if b.toNat < a.toNat then false
    else strLE as bs

/-- The order relation of `sort.Strings` and of `LC_ALL=C sort`. -/
def StrLE (a b : String) : Prop := strLE a.data b.data = true

instance : DecidableRel StrLE := fun a b =>
  inferInstanceAs (Decidable (strLE a.data b.data = true))

/-- Go `sort.Strings`: the strings in ascending order. The order is total and
antisymmetric, so the result does not depend on the sorting algorithm. -/
def sortStrings (l : List String) : List String := l.insertionSort StrLE

/-! ## External library -/

deriving instance DecidableEq for Except

/-- A blob: a sequence of bytes. -/
abbrev Bytes := List Nat

/-- What `os.Stat` and `DirEntry.Info` report about a regular file. -/
structure FileInfo where
  name : String
  size : Nat
  mode : Nat
  uid : Nat
  gid : Nat
  uname : String
  gname : String
  modTime : Int
  deriving DecidableEq, Repr

/-- The fields of `tar.Header` that the writer encodes for a regular file written
with the default format (the writer clears the access and change times of such a
header itself). -/
structure Header where
  name : String
  size : Nat
  mode : Nat
  uid : Nat
  gid : Nat
  uname : String
  gname : String
  modTime : Int
  deriving DecidableEq, Repr

/-- The library functions the packager calls. None of them is code of the
repository. -/
structure Lib where
  /-- The mapping `unicode.ToLower` on one character. -/
  lowerRune : Char → Char
  /-- The hex form of the SHA-256 of a blob. -/
  sha256hex : Bytes → String
  /-- The bytes `tar.Writer` emits for one entry: `WriteHeader` and the copy of
  the content. The writer fails when the content does not have the size the
  header announces. -/
  tarEntry : Header → Bytes → Except String Bytes
  /-- The bytes `tar.Writer.Close` emits. -/
  tarTrailer : Bytes
  /-- Go `filepath.Join`. -/
  join : List String → String
  /-- The current time, as `time.Now().UTC().Format(time.RFC3339Nano)`. -/
  now : String

/-- Go `strings.ToLower`. -/
def toLower (L : Lib) (s : String) : String := String.mk (s.data.map L.lowerRune)

/-! ## File classifier -/

/-- The semantic categories: the five lists of the script. -/
inductive Category where
  | weights
  | config
  | docs
  | code
  | dataset
  deriving DecidableEq, Repr

/-- The three slices `weights`, `cfg` and `docs` that the walk callback of
`buildModelPackLayers` appends to. -/
inductive Slice where
  | weights
  | cfg
  | docs
  deriving DecidableEq, Repr

/-- The `switch` of the walk callback of `buildModelPackLayers`, on the
lower-cased base name and on the result of `d.Info()` (`none` when it fails):
the slice the relative path is appended to. -/
def nativeSwitch (lower : String) (info : Option FileInfo) : Slice :=
  if hasAnySuffix lower [".safetensors", ".bin", ".gguf", ".pt", ".ckpt"] then Slice.weights
  else if lower = "config.json" ∨ lower = "tokenizer.json" ∨ hasSuffix lower ".json" = true
      ∨ hasSuffix lower ".txt" = true then Slice.cfg
  else if hasPrefix lower "readme" = true ∨ hasPrefix lower "license" = true
      ∨ hasSuffix lower ".md" = true then Slice.docs
  else
    match info with
    | some i => if i.size < 10 * 1024 * 1024 then Slice.cfg else Slice.weights
    | none => Slice.weights

/-- The category a slice of the native packager stands for. -/
def Slice.category : Slice → Category
  | Slice.weights => Category.weights
  | Slice.cfg => Category.config
  | Slice.docs => Category.docs

/-- The `case "$base" in ... esac` of the script of `generateModelpackScript`,
on the lower-cased base name `base` and on the size `sz` that `stat -c%s`
prints. A pattern `*.x` matches the names that end in `.x`, `x*` those that start
with `x`, and `*tokenizer*.json` those that end in `.json` with `tokenizer` before
it. -/
def shellCase (b : String) (sz : Nat) : Category :=
  if hasAnySuffix b [".safetensors", ".bin", ".gguf", ".pt", ".ckpt"] then Category.weights
  else if hasPrefix b "readme" = true ∨ hasPrefix b "license" = true ∨ b = "license"
      ∨ hasSuffix b ".md" = true then Category.docs
  else if b = "config.json" ∨ b = "tokenizer.json"
      ∨ (hasSuffix b ".json" = true ∧ containsStr (String.mk (b.data.take (b.data.length - 5))) "tokenizer" = true)
      ∨ b = "generation_config.json" ∨ hasSuffix b ".json" = true ∨ hasSuffix b ".txt" = true
    then Category.config
  else if hasAnySuffix b [".py", ".sh", ".ipynb", ".go", ".js", ".ts"] then Category.code
  else if hasAnySuffix b [".csv", ".tsv", ".jsonl", ".parquet", ".arrow", ".h5", ".npz"]
    then Category.dataset
  else if sz > 10485760 then Category.weights else Category.config

/-- The category the script gives the file `f` of size `sz`:
`base=$(basename "$f" | tr A-Z a-z)` and then the `case`. A path that begins with
`-` is an option to `basename`, not an operand: the command fails and, under
`set -euo pipefail`, the script stops. -/
def shellCategory (f : String) (sz : Nat) : Except String Category :=
  if hasPrefix f "-" then Except.error ("basename: invalid option: " ++ f)
  else Except.ok (shellCase (asciiLower (base f)) sz)

/-! ## Source tree and output directory -/

/-- One entry that `filepath.WalkDir` hands to the callback: `rel` is the path
of the entry relative to the source directory (the value of
`filepath.Rel(srcDir, path)`, whose base name is that of `path`), and `info` the
result of `d.Info()`, `none` when that call fails. -/
structure DirEntry where
  rel : String
  isDir : Bool
  info : Option FileInfo
  deriving DecidableEq, Repr

/-- The resolved source directory, as the packager observes it: the entries of
the walk in the order of the visit (or the error that aborts the walk), and for
a relative path the results of `os.Stat` and of reading the whole file. -/
structure SrcTree where
  walk : Except String (List DirEntry)
  stat : String → Option FileInfo
  read : String → Option Bytes

/-- The part of the file system the packager writes: the directories created
and the files written, the most recent write first. Writes into it are taken to
succeed. -/
structure FS where
  dirs : List String
  files : List (String × Bytes)
  deriving DecidableEq, Repr

/-- Go `os.MkdirAll`. -/
def FS.mkdirAll (fs : FS) (p : String) : FS := { fs with dirs := p :: fs.dirs }

/-- Go `os.WriteFile`, and `os.OpenFile` with `O_CREATE|O_WRONLY|O_TRUNC` followed
by a copy: the file holds the bytes of the last write. -/
def FS.writeFile (fs : FS) (p : String) (b : Bytes) : FS := { fs with files := (p, b) :: fs.files }

/-- The content of a file of the output, if it exists. -/
def FS.readFile (fs : FS) (p : String) : Option Bytes := fs.files.lookup p

/-- The bytes of an ASCII string. -/
def strBytes (s : String) : Bytes := s.data.map Char.toNat

/-! ## Descriptors, manifest, index -/

/-- The type `ocispec.Descriptor`, with the fields the packager sets. -/
structure Descriptor where
  mediaType : String
  digest : String
  size : Nat
  deriving DecidableEq, Repr

/-- The type `ocispec.Manifest`. -/
structure Manifest where
  schemaVersion : Nat
  mediaType : String
  artifactType : String
  config : Descriptor
  layers : List Descriptor
  deriving DecidableEq, Repr

/-- The type `ocispec.Index`, with the fields the packager sets;
`schemaVersion` is the embedded `specs.Versioned`. -/
structure Index where
  schemaVersion : Nat
  mediaType : String
  manifests : List Descriptor
  annotations : List (String × String)
  deriving DecidableEq, Repr

/-- The values handed to `json.Marshal` and `json.MarshalIndent`. -/
inductive JSONValue where
  | emptyMap
  | manifest (m : Manifest)
  | index (i : Index)
  deriving DecidableEq, Repr

/-- The encoders of `encoding/json` and the constants of the packages
`model-spec/specs-go/v1` and `image-spec/specs-go/v1`. -/
structure Codec where
  marshal : JSONValue → Except String Bytes
  marshalIndent : JSONValue → Except String Bytes
  mediaTypeModelConfig : String
  mediaTypeModelWeight : String
  mediaTypeModelWeightConfig : String
  mediaTypeModelDoc : String
  artifactTypeModelManifest : String
  mediaTypeImageManifest : String
  mediaTypeImageIndex : String
  mediaTypeImageLayer : String
  mediaTypeImageConfig : String
  annotationRefName : String
  annotationCreated : String
  annotationTitle : String
  annotationDescription : String

/-- Go `strings.TrimPrefix`. -/
def trimPrefix (s pre : String) : String :=
  if hasPrefix s pre then String.mk (s.data.drop pre.data.length) else s

/-- The digest string of a blob, `algorithm:hex`, as `digest.Digest.String`. -/
def digestOf (L : Lib) (b : Bytes) : String := "sha256:" ++ L.sha256hex b

/-- The path of the blob of a digest in the layout:
`filepath.Join(outDir, "blobs", "sha256", strings.TrimPrefix(dgst.String(), "sha256:"))`. -/
def blobPath (L : Lib) (outDir dgst : String) : String :=
  L.join [outDir, "blobs", "sha256", trimPrefix dgst "sha256:"]

/-! ## Native packager -/

/-- The slices of `buildModelPackLayers`. -/
structure Partition where
  weights : List String
  cfg : List String
  docs : List String
  deriving DecidableEq, Repr

/-- The statement `x = append(x, rel)` on the slice chosen by the switch. -/
def Partition.append (p : Partition) (s : Slice) (rel : String) : Partition :=
  match s with
  | Slice.weights => { p with weights := p.weights ++ [rel] }
  | Slice.cfg => { p with cfg := p.cfg ++ [rel] }
  | Slice.docs => { p with docs := p.docs ++ [rel] }

/-- The slice a walk entry goes to: the switch on
`strings.ToLower(filepath.Base(path))`. -/
def entrySlice (L : Lib) (d : DirEntry) : Slice := nativeSwitch (toLower L (base d.rel)) d.info

/-- The walk callback of `buildModelPackLayers` on one entry: a directory is
skipped, any other entry is appended to one slice. -/
def walkFn (L : Lib) (p : Partition) (d : DirEntry) : Partition :=
  if d.isDir then p else p.append (entrySlice L d) d.rel

/-- The slices after the walk, before they are sorted. -/
def partitionFiles (L : Lib) (entries : List DirEntry) : Partition :=
  entries.foldl (walkFn L) { weights := [], cfg := [], docs := [] }

/-- Go `filepath.ToSlash` on a Unix system, where the separator is the slash. -/
def toSlash (s : String) : String := s

/-- Go `tar.FileInfoHeader` on the information of a regular file. -/
def fileInfoHeader (st : FileInfo) : Header :=
  { name := st.name, size := st.size, mode := st.mode, uid := st.uid, gid := st.gid,
    uname := st.uname, gname := st.gname, modTime := st.modTime }

/-- The header `buildTarLayer` writes for the file `rel` whose `os.Stat` is `st`:
the header of the file information with the normalized fields overwritten. -/
def layerHeader (st : FileInfo) (rel : String) : Header :=
  { fileInfoHeader st with
    name := toSlash rel, mode := 0o644, uid := 0, gid := 0, uname := "", gname := "", modTime := 0 }

/-- The loop of `buildTarLayer` over `relPaths`: the bytes written to the
archive, or the first error (`os.Stat`, `WriteHeader`, `os.Open`, the copy). -/
def tarBody (L : Lib) (src : SrcTree) : List String → Except String Bytes
  | [] => Except.ok []
  | rel :: rest =>
    match src.stat rel with
    | none => Except.error ("stat " ++ rel)
    | some st =>
      match src.read rel with
      | none => Except.error ("open " ++ rel)
      | some content =>
        match L.tarEntry (layerHeader st rel) content with
        | Except.error e => Except.error e
        | Except.ok bytes =>
          match tarBody L src rest with
          | Except.error e => Except.error e
          | Except.ok more => Except.ok (bytes ++ more)

/-- The function `buildTarLayer`: the archive of `relPaths` is written to a
temporary file, hashed, and copied to its place among the blobs. -/
def buildTarLayer (L : Lib) (src : SrcTree) (outDir : String) (relPaths : List String)
    (mediaType : String) (fs : FS) : Except String Descriptor × FS :=
  match tarBody L src relPaths with
  | Except.error e => (Except.error e, fs)
  | Except.ok body =>
    let blob := body ++ L.tarTrailer
    let dgst := digestOf L blob
    (Except.ok { mediaType := mediaType, digest := dgst, size := blob.length },
      fs.writeFile (blobPath L outDir dgst) blob)

/-- The type `ModelPackMediaTypes`. -/
structure ModelPackMediaTypes where
  manifestConfig : String
  layerWeights : String
  layerConfig : String
  layerDocs : String
  deriving DecidableEq, Repr

/-- The block `if len(files) > 0 ...` that `buildModelPackLayers` repeats for each
slice: the layer of a non-empty slice is built and appended to `descs`; an
error of `buildTarLayer` is returned at once. -/
def appendLayer (L : Lib) (src : SrcTree) (outDir : String) (files : List String)
    (mediaType : String) (descs : List Descriptor) (fs : FS) :
    Except String (List Descriptor) × FS :=
  if files.length > 0 then
    match buildTarLayer L src outDir files mediaType fs with
    | (Except.error e, fs1) => (Except.error e, fs1)
    | (Except.ok d, fs1) => (Except.ok (descs ++ [d]), fs1)
  else (Except.ok descs, fs)

/-- The function `buildModelPackLayers`: the walk partitions the files, the
slices are sorted, the media types default to those of ModelPack, and the
layers of weights, config and docs are built in this order. -/
def buildModelPackLayers (L : Lib) (C : Codec) (src : SrcTree) (outDir : String)
    (mt : ModelPackMediaTypes) (fs : FS) : Except String (List Descriptor) × FS :=
  match src.walk with
  | Except.error e => (Except.error e, fs)
  | Except.ok entries =>
    let p := partitionFiles L entries
    let weights := sortStrings p.weights
    let cfg := sortStrings p.cfg
    let docs := sortStrings p.docs
    let mtW := if mt.layerWeights = "" then C.mediaTypeModelWeight else mt.layerWeights
    let mtC := if mt.layerConfig = "" then C.mediaTypeModelWeightConfig else mt.layerConfig
    let mtD := if mt.layerDocs = "" then C.mediaTypeModelDoc else mt.layerDocs
    match appendLayer L src outDir weights mtW [] fs with
    | (Except.error e, fs1) => (Except.error e, fs1)
    | (Except.ok descs1, fs1) =>
      match appendLayer L src outDir cfg mtC descs1 fs1 with
      | (Except.error e, fs2) => (Except.error e, fs2)
      | (Except.ok descs2, fs2) => appendLayer L src outDir docs mtD descs2 fs2

/-- The files the walk of `buildGenericLayer` collects: every entry that is not
a directory. -/
def genericFiles (entries : List DirEntry) : List String :=
  entries.foldl (fun files d => if d.isDir then files else files ++ [d.rel]) []

/-- The function `buildGenericLayer`. -/
def buildGenericLayer (L : Lib) (C : Codec) (src : SrcTree) (outDir : String) (fs : FS) :
    Except String Descriptor × FS :=
  match src.walk with
  | Except.error e => (Except.error e, fs)
  | Except.ok entries =>
    buildTarLayer L src outDir (sortStrings (genericFiles entries)) C.mediaTypeImageLayer fs

/-- The function `writeJSONBlob`. -/
def writeJSONBlob (L : Lib) (C : Codec) (outDir : String) (v : JSONValue) (mediaType : String)
    (fs : FS) : Except String Descriptor × FS :=
  match C.marshal v with
  | Except.error e => (Except.error e, fs)
  | Except.ok b =>
    let dgst := digestOf L b
    (Except.ok { mediaType := mediaType, digest := dgst, size := b.length },
      fs.writeFile (blobPath L outDir dgst) b)

/-- The function `writeJSONFile`; the descriptor it returns carries nothing. -/
def writeJSONFile (C : Codec) (p : String) (v : JSONValue) (fs : FS) : Except String Unit × FS :=
  match C.marshalIndent v with
  | Except.error e => (Except.error e, fs)
  | Except.ok b => (Except.ok (), fs.writeFile p b)

/-- One rune of `safeRefName`. -/
def safeRefRune (r : Char) : Char :=
  if 'a'.toNat ≤ r.toNat ∧ r.toNat ≤ 'z'.toNat then r
  else if '0'.toNat ≤ r.toNat ∧ r.toNat ≤ '9'.toNat then r
  else if r = '/' ∨ r = '.' ∨ r = '_' ∨ r = '-' then r
  else if 'A'.toNat ≤ r.toNat ∧ r.toNat ≤ 'Z'.toNat then Char.ofNat (r.toNat + ('a'.toNat - 'A'.toNat))
  else '-'

/-- The function `safeRefName`. -/
def safeRefName (s : String) : String :=
  if s = "" then "aikit/model" else String.mk (s.data.map safeRefRune)

/-- Go `strings.Index` on lists of characters: the position of the first
occurrence of `sub`, counted from `i`. -/
def indexFrom (sub : List Char) : List Char → Nat → Option Nat
  | [], i => if sub = [] then some i else none
  | c :: cs, i => if sub.isPrefixOf (c :: cs) then some i else indexFrom sub cs (i + 1)

/-- The scheme `resolveSource` parses: the text before the first `://`, and the
empty scheme when there is none. -/
def schemeOf (source : String) : String :=
  match indexFrom "://".data source.data 0 with
  | some i => String.mk (source.data.take i)
  | none => ""

/-- The resolvers of a source, each seen as the function from the source string
to the directory it yields; what they do on the host (file system, git, HTTP)
is outside the packaging engine. -/
structure World where
  localResolver : String → Except String SrcTree
  hfResolver : String → Except String SrcTree
  huggingfaceFileResolver : String → Except String SrcTree
  httpResolver : String → Except String SrcTree

/-- The map `resolvers`. -/
def resolvers (W : World) (scheme : String) : Option (String → Except String SrcTree) :=
  if scheme = "file" then some W.localResolver
  else if scheme = "" then some W.localResolver
  else if scheme = "hf" then some W.hfResolver
  else if scheme = "huggingface" then some W.huggingfaceFileResolver
  else if scheme = "https" then some W.httpResolver
  else if scheme = "http" then some W.httpResolver
  else none

/-- The function `resolveSource`. -/
def resolveSource (W : World) (source : String) : Except String SrcTree :=
  match resolvers W (schemeOf source) with
  | none => Except.error ("unsupported source scheme: " ++ schemeOf source)
  | some r => r source

/-- The constant `SpecModelPack`. -/
def SpecModelPack : String := "modelpack"

/-- The constant `SpecGeneric`. -/
def SpecGeneric : String := "generic"

/-- The type `Options`. -/
structure Options where
  source : String
  outputDir : String
  artifactType : String
  spec : String
  name : String
  mediaTypes : ModelPackMediaTypes
  deriving DecidableEq, Repr

/-- The type `Result`, together with the manifest and the index that the run
serialized into the layout. -/
structure Result where
  layoutPath : String
  manifest : Manifest
  index : Index
  deriving DecidableEq, Repr

/-- The `switch opts.Spec` of `pack`: the layers and the config descriptor. -/
def buildLayers (L : Lib) (C : Codec) (src : SrcTree) (spec : String) (opts : Options) (fs : FS) :
    Except String (List Descriptor × Descriptor) × FS :=
  if spec = SpecModelPack then
    match buildModelPackLayers L C src opts.outputDir opts.mediaTypes fs with
    | (Except.error e, fs1) => (Except.error e, fs1)
    | (Except.ok layers, fs1) =>
      let mcmt := if opts.mediaTypes.manifestConfig = "" then C.mediaTypeModelConfig
        else opts.mediaTypes.manifestConfig
      match writeJSONBlob L C opts.outputDir JSONValue.emptyMap mcmt fs1 with
      | (Except.error e, fs2) => (Except.error e, fs2)
      | (Except.ok configDesc, fs2) => (Except.ok (layers, configDesc), fs2)
  else if spec = SpecGeneric then
    match buildGenericLayer L C src opts.outputDir fs with
    | (Except.error e, fs1) => (Except.error e, fs1)
    | (Except.ok layer, fs1) =>
      match writeJSONBlob L C opts.outputDir JSONValue.emptyMap C.mediaTypeImageConfig fs1 with
      | (Except.error e, fs2) => (Except.error e, fs2)
      | (Except.ok configDesc, fs2) => (Except.ok ([layer], configDesc), fs2)
  else (Except.error ("unknown spec: " ++ spec), fs)

/-- The function `pack`, on the state `fs` of the output file system. The
deferred cleanup of the resolver does not touch the output and is left out. The
index is built without a schema version, so it carries the zero value of the
embedded `specs.Versioned`. -/
def pack (L : Lib) (C : Codec) (W : World) (opts : Options) (fs : FS) : Except String Result × FS :=
  if opts.source = "" then (Except.error "source is required", fs)
  else if opts.outputDir = "" then (Except.error "output directory is required", fs)
  else
    let spec := if opts.spec = "" then SpecModelPack else opts.spec
    match resolveSource W opts.source with
    | Except.error e => (Except.error e, fs)
    | Except.ok src =>
      let fs0 := (fs.mkdirAll (L.join [opts.outputDir, "blobs", "sha256"])).writeFile
        (L.join [opts.outputDir, "oci-layout"])
        (strBytes "\x7b\n  \"imageLayoutVersion\": \"1.0.0\"\n\x7d\n")
      match buildLayers L C src spec opts fs0 with
      | (Except.error e, fs1) => (Except.error e, fs1)
      | (Except.ok (layers, configDesc), fs1) =>
        let artifactType :=
          if opts.artifactType = "" then
            (if spec = SpecModelPack then C.artifactTypeModelManifest
             else "application/vnd.oci.artifact")
          else opts.artifactType
        let manifest : Manifest :=
          { schemaVersion := 2, mediaType := C.mediaTypeImageManifest,
            artifactType := artifactType, config := configDesc, layers := layers }
        match writeJSONBlob L C opts.outputDir (JSONValue.manifest manifest)
            C.mediaTypeImageManifest fs1 with
        | (Except.error e, fs2) => (Except.error e, fs2)
        | (Except.ok manifestDesc, fs2) =>
          let idx : Index :=
            { schemaVersion := 0, mediaType := C.mediaTypeImageIndex,
              manifests := [manifestDesc],
              annotations :=
                [(C.annotationRefName, safeRefName opts.name),
                 (C.annotationCreated, L.now),
                 (C.annotationTitle, opts.name),
                 (C.annotationDescription,
                   "AI model packaged by AIKit (" ++ spec ++ ")")] }
          match writeJSONFile C (L.join [opts.outputDir, "index.json"]) (JSONValue.index idx) fs2 with
          | (Except.error e, fs3) => (Except.error e, fs3)
          | (Except.ok _, fs3) =>
            (Except.ok { layoutPath := opts.outputDir, manifest := manifest, index := idx }, fs3)

/-! ## The script of `generateModelpackScript` -/

/-- The selection of
`find . -type f ! -name '*.lock' ! -path './.cache/*' -print`: an entry is
printed when it is a regular file, its base name does not end in `.lock`, and its
path `./rel` does not start with `./.cache/`. -/
def shellKeeps (d : DirEntry) : Bool :=
  !d.isDir && !hasSuffix (base d.rel) ".lock" && !hasPrefix ("./" ++ d.rel) "./.cache/"

/-- The file `/tmp/allfiles.list`: the selected paths without the leading `./`,
in the order of `LC_ALL=C sort`, one path on each line (`find -print` ends a path
with a line feed, so this is the file for paths that hold none). -/
def allFiles (entries : List DirEntry) : List String :=
  sortStrings ((entries.filter shellKeeps).map (fun d => d.rel))

/-- The five list files of the script. -/
structure ShellLists where
  weights : List String
  config : List String
  docs : List String
  code : List String
  dataset : List String
  deriving DecidableEq, Repr

/-- The statement `echo "$f" >> /tmp/<category>.list`. -/
def ShellLists.append (l : ShellLists) (c : Category) (f : String) : ShellLists :=
  match c with
  | Category.weights => { l with weights := l.weights ++ [f] }
  | Category.config => { l with config := l.config ++ [f] }
  | Category.docs => { l with docs := l.docs ++ [f] }
  | Category.code => { l with code := l.code ++ [f] }
  | Category.dataset => { l with dataset := l.dataset ++ [f] }

/-- The `while read` loop over the lines `files`, from the lists `l`: each line
is appended to the list of its category, and the first line whose
classification fails stops the script; `size f` is what `stat -c%s "$f"`
prints. -/
def shellLoop (size : String → Nat) : List String → ShellLists → Except String ShellLists
  | [], l => Except.ok l
  | f :: rest, l =>
    match shellCategory f (size f) with
    | Except.error e => Except.error e
    | Except.ok c => shellLoop size rest (l.append c f)

/-- The five lists after the loop over `/tmp/allfiles.list`; they start empty. -/
def shellLists (size : String → Nat) (files : List String) : Except String ShellLists :=
  shellLoop size files { weights := [], config := [], docs := [], code := [], dataset := [] }

/-- The list of a category. -/
def ShellLists.get (l : ShellLists) : Category → List String
  | Category.weights => l.weights
  | Category.config => l.config
  | Category.docs => l.docs
  | Category.code => l.code
  | Category.dataset => l.dataset

/-- One call of `append_layer`: the media type and the file path annotation of
the layer, with the category of the `add_category` call that made it and the
files whose content the blob holds. -/
structure ShLayer where
  category : Category
  mediaType : String
  filepath : String
  files : List String
  deriving DecidableEq, Repr

/-- The name of a category, as the second argument of `add_category`. -/
def Category.name : Category → String
  | Category.weights => "weights"
  | Category.config => "config"
  | Category.docs => "docs"
  | Category.code => "code"
  | Category.dataset => "dataset"

/-- Whether the commands `b=$(basename "$f")` and
`tar -cf "$tmpTar" -C "$(dirname "$f")" "$b"` of the weights loop are given an
option where they expect a file: the path or its base name begins with `-`. -/
def dashedArg (f : String) : Bool := hasPrefix f "-" || hasPrefix (base f) "-"

/-- The shell function `add_category` on the list of a category: nothing for an
empty list; in mode `raw` one layer for each file; in the tar modes one layer
for each file of the weights and one layer for the whole list of any other
category; an unknown mode stops the script. In mode `raw` the command
`stat -c%s "$f"` fails on a path that begins with `-`, and in the tar modes the
weights loop fails on a file whose path or base name begins with `-`, which
`basename` or `tar` takes for an option; either failure stops the script. The
lists that the loop of the script fills hold no path that begins with `-`. -/
def addCategory (packMode : String) (list : List String) (cat : Category)
    (mtRaw mtTar mtTarGz mtTarZst : String) : Except String (List ShLayer) :=
  if list = [] then Except.ok []
  else if packMode = "raw" then
    match list.find? (fun f => hasPrefix f "-") with
    | some f => Except.error ("stat: invalid option: " ++ f)
    | none =>
      Except.ok (list.map (fun f =>
        { category := cat, mediaType := mtRaw, filepath := f, files := [f] }))
  else if packMode = "tar" ∨ packMode = "tar+gzip" ∨ packMode = "tar+zstd" then
    let mt := if packMode = "tar" then mtTar else if packMode = "tar+gzip" then mtTarGz
      else mtTarZst
    if cat.name = "weights" then
      match list.find? dashedArg with
      | some f => Except.error ("tar: invalid option: " ++ base f)
      | none =>
        Except.ok (list.map (fun f =>
          { category := cat, mediaType := mt, filepath := f, files := [f] }))
    else Except.ok [{ category := cat, mediaType := mt, filepath := cat.name, files := list }]
  else Except.error ("unknown PACK_MODE " ++ packMode)

/-- The call of `add_category` that the script makes for a category, with the
media types written in the script. -/
def addCategoryOf (packMode : String) (l : ShellLists) (c : Category) :
    Except String (List ShLayer) :=
  match c with
  | Category.weights =>
    addCategory packMode l.weights c "application/vnd.cncf.model.weight.v1.raw"
      "application/vnd.cncf.model.weight.v1.tar" "application/vnd.cncf.model.weight.v1.tar+gzip"
      "application/vnd.cncf.model.weight.v1.tar+zstd"
  | Category.config =>
    addCategory packMode l.config c "application/vnd.cncf.model.weight.config.v1.raw"
      "application/vnd.cncf.model.weight.config.v1.tar"
      "application/vnd.cncf.model.weight.config.v1.tar+gzip"
      "application/vnd.cncf.model.weight.config.v1.tar+zstd"
  | Category.docs =>
    addCategory packMode l.docs c "application/vnd.cncf.model.doc.v1.raw"
      "application/vnd.cncf.model.doc.v1.tar" "application/vnd.cncf.model.doc.v1.tar+gzip"
      "application/vnd.cncf.model.doc.v1.tar+zstd"
  | Category.code =>
    addCategory packMode l.code c "application/vnd.cncf.model.code.v1.raw"
      "application/vnd.cncf.model.code.v1.tar" "application/vnd.cncf.model.code.v1.tar+gzip"
      "application/vnd.cncf.model.code.v1.tar+zstd"
  | Category.dataset =>
    addCategory packMode l.dataset c "application/vnd.cncf.model.dataset.v1.raw"
      "application/vnd.cncf.model.dataset.v1.tar" "application/vnd.cncf.model.dataset.v1.tar+gzip"
      "application/vnd.cncf.model.dataset.v1.tar+zstd"

/-- The calls of `add_category` in the order of the script; `layers_json` grows
by the layers of each call, and the first failing call stops the script. -/
def addCategories (packMode : String) (l : ShellLists) :
    List Category → Except String (List ShLayer)
  | [] => Except.ok []
  | c :: rest =>
    match addCategoryOf packMode l c with
    | Except.error e => Except.error e
    | Except.ok ls =>
      match addCategories packMode l rest with
      | Except.error e => Except.error e
      | Except.ok more => Except.ok (ls ++ more)

/-- The layers of the manifest that the script of `generateModelpackScript`
writes for the entries of the source directory: the classification loop and
then the five calls of `add_category`; a failure of the loop stops the script
before the first call. -/
def scriptLayers (packMode : String) (size : String → Nat) (entries : List DirEntry) :
    Except String (List ShLayer) :=
  match shellLists size (allFiles entries) with
  | Except.error e => Except.error e
  | Except.ok l =>
    addCategories packMode l
      [Category.weights, Category.config, Category.docs, Category.code, Category.dataset]

/-- The walk entry of a regular file of the given size, with the metadata of an
ordinary user. -/
def fileEntry (rel : String) (size : Nat) : DirEntry :=
  { rel := rel, isDir := false,
    info := some { name := base rel, size := size, mode := 0o600, uid := 1000, gid := 1000,
                   uname := "user", gname := "user", modTime := 1700000000 } }

/-! ## The name fallbacks of build.go -/

/-- A Go `map[string]string` of build options: the nil map, or the pairs of a
map, which has one value for a key. -/
abbrev BuildOpts := Option (List (String × String))

/-- The value of a key of the map; `none` for the nil map and for an absent
key. -/
def BuildOpts.get (opts : BuildOpts) (k : String) : Option String :=
  match opts with
  | none => none
  | some m => m.lookup k

/-- The function `getBuildArg` of build.go. -/
def getBuildArg (opts : BuildOpts) (k : String) : String :=
  match opts with
  | none => ""
  | some m =>
    match m.lookup ("build-arg:" ++ k) with
    | some v => v
    | none => ""

/-- The function `determineRefName` of build.go. -/
def determineRefName (opts : BuildOpts) : String :=
  if getBuildArg opts "name" ≠ "" then getBuildArg opts "name" else "latest"

/-- The function `determineName` of build.go. -/
def determineName (opts : BuildOpts) : String :=
  if getBuildArg opts "name" ≠ "" then getBuildArg opts "name" else "aikitmodel"

/-! ## Derived notions used in the statements -/

/-- The category of the `case` for the path `f`, once `basename` has printed its
base name. -/
def nameCategory (f : String) (sz : Nat) : Category := shellCase (asciiLower (base f)) sz

/-- The lists of the loop over lines of which none begins with `-`: every line is
on the list of its category, in the order of the lines. -/
def nameLists (size : String → Nat) (files : List String) : ShellLists :=
  files.foldl (fun l f => l.append (nameCategory f (size f)) f)
    { weights := [], config := [], docs := [], code := [], dataset := [] }

/-- An ordinary path: every character is printable and is neither a double quote
nor a backslash, and neither the path nor its base name begins with `-`. The
tools of the script take such a path as it is: `find -print` writes it on one
line, `basename`, `stat` and `tar` read it as a file and not as an option, and it
stands unescaped in the JSON of the manifest. -/
def ordinaryPath (f : String) : Bool :=
  f.data.all (fun c => decide (32 ≤ c.toNat) && decide (c.toNat ≠ 34) && decide (c.toNat ≠ 92))
    && !hasPrefix f "-" && !hasPrefix (base f) "-"

/-- The files of the walk that the switch sends to the slice `s`, in the order of
the walk. -/
def sliceFiles (L : Lib) (entries : List DirEntry) (s : Slice) : List String :=
  (entries.filter (fun d => !d.isDir && decide (entrySlice L d = s))).map (fun d => d.rel)

/-- The relative paths of the regular files of the walk. -/
def regularFiles (entries : List DirEntry) : List String :=
  (entries.filter (fun d => !d.isDir)).map (fun d => d.rel)

/-- A library instance on which the definitions can be run: ASCII lower-casing,
a digest that spells the blob out, and an archive format that lists every
header field before the content. -/
def demoLib : Lib :=
  { lowerRune := Char.toLower
    sha256hex := fun b => String.mk (b.map (fun n => Char.ofNat (97 + n % 26)))
    tarEntry := fun h c =>
      if c.length = h.size then
        Except.ok (strBytes h.name ++ [h.size, h.mode, h.uid, h.gid] ++ strBytes h.uname
          ++ strBytes h.gname ++ [h.modTime.toNat] ++ c)
      else Except.error "archive/tar: write too long"
    tarTrailer := [0, 0]
    join := fun ps => String.mk (List.intercalate ['/'] (ps.map String.data))
    now := "2024-01-01T00:00:00Z" }

def Category.rank : Category → Nat
  | Category.weights => 0
  | Category.config => 1
  | Category.docs => 2
  | Category.code => 3
  | Category.dataset => 4

/-- Whether some string of `xs` and some string of `ys` can end the same name:
one of them is a suffix of the other. -/
def suffixesMeet (xs ys : List String) : Bool :=
  xs.any (fun x => ys.any (fun y => x.data.isSuffixOf y.data || y.data.isSuffixOf x.data))

/-- The layers that the call of `add_category` for `c` appends. -/
def layersFor (packMode : String) (l : ShellLists) (c : Category) : List ShLayer :=
  match addCategoryOf packMode l c with
  | Except.ok ls => ls
  | Except.error _ => []

/-- The descriptor of a blob. -/
def descriptorOf (L : Lib) (mediaType : String) (blob : Bytes) : Descriptor :=
  { mediaType := mediaType, digest := digestOf L blob, size := blob.length }

/-- The archive that `buildTarLayer` writes for a list of files. -/
def tarBlob (L : Lib) (src : SrcTree) (files : List String) : Except String Bytes :=
  match tarBody L src files with
  | Except.error e => Except.error e
  | Except.ok body => Except.ok (body ++ L.tarTrailer)

/-- The effective spec of a run: `modelpack` when the option is empty. -/
def specOf (opts : Options) : String := if opts.spec = "" then SpecModelPack else opts.spec

/-- The state of the output after `pack` has prepared the layout. -/
def initLayout (L : Lib) (opts : Options) (fs : FS) : FS :=
  (fs.mkdirAll (L.join [opts.outputDir, "blobs", "sha256"])).writeFile
    (L.join [opts.outputDir, "oci-layout"])
    (strBytes "\x7b\n  \"imageLayoutVersion\": \"1.0.0\"\n\x7d\n")

/-- The descriptor `buildTarLayer` returns for a list of files, or its error. -/
def tarDescriptor (L : Lib) (src : SrcTree) (files : List String) (mt : String) :
    Except String Descriptor :=
  match tarBlob L src files with
  | Except.error e => Except.error e
  | Except.ok blob => Except.ok (descriptorOf L mt blob)

/-- The layer of a category: none when the category has no file. -/
def categoryLayer (L : Lib) (src : SrcTree) (files : List String) (mt : String) :
    List (Except String Descriptor) :=
  if files = [] then [] else [tarDescriptor L src (sortStrings files) mt]

/-- The layers of the modelpack spec for the entries of a walk: the layer of the
weights, of the config and of the docs, in this order, with the media types
of the options or their defaults. -/
def modelPackLayers (L : Lib) (C : Codec) (src : SrcTree) (entries : List DirEntry)
    (mt : ModelPackMediaTypes) : List (Except String Descriptor) :=
  categoryLayer L src (partitionFiles L entries).weights
      (if mt.layerWeights = "" then C.mediaTypeModelWeight else mt.layerWeights)
    ++ categoryLayer L src (partitionFiles L entries).cfg
      (if mt.layerConfig = "" then C.mediaTypeModelWeightConfig else mt.layerConfig)
    ++ categoryLayer L src (partitionFiles L entries).docs
      (if mt.layerDocs = "" then C.mediaTypeModelDoc else mt.layerDocs)

/-- The layers of a run for the entries of the walk. -/
def expectedLayers (L : Lib) (C : Codec) (src : SrcTree) (entries : List DirEntry)
    (opts : Options) : List (Except String Descriptor) :=
  if specOf opts = SpecModelPack then modelPackLayers L C src entries opts.mediaTypes
  else [tarDescriptor L src (sortStrings (genericFiles entries)) C.mediaTypeImageLayer]

/-- What the packager reads of a walk entry besides its metadata: the relative
path, whether it is a directory, and the size of the file. -/
def DirEntry.view (d : DirEntry) : String × Bool × Option Nat :=
  (d.rel, d.isDir, d.info.map (fun i => i.size))

/-- Two observations of one source tree: the walks visit the same relative
paths, of the same kind and size, in the same order, and every file has the same
content and size. The owner, the permissions, the names and the modification
time that `os.Stat` and `d.Info()` report are free to differ. -/
def SameContent (s t : SrcTree) : Prop :=
  (∃ es et, s.walk = Except.ok es ∧ t.walk = Except.ok et
      ∧ es.map DirEntry.view = et.map DirEntry.view)
  ∧ (∀ rel, s.read rel = t.read rel)
  ∧ (∀ rel, (s.stat rel).map (fun i => i.size) = (t.stat rel).map (fun i => i.size))

/-- The writes of a run, the most recent first: the files of the final state
`fs1` that were not in the initial state `fs`. -/
def written (fs fs1 : FS) : List (String × Bytes) :=
  fs1.files.take (fs1.files.length - fs.files.length)

/-- The blob of a descriptor is among the writes `ws` into the layout `outDir`:
a file was written at the path of the digest, with bytes of that digest and of
that length. -/
def Stored (L : Lib) (outDir : String) (ws : List (String × Bytes)) (d : Descriptor) : Prop :=
  ∃ b, (blobPath L outDir d.digest, b) ∈ ws ∧ digestOf L b = d.digest ∧ b.length = d.size

/-- An encoder instance on which the definitions can be run, with the constants
of the two specification packages. -/
def demoCodec : Codec :=
  { marshal := fun v =>
      match v with
      | JSONValue.emptyMap => Except.ok (strBytes "\x7b\x7d")
      | JSONValue.manifest m =>
        Except.ok (strBytes "\x7bmanifest " ++ strBytes m.artifactType
          ++ strBytes m.config.digest ++ (m.layers.map (fun d => strBytes d.digest)).flatten
          ++ strBytes "\x7d")
      | JSONValue.index i =>
        Except.ok (strBytes "\x7bindex " ++ (i.manifests.map (fun d => strBytes d.digest)).flatten
          ++ strBytes "\x7d")
    marshalIndent := fun v =>
      match v with
      | JSONValue.emptyMap => Except.ok (strBytes "\x7b\x7d")
      | JSONValue.manifest m =>
        Except.ok (strBytes "\x7b\n manifest " ++ strBytes m.artifactType ++ strBytes "\n\x7d")
      | JSONValue.index i =>
        Except.ok (strBytes "\x7b\n index " ++ (i.manifests.map (fun d => strBytes d.digest)).flatten
          ++ strBytes "\n\x7d")
    mediaTypeModelConfig := "application/vnd.cncf.model.config.v1+json"
    mediaTypeModelWeight := "application/vnd.cncf.model.weight.v1.tar"
    mediaTypeModelWeightConfig := "application/vnd.cncf.model.weight.config.v1.tar"
    mediaTypeModelDoc := "application/vnd.cncf.model.doc.v1.tar"
    artifactTypeModelManifest := "application/vnd.cncf.model.manifest.v1+json"
    mediaTypeImageManifest := "application/vnd.oci.image.manifest.v1+json"
    mediaTypeImageIndex := "application/vnd.oci.image.index.v1+json"
    mediaTypeImageLayer := "application/vnd.oci.image.layer.v1.tar"
    mediaTypeImageConfig := "application/vnd.oci.image.config.v1+json"
    annotationRefName := "org.opencontainers.image.ref.name"
    annotationCreated := "org.opencontainers.image.created"
    annotationTitle := "org.opencontainers.image.title"
    annotationDescription := "org.opencontainers.image.description" }

/-- A regular file of a source directory. -/
structure SrcFile where
  rel : String
  info : FileInfo
  content : Bytes
  deriving DecidableEq, Repr

/-- The source directory that holds the given regular files: the walk visits the
root and then the files in the order of the list. -/
def treeOf (files : List SrcFile) : SrcTree :=
  { walk := Except.ok ({ rel := ".", isDir := true, info := none }
      :: files.map (fun f => { rel := f.rel, isDir := false, info := some f.info }))
    stat := fun rel => (files.find? (fun f => decide (f.rel = rel))).map (fun f => f.info)
    read := fun rel => (files.find? (fun f => decide (f.rel = rel))).map (fun f => f.content) }

/-- A world in which every source resolves to the directory `t`. -/
def worldOf (t : SrcTree) : World :=
  { localResolver := fun _ => Except.ok t
    hfResolver := fun _ => Except.ok t
    huggingfaceFileResolver := fun _ => Except.ok t
    httpResolver := fun _ => Except.ok t }

/-- A file with the metadata of an ordinary user. -/
def userFile (rel : String) (content : Bytes) : SrcFile :=
  { rel := rel, content := content,
    info := { name := base rel, size := content.length, mode := 0o600, uid := 1000, gid := 1000,
              uname := "user", gname := "users", modTime := 1700000000 } }

/-- The same file with the metadata of the administrator and another time. -/
def rootFile (rel : String) (content : Bytes) : SrcFile :=
  { rel := rel, content := content,
    info := { name := base rel, size := content.length, mode := 0o755, uid := 0, gid := 0,
              uname := "root", gname := "root", modTime := 1600000000 } }

/-- Options of a modelpack run. -/
def demoOpts (outDir : String) (spec : String) : Options :=
  { source := "model-dir", outputDir := outDir, artifactType := "", spec := spec, name := "My Model 1",
    mediaTypes := { manifestConfig := "", layerWeights := "", layerConfig := "", layerDocs := "" } }

/-- The empty output file system. -/
def emptyFS : FS := { dirs := [], files := [] }

/-- The result of a run, for a run that succeeded. -/
def resultOf (x : Except String Result × FS) : Result :=
  match x.1 with
  | Except.ok r => r
  | Except.error _ =>
    { layoutPath := "",
      manifest := { schemaVersion := 0, mediaType := "", artifactType := "",
                    config := { mediaType := "", digest := "", size := 0 }, layers := [] },
      index := { schemaVersion := 0, mediaType := "", manifests := [], annotations := [] } }

/-- A model directory, as an ordinary user holds it. -/
def demoFilesA : List SrcFile :=
  [userFile "README.md" [35, 32, 77], userFile "config.json" [123, 125],
   userFile "model.safetensors" [1, 2, 3, 4], userFile "sub/misc.xyz" [9]]

/-- The same directory after a copy by the administrator: same paths and contents,
other owners, permissions and times. -/
def demoFilesB : List SrcFile :=
  [rootFile "README.md" [35, 32, 77], rootFile "config.json" [123, 125],
   rootFile "model.safetensors" [1, 2, 3, 4], rootFile "sub/misc.xyz" [9]]

/-- The walk of a directory that holds a weight file, its lock file and a cache
directory with one file. -/
def lockedEntries : List DirEntry :=
  [{ rel := ".", isDir := true, info := none },
   { rel := ".cache", isDir := true, info := none },
   fileEntry ".cache/download.tmp" 5,
   fileEntry "model.bin" 8,
   fileEntry "model.bin.lock" 0]

/-- The mapping of one character in the words of the specification: ASCII
lower-case letters, digits and `/ . _ -` pass, ASCII upper-case letters are
lower-cased, every other character becomes `-`. -/
def specRefChar (c : Char) : Char :=
  if c.isLower ∨ c.isDigit ∨ c = '/' ∨ c = '.' ∨ c = '_' ∨ c = '-' then c
  else if c.isUpper then c.toLower
  else '-'

/-- Options of a modelpack run with the four media types overridden. -/
def overrideOpts : Options :=
  { source := "model-dir", outputDir := "out", artifactType := "", spec := "modelpack", name := "",
    mediaTypes := { manifestConfig := "custom/mcfg", layerWeights := "custom/w",
                    layerConfig := "custom/c", layerDocs := "custom/d" } }

/-- What `buildTarLayer` hands to the writer for the file `rel` and what the writer
emits for it: the header `e.1`, which has the normalized fields and the size
that `os.Stat` reports, the content `e.2.1` of the file, and the bytes `e.2.2`
of the entry. -/
def WrittenEntry (L : Lib) (src : SrcTree) (rel : String) (e : Header × Bytes × Bytes) : Prop :=
  e.1.name = toSlash rel ∧ e.1.mode = 0o644 ∧ e.1.uid = 0 ∧ e.1.gid = 0
  ∧ e.1.uname = "" ∧ e.1.gname = "" ∧ e.1.modTime = 0
  ∧ (∃ st, src.stat rel = some st ∧ e.1.size = st.size)
  ∧ src.read rel = some e.2.1
  ∧ L.tarEntry e.1 e.2.1 = Except.ok e.2.2

/-- The descriptor of a call of `buildTarLayer`, for a call that succeeded. -/
def layerOf (x : Except String Descriptor × FS) : Descriptor :=
  match x.1 with
  | Except.ok d => d
  | Except.error _ => { mediaType := "", digest := "", size := 0 }

/-- The entries of the walk of a source directory, for a walk that succeeds. -/
def walkOf (t : SrcTree) : List DirEntry :=
  match t.walk with
  | Except.ok es => es
  | Except.error _ => []

/-! ## Further options of the runs on a concrete directory -/

/-- Options of a run with an artifact type of its own. -/
def typedOpts (spec : String) : Options :=
  { source := "model-dir", outputDir := "out", artifactType := "application/x.custom", spec := spec,
    name := "typed",
    mediaTypes := { manifestConfig := "", layerWeights := "", layerConfig := "", layerDocs := "" } }

/-! ## The base image of convert.go -/

/-- The constant `debianSlim`. -/
def debianSlim : String := "docker.io/library/debian:12-slim"

/-- The constant `distrolessBase`. -/
def distrolessBase : String := "gcr.io/distroless/cc-debian12:latest"

/-- The constant `utils.BackendExllamaV2`. -/
def BackendExllamaV2 : String := "exllama2"

/-- The constant `utils.BackendStableDiffusion`. -/
def BackendStableDiffusion : String := "stablediffusion"

/-- The function `getBaseImage` on the list `c.Backends`, an image being given by
its reference. The constant `utils.BackendExllama` is an argument. A Go `case`
does not fall through: the case of `backendExllama` has an empty body, so the
loop goes on to the next backend. -/
def getBaseImage (backendExllama : String) : List String → String
  | [] => distrolessBase
  | b :: rest =>
    if b = backendExllama then getBaseImage backendExllama rest
    else if b = BackendExllamaV2 then debianSlim
    else if b = BackendStableDiffusion then debianSlim
    else getBaseImage backendExllama rest

/-! ## A world that names its resolvers -/

/-- A world in which every resolver answers with its own name, so that the
result of `resolveSource` shows which one was called. -/
def tagWorld : World :=
  { localResolver := fun _ => Except.error "localResolver"
    hfResolver := fun _ => Except.error "hfResolver"
    huggingfaceFileResolver := fun _ => Except.error "huggingfaceFileResolver"
    httpResolver := fun _ => Except.error "httpResolver" }

/-! ## The text of the scripts -/

/-- The text of the template of `generateModelpackScript` before its first verb. -/
def modelpackTemplate0 : String :=
  "set -euo pipefail\n" ++
  "PACK_MODE="

/-- The text of the template of `generateModelpackScript` between its verbs 1 and 2. -/
def modelpackTemplate1 : String :=
  "\n" ++
  "mkdir -p /layout/blobs/sha256\n" ++
  "src=/src\n" ++
  "if [ -f /src ]; then mkdir -p /worksrc && cp /src /worksrc/; src=/worksrc; fi\n" ++
  "cd \"$src\"\n" ++
  "> /tmp/weights.list\n" ++
  "> /tmp/config.list\n" ++
  "> /tmp/docs.list\n" ++
  "> /tmp/code.list\n" ++
  "> /tmp/dataset.list\n" ++
  "\n" ++
  "find . -type f ! -name \x27*.lock\x27 ! -path \x27./.cache/*\x27 -print | sed \x27s|^./||\x27 | LC_ALL=C sort > /tmp/allfiles.list\n" ++
  "while IFS= read -r f; do\n" ++
  "\tbase=$(basename \"$f\" | tr A-Z a-z)\n" ++
  "\tcase \"$base\" in\n" ++
  "\t\t*.safetensors|*.bin|*.gguf|*.pt|*.ckpt) echo \"$f\" >> /tmp/weights.list ;;\n" ++
  "\t\treadme*|license*|license|*.md) echo \"$f\" >> /tmp/docs.list ;;\n" ++
  "\t\tconfig.json|tokenizer.json|*tokenizer*.json|generation_config.json|*.json|*.txt) echo \"$f\" >> /tmp/config.list ;;\n" ++
  "\t\t*.py|*.sh|*.ipynb|*.go|*.js|*.ts) echo \"$f\" >> /tmp/code.list ;;\n" ++
  "\t\t*.csv|*.tsv|*.jsonl|*.parquet|*.arrow|*.h5|*.npz) echo \"$f\" >> /tmp/dataset.list ;;\n" ++
  "\t\t*) sz=$(stat -c%s \"$f\"); if [ \"$sz\" -gt 10485760 ]; then echo \"$f\" >> /tmp/weights.list; else echo \"$f\" >> /tmp/config.list; fi ;;\n" ++
  "\tesac\n" ++
  "done < /tmp/allfiles.list\n" ++
  "\n" ++
  "layers_json=\"\"\n" ++
  "append_layer() \x7b file=\"$1\"; mt=\"$2\"; fpath=\"$3\"; metaJson=\"$4\"; untested=\"$5\"; [ ! -f \"$file\" ] && return 0; dgst=$(sha256sum \"$file\" | cut -d\x27 \x27 -f1); size=$(stat -c%s \"$file\"); mv \"$file\" /layout/blobs/sha256/$dgst; [ -n \"$layers_json\" ] && layers_json=\"$layers_json , \"; metaEsc=$(printf \x27%s\x27 \"$metaJson\" | sed \x27s/\"/\\\\\"/g\x27); ann=\"\x7b \\\"org.cncf.model.filepath\\\": \\\"$fpath\\\", \\\"org.cncf.model.file.metadata+json\\\": \\\"$metaEsc\\\", \\\"org.cncf.model.file.mediatype.untested\\\": \\\"$untested\\\" \x7d\"; layers_json=\"$\x7blayers_json\x7d\x7b \\\"mediaType\\\": \\\"$mt\\\", \\\"digest\\\": \\\"sha256:$dgst\\\", \\\"size\\\": $size, \\\"annotations\\\": $ann \x7d\"; \x7d\n" ++
  "\n" ++
  "det_tar() \x7b list=\"$1\"; out=\"$2\"; [ ! -s \"$list\" ] && return 1; tar -cf \"$out\" -T \"$list\"; \x7d\n" ++
  "\n" ++
  "add_category() \x7b\n" ++
  "\tlist=\"$1\"; cat=\"$2\"; mtRaw=\"$3\"; mtTar=\"$4\"; mtTarGz=\"$5\"; mtTarZst=\"$6\"; [ ! -s \"$list\" ] && return 0\n" ++
  "\tcase \"$PACK_MODE\" in\n" ++
  "\t\traw)\n" ++
  "\t\t\twhile IFS= read -r f; do fsize=$(stat -c%s \"$f\"); meta=$(printf \x27\x7b\"name\":\"%s\",\"mode\":420,\"uid\":0,\"gid\":0,\"size\":%s,\"mtime\":\"1970-01-01T00:00:00Z\",\"typeflag\":0\x7d\x27 \"$f\" \"$fsize\"); tmpCp=/tmp/raw-$(basename \"$f\"); cp \"$f\" \"$tmpCp\"; append_layer \"$tmpCp\" \"$mtRaw\" \"$f\" \"$meta\" \"true\"; done < \"$list\" ;;\n" ++
  "\t\ttar|tar+gzip|tar+zstd)\n" ++
  "\t\t\tif [ \"$cat\" = \"weights\" ]; then\n" ++
  "\t\t\t\twhile IFS= read -r f; do b=$(basename \"$f\"); tmpTar=/tmp/$\x7bcat\x7d-$b.tar; tar -cf \"$tmpTar\" -C \"$(dirname \"$f\")\" \"$b\"; case \"$PACK_MODE\" in tar) mt=$mtTar ;; tar+gzip) gzip -n \"$tmpTar\"; tmpTar=\"$tmpTar.gz\"; mt=$mtTarGz ;; tar+zstd) zstd -q --no-progress \"$tmpTar\"; tmpTar=\"$tmpTar.zst\"; mt=$mtTarZst ;; esac; fsize=$(stat -c%s \"$f\"); meta=$(printf \x27\x7b\"name\":\"%s\",\"mode\":420,\"uid\":0,\"gid\":0,\"size\":%s,\"mtime\":\"1970-01-01T00:00:00Z\",\"typeflag\":0\x7d\x27 \"$f\" \"$fsize\"); append_layer \"$tmpTar\" \"$mt\" \"$f\" \"$meta\" \"true\"; done < \"$list\"\n" ++
  "\t\t\telse\n" ++
  "\t\t\t\ttmpTar=/tmp/$\x7bcat\x7d.tar; det_tar \"$list\" \"$tmpTar\" || return 0; case \"$PACK_MODE\" in tar) outFile=\"$tmpTar\"; mt=$mtTar ;; tar+gzip) gzip -n \"$tmpTar\"; outFile=\"$tmpTar.gz\"; mt=$mtTarGz ;; tar+zstd) zstd -q --no-progress \"$tmpTar\"; outFile=\"$tmpTar.zst\"; mt=$mtTarZst ;; esac; count=$(wc -l < \"$list\" | tr -d \x27 \x27); totalSize=0; while IFS= read -r f2; do sz=$(stat -c%s \"$f2\"); totalSize=$((totalSize + sz)); done < \"$list\"; meta=$(printf \x27\x7b\"name\":\"%s\",\"mode\":420,\"uid\":0,\"gid\":0,\"size\":%s,\"mtime\":\"1970-01-01T00:00:00Z\",\"typeflag\":0,\"files\":%d\x7d\x27 \"$cat\" \"$totalSize\" \"$count\"); append_layer \"$outFile\" \"$mt\" \"$cat\" \"$meta\" \"true\"\n" ++
  "\t\t\tfi ;;\n" ++
  "\t\t*) echo \"unknown PACK_MODE $PACK_MODE\" >&2; exit 1 ;;\n" ++
  "\tesac\n" ++
  "\x7d\n" ++
  "\n" ++
  "add_category /tmp/weights.list weights \\\n" ++
  "\tapplication/vnd.cncf.model.weight.v1.raw \\\n" ++
  "\tapplication/vnd.cncf.model.weight.v1.tar \\\n" ++
  "\tapplication/vnd.cncf.model.weight.v1.tar+gzip \\\n" ++
  "\tapplication/vnd.cncf.model.weight.v1.tar+zstd\n" ++
  "add_category /tmp/config.list config \\\n" ++
  "\tapplication/vnd.cncf.model.weight.config.v1.raw \\\n" ++
  "\tapplication/vnd.cncf.model.weight.config.v1.tar \\\n" ++
  "\tapplication/vnd.cncf.model.weight.config.v1.tar+gzip \\\n" ++
  "\tapplication/vnd.cncf.model.weight.config.v1.tar+zstd\n" ++
  "add_category /tmp/docs.list docs \\\n" ++
  "\tapplication/vnd.cncf.model.doc.v1.raw \\\n" ++
  "\tapplication/vnd.cncf.model.doc.v1.tar \\\n" ++
  "\tapplication/vnd.cncf.model.doc.v1.tar+gzip \\\n" ++
  "\tapplication/vnd.cncf.model.doc.v1.tar+zstd\n" ++
  "add_category /tmp/code.list code \\\n" ++
  "\tapplication/vnd.cncf.model.code.v1.raw \\\n" ++
  "\tapplication/vnd.cncf.model.code.v1.tar \\\n" ++
  "\tapplication/vnd.cncf.model.code.v1.tar+gzip \\\n" ++
  "\tapplication/vnd.cncf.model.code.v1.tar+zstd\n" ++
  "add_category /tmp/dataset.list dataset \\\n" ++
  "\tapplication/vnd.cncf.model.dataset.v1.raw \\\n" ++
  "\tapplication/vnd.cncf.model.dataset.v1.tar \\\n" ++
  "\tapplication/vnd.cncf.model.dataset.v1.tar+gzip \\\n" ++
  "\tapplication/vnd.cncf.model.dataset.v1.tar+zstd\n" ++
  "\n" ++
  "printf \x27\x7b\x7d\x27 > /tmp/manifest-config.json\n" ++
  "mc_dgst=$(sha256sum /tmp/manifest-config.json | cut -d\x27 \x27 -f1)\n" ++
  "mc_size=$(stat -c%s /tmp/manifest-config.json)\n" ++
  "cp /tmp/manifest-config.json /layout/blobs/sha256/$mc_dgst\n" ++
  "\n" ++
  "cat > /tmp/manifest.json <<EOF_MANIFEST\n" ++
  "\x7b \"schemaVersion\": 2, \"mediaType\": \"application/vnd.oci.image.manifest.v1+json\", \"artifactType\": \""

/-- The text of the template of `generateModelpackScript` between its verbs 2 and 3. -/
def modelpackTemplate2 : String :=
  "\", \"config\": \x7b\"mediaType\": \""

/-- The text of the template of `generateModelpackScript` between its verbs 3 and 4. -/
def modelpackTemplate3 : String :=
  "\", \"digest\": \"sha256:$mc_dgst\", \"size\": $mc_size\x7d, \"layers\": [ $layers_json ] \x7d\n" ++
  "EOF_MANIFEST\n" ++
  "if [ \"$(head -c1 /tmp/manifest.json)\" != \"\x7b\" ] || \\\n" ++
  "\t ! grep -q \x27\"schemaVersion\": 2\x27 /tmp/manifest.json || \\\n" ++
  "\t ! grep -q \x27\"mediaType\": \"application/vnd.oci.image.manifest.v1+json\"\x27 /tmp/manifest.json; then\n" ++
  "\techo \"manifest validation failed\" >&2; cat /tmp/manifest.json >&2; exit 1\n" ++
  "fi\n" ++
  "m_dgst=$(sha256sum /tmp/manifest.json | cut -d\x27 \x27 -f1)\n" ++
  "m_size=$(stat -c%s /tmp/manifest.json)\n" ++
  "cp /tmp/manifest.json /layout/blobs/sha256/$m_dgst\n" ++
  "\n" ++
  "cat > /layout/index.json <<IDX\n" ++
  "\x7b \"schemaVersion\": 2, \"mediaType\": \"application/vnd.oci.image.index.v1+json\", \"manifests\": [ \x7b \"mediaType\": \"application/vnd.oci.image.manifest.v1+json\", \"digest\": \"sha256:$m_dgst\", \"size\": $m_size, \"annotations\": \x7b \"org.opencontainers.image.title\": \""

/-- The text of the template of `generateModelpackScript` between its verbs 4 and 5. -/
def modelpackTemplate4 : String :=
  "\", \"org.opencontainers.image.ref.name\": \""

/-- The text of the template of `generateModelpackScript` after its last verb. -/
def modelpackTemplate5 : String :=
  "\" \x7d \x7d ] \x7d\n" ++
  "IDX\n" ++
  "printf \x27\x7b \"imageLayoutVersion\": \"1.0.0\" \x7d\x27 > /layout/oci-layout\n"

/-- The text of the template of `generateGenericScript` before its first verb. -/
def genericTemplate0 : String :=
  "set -euo pipefail\n"

/-- The text of the template of `generateGenericScript` between its verbs 1 and 2. -/
def genericTemplate1 : String :=
  "\n" ++
  "PACK_MODE="

/-- The text of the template of `generateGenericScript` between its verbs 2 and 3. -/
def genericTemplate2 : String :=
  "\n" ++
  "mkdir -p /layout/blobs/sha256\n" ++
  "work=/src\n" ++
  "if [ -f /src ]; then mkdir -p /worksrc && cp /src /worksrc/; work=/worksrc; fi\n" ++
  "cd \"$work\"\n" ++
  "find . -type f ! -name \x27*.lock\x27 ! -path \x27./.cache/*\x27 -print | sed \x27s|^./||\x27 | LC_ALL=C sort > /tmp/files.list\n" ++
  "layers_json=\"\"\n" ++
  "append_layer() \x7b file=\"$1\"; mt=\"$2\"; [ ! -f \"$file\" ] && return 0; dgst=$(sha256sum \"$file\" | cut -d\x27 \x27 -f1); size=$(stat -c%s \"$file\"); mv \"$file\" /layout/blobs/sha256/$dgst; [ -n \"$layers_json\" ] && layers_json=\"$layers_json , \"; layers_json=\"$\x7blayers_json\x7d\x7b \\\"mediaType\\\": \\\"$mt\\\", \\\"digest\\\": \\\"sha256:$dgst\\\", \\\"size\\\": $size \x7d\"; \x7d\n" ++
  "case \"$PACK_MODE\" in\n" ++
  "\traw)\n" ++
  "\t\twhile IFS= read -r f; do cp \"$f\" \"/tmp/$(basename \"$f\")\"; append_layer \"/tmp/$(basename \"$f\")\" \""

/-- The text of the template of `generateGenericScript` between its verbs 3 and 4. -/
def genericTemplate3 : String :=
  "\"; done < /tmp/files.list ;;\n" ++
  "\ttar|tar+gzip|tar+zstd)\n" ++
  "\t\ttarFile=/tmp/allfiles.tar; tar -cf \"$tarFile\" -T /tmp/files.list || true\n" ++
  "\t\tmt=\""

/-- The text of the template of `generateGenericScript` between its verbs 4 and 5. -/
def genericTemplate4 : String :=
  "\"\n" ++
  "\t\tcase \"$PACK_MODE\" in\n" ++
  "\t\t\ttar) outFile=\"$tarFile\" ;;\n" ++
  "\t\t\ttar+gzip) gzip -n \"$tarFile\"; outFile=\"$tarFile.gz\" ;;\n" ++
  "\t\t\ttar+zstd) zstd -q --no-progress \"$tarFile\"; outFile=\"$tarFile.zst\" ;;\n" ++
  "\t\tesac\n" ++
  "\t\tappend_layer \"$outFile\" \"$mt\" ;;\n" ++
  "\t*) echo \"unknown PACK_MODE $PACK_MODE\" >&2; exit 1 ;;\n" ++
  "esac\n" ++
  "printf \x27\x7b\x7d\x27 > /tmp/config.json\n" ++
  "cfg_dgst=$(sha256sum /tmp/config.json | awk \x27\x7bprint $1\x7d\x27)\n" ++
  "cfg_size=$(stat -c%s /tmp/config.json)\n" ++
  "cp /tmp/config.json /layout/blobs/sha256/$cfg_dgst\n" ++
  "manifest=\"\x7b \\\"schemaVersion\\\": 2, \\\"mediaType\\\": \\\"application/vnd.oci.image.manifest.v1+json\\\", \\\"artifactType\\\": \\\""

/-- The text of the template of `generateGenericScript` between its verbs 5 and 6. -/
def genericTemplate5 : String :=
  "\\\", \\\"config\\\": \x7b\\\"mediaType\\\": \\\"application/vnd.oci.empty.v1+json\\\", \\\"digest\\\": \\\"sha256:$cfg_dgst\\\", \\\"size\\\": $cfg_size\x7d, \\\"layers\\\": [ $layers_json ] \x7d\"\n" ++
  "printf \x27%s\x27 \"$manifest\" > /tmp/manifest.json\n" ++
  "m_dgst=$(sha256sum /tmp/manifest.json | awk \x27\x7bprint $1\x7d\x27)\n" ++
  "m_size=$(stat -c%s /tmp/manifest.json)\n" ++
  "cp /tmp/manifest.json /layout/blobs/sha256/$m_dgst\n" ++
  "cat > /layout/index.json <<EOF\n" ++
  "\x7b \"schemaVersion\": 2, \"mediaType\": \"application/vnd.oci.image.index.v1+json\", \"manifests\": [ \x7b \"mediaType\": \"application/vnd.oci.image.manifest.v1+json\", \"digest\": \"sha256:$m_dgst\", \"size\": $m_size, \"annotations\": \x7b \"org.opencontainers.image.title\": \""

/-- The text of the template of `generateGenericScript` between its verbs 6 and 7. -/
def genericTemplate6 : String :=
  "\", \"org.opencontainers.image.ref.name\": \""

/-- The text of the template of `generateGenericScript` after its last verb. -/
def genericTemplate7 : String :=
  "\" \x7d \x7d ] \x7d\n" ++
  "EOF\n" ++
  "cat > /layout/oci-layout <<EOF\n" ++
  "\x7b \"imageLayoutVersion\": \"1.0.0\" \x7d\n" ++
  "EOF\n"

/-- The function `generateModelpackScript`: `fmt.Sprintf` puts each argument in
the place of its verb, and `%%` gives `%`. -/
def generateModelpackScript (packMode artifactType mtManifest name refName : String) : String :=
  modelpackTemplate0 ++ packMode ++ modelpackTemplate1 ++ artifactType ++ modelpackTemplate2
    ++ mtManifest ++ modelpackTemplate3 ++ name ++ modelpackTemplate4 ++ refName
    ++ modelpackTemplate5

/-- The constant `packModeRaw`. -/
def packModeRaw : String := "raw"

/-- The function `generateGenericScript`; the constant `ocispec.MediaTypeImageLayer`
comes from the library. -/
def generateGenericScript (C : Codec) (packMode artifactType name refName : String)
    (debug : Bool) : String :=
  let debugLine := if debug then "set -x" else ""
  let rawLayerMT := if packMode = packModeRaw then "application/octet-stream"
    else C.mediaTypeImageLayer
  let archiveLayerMT := C.mediaTypeImageLayer
  genericTemplate0 ++ debugLine ++ genericTemplate1 ++ packMode ++ genericTemplate2 ++ rawLayerMT
    ++ genericTemplate3 ++ archiveLayerMT ++ genericTemplate4 ++ artifactType ++ genericTemplate5
    ++ name ++ genericTemplate6 ++ refName ++ genericTemplate7

/-- A piece of text `p` isolates the text `sub`: `p` is not empty, neither its
first nor its last character occurs in `sub`, and `sub` does not occur in `p`. -/
def isolates (sub p : List Char) : Bool :=
  p.head?.any (fun c => !sub.contains c) && p.getLast?.any (fun e => !sub.contains e)
    && !p.tails.any (fun t => sub.isPrefixOf t)

/-! ## The files on which the classifiers are compared -/

/-- The files on which the two classifiers are compared: the path is ordinary,
the size is known, the lower-casing of Go and of `tr A-Z a-z` agree on the base
name, the script does not file the name under code or dataset, the name does
not combine a `readme` or `license` start with a `.json` or `.txt` ending, and the
size is not 10485760. -/
def Comparable (L : Lib) (d : DirEntry) (sz : Nat) : Prop :=
  ordinaryPath d.rel = true
  ∧ d.info.map (fun i => i.size) = some sz
  ∧ toLower L (base d.rel) = asciiLower (base d.rel)
  ∧ shellCategory d.rel sz ≠ Except.ok Category.code
  ∧ shellCategory d.rel sz ≠ Except.ok Category.dataset
  ∧ ¬ ((hasPrefix (asciiLower (base d.rel)) "readme" = true
        ∨ hasPrefix (asciiLower (base d.rel)) "license" = true)
      ∧ (hasSuffix (asciiLower (base d.rel)) ".json" = true
        ∨ hasSuffix (asciiLower (base d.rel)) ".txt" = true))
  ∧ sz ≠ 10485760

instance (L : Lib) (d : DirEntry) (sz : Nat) : Decidable (Comparable L d sz) := by
  unfold Comparable
  infer_instance

/-- A directory of comparable files: a readme, a config, a weight file, a file of
no known kind, all of seven bytes. -/
def comparableEntries : List DirEntry :=
  [{ rel := ".", isDir := true, info := none }, fileEntry "README.md" 7,
   fileEntry "config.json" 7, fileEntry "model.safetensors" 7, fileEntry "sub/misc.xyz" 7]

/-! # Theorems -/

set_option maxRecDepth 100000

/-! ## Classification by the native packager -/

theorem sliceFiles_cons_dir (L : Lib) (d : DirEntry) (rest : List DirEntry) (s : Slice)
    (hd : d.isDir = true) : sliceFiles L (d :: rest) s = sliceFiles L rest s := by
  simp [sliceFiles, List.filter_cons, hd]

theorem sliceFiles_cons_file (L : Lib) (d : DirEntry) (rest : List DirEntry) (s : Slice)
    (hd : d.isDir = false) :
    sliceFiles L (d :: rest) s =
      if entrySlice L d = s then d.rel :: sliceFiles L rest s else sliceFiles L rest s := by
  by_cases hs : entrySlice L d = s <;> simp [sliceFiles, List.filter_cons, hd, hs]

/-- The walk appends to each slice the files the switch sends to it. -/
theorem foldl_walkFn (L : Lib) (entries : List DirEntry) (p : Partition) :
    entries.foldl (walkFn L) p =
      { weights := p.weights ++ sliceFiles L entries Slice.weights,
        cfg := p.cfg ++ sliceFiles L entries Slice.cfg,
        docs := p.docs ++ sliceFiles L entries Slice.docs } := by
  induction entries generalizing p with
  | nil => simp [sliceFiles]
  | cons d rest ih =>
    rw [List.foldl_cons, ih]
    by_cases hd : d.isDir = true
    · simp [walkFn, hd, sliceFiles]
    · cases hs : entrySlice L d <;>
        simp [walkFn, hd, hs, sliceFiles, Partition.append, List.filter_cons]

theorem partitionFiles_eq (L : Lib) (entries : List DirEntry) :
    partitionFiles L entries =
      { weights := sliceFiles L entries Slice.weights,
        cfg := sliceFiles L entries Slice.cfg,
        docs := sliceFiles L entries Slice.docs } := by
  simp [partitionFiles, foldl_walkFn]

theorem sliceFiles_perm (L : Lib) (entries : List DirEntry) :
    (sliceFiles L entries Slice.weights ++ sliceFiles L entries Slice.cfg
      ++ sliceFiles L entries Slice.docs).Perm (regularFiles entries) := by
  induction entries with
  | nil => simp [sliceFiles, regularFiles]
  | cons d rest ih =>
    by_cases hd : d.isDir = true
    · have hreg : regularFiles (d :: rest) = regularFiles rest := by
        simp [regularFiles, List.filter_cons, hd]
      rw [hreg]
      simp only [sliceFiles_cons_dir L d rest _ hd]
      exact ih
    · have hd2 : d.isDir = false := by simpa using hd
      have hreg : regularFiles (d :: rest) = d.rel :: regularFiles rest := by
        simp [regularFiles, List.filter_cons, hd2]
      rw [hreg]
      simp only [sliceFiles_cons_file L d rest _ hd2]
      cases hs : entrySlice L d
      · simp only [reduceCtorEq, if_false, if_true, List.cons_append]
        exact List.Perm.cons d.rel ih
      · simp only [reduceCtorEq, if_false, if_true]
        rw [List.append_assoc]
        refine List.Perm.trans ?_ (List.Perm.cons d.rel ih)
        have hm := @List.perm_middle _ d.rel (sliceFiles L rest Slice.weights)
          (sliceFiles L rest Slice.cfg ++ sliceFiles L rest Slice.docs)
        simp only [List.append_assoc, List.cons_append] at hm ⊢
        exact hm
      · simp only [reduceCtorEq, if_false, if_true]
        refine List.Perm.trans ?_ (List.Perm.cons d.rel ih)
        simpa [List.append_assoc] using
          (@List.perm_middle _ d.rel
            (sliceFiles L rest Slice.weights ++ sliceFiles L rest Slice.cfg)
            (sliceFiles L rest Slice.docs))

theorem sortStrings_perm (l : List String) : (sortStrings l).Perm l :=
  List.perm_insertionSort StrLE l

/-- C2. Classification completeness: the three slices that `buildModelPackLayers`
fills, before and after they are sorted, are together a permutation of the
regular files of the walk, and every path occurs in the slices as many times as
among the regular files: no file is lost and none is duplicated. -/
theorem classification_complete (L : Lib) (entries : List DirEntry) :
    ((partitionFiles L entries).weights ++ (partitionFiles L entries).cfg
        ++ (partitionFiles L entries).docs).Perm (regularFiles entries)
    ∧ (sortStrings (partitionFiles L entries).weights ++ sortStrings (partitionFiles L entries).cfg
        ++ sortStrings (partitionFiles L entries).docs).Perm (regularFiles entries)
    ∧ ∀ f : String, (partitionFiles L entries).weights.count f
        + (partitionFiles L entries).cfg.count f + (partitionFiles L entries).docs.count f
        = (regularFiles entries).count f := by
  have h := sliceFiles_perm L entries
  rw [partitionFiles_eq]
  refine ⟨h, ?_, ?_⟩
  · exact (((sortStrings_perm _).append (sortStrings_perm _)).append (sortStrings_perm _)).trans h
  · intro f
    have hc := h.count_eq f
    rw [List.count_append, List.count_append] at hc
    exact hc

/-- C5. Weights rule: a file whose lower-cased base name ends in `.safetensors`,
`.bin`, `.gguf`, `.pt` or `.ckpt` is appended to the weights, whatever the case of
its name, its directory and its size. -/
theorem weights_rule (L : Lib) (d : DirEntry)
    (h : hasAnySuffix (toLower L (base d.rel))
      [".safetensors", ".bin", ".gguf", ".pt", ".ckpt"] = true) :
    entrySlice L d = Slice.weights := by
  simp [entrySlice, nativeSwitch, h]

/-- The weights rule at the one-byte `a.bin` and at `MODEL.SAFETENSORS` in a subdirectory. -/
theorem weights_rule_witness :
    entrySlice demoLib (fileEntry "a.bin" 1) = Slice.weights
    ∧ entrySlice demoLib (fileEntry "sub/dir/MODEL.SAFETENSORS" 20000000) = Slice.weights :=
  ⟨weights_rule demoLib _ (by decide), weights_rule demoLib _ (by decide)⟩

/-- C7. Size-fallback boundary: a file whose lower-cased base name matches none
of the cases of the switch goes to the weights exactly when its size is at least
10485760 bytes, and to the config exactly when it is smaller. -/
theorem size_fallback_boundary (L : Lib) (d : DirEntry) (i : FileInfo)
    (hi : d.info = some i)
    (hw : hasAnySuffix (toLower L (base d.rel))
      [".safetensors", ".bin", ".gguf", ".pt", ".ckpt"] = false)
    (hc : ¬ (toLower L (base d.rel) = "config.json" ∨ toLower L (base d.rel) = "tokenizer.json"
      ∨ hasSuffix (toLower L (base d.rel)) ".json" = true
      ∨ hasSuffix (toLower L (base d.rel)) ".txt" = true))
    (hd : ¬ (hasPrefix (toLower L (base d.rel)) "readme" = true
      ∨ hasPrefix (toLower L (base d.rel)) "license" = true
      ∨ hasSuffix (toLower L (base d.rel)) ".md" = true)) :
    (entrySlice L d = Slice.weights ↔ 10485760 ≤ i.size)
    ∧ (entrySlice L d = Slice.cfg ↔ i.size < 10485760) := by
  have hsw : entrySlice L d = if i.size < 10485760 then Slice.cfg else Slice.weights := by
    simp only [entrySlice, nativeSwitch, hw, hi, if_neg hc, if_neg hd]
    rfl
  rw [hsw]
  by_cases hs : i.size < 10485760
  · rw [if_pos hs]
    exact ⟨⟨fun h => (by cases h), fun h => absurd hs (by omega)⟩, ⟨fun _ => hs, fun _ => rfl⟩⟩
  · rw [if_neg hs]
    exact ⟨⟨fun _ => (by omega), fun _ => rfl⟩, ⟨fun h => (by cases h), fun h => absurd h hs⟩⟩

/-- The size fallback at one byte below, at, and one byte above 10 MiB. -/
theorem size_fallback_boundary_witness :
    entrySlice demoLib (fileEntry "blob.dat" 10485759) = Slice.cfg
    ∧ entrySlice demoLib (fileEntry "blob.dat" 10485760) = Slice.weights
    ∧ entrySlice demoLib (fileEntry "blob.dat" 10485761) = Slice.weights :=
  ⟨(size_fallback_boundary demoLib (fileEntry "blob.dat" 10485759) _ rfl
      (by decide) (by decide) (by decide)).2.2 (by decide),
   (size_fallback_boundary demoLib (fileEntry "blob.dat" 10485760) _ rfl
      (by decide) (by decide) (by decide)).1.2 (by decide),
   (size_fallback_boundary demoLib (fileEntry "blob.dat" 10485761) _ rfl
      (by decide) (by decide) (by decide)).1.2 (by decide)⟩

/-- C8. Extension-first precedence: a file whose lower-cased base name ends in
`.json` or `.txt` and has no weights extension is appended to the config whatever
`d.Info()` reports, so whatever its size (also when the name starts with `readme`
or `license`); the size is looked at in the default case only. -/
theorem extension_first (L : Lib) (d : DirEntry)
    (hw : hasAnySuffix (toLower L (base d.rel))
      [".safetensors", ".bin", ".gguf", ".pt", ".ckpt"] = false)
    (hj : hasSuffix (toLower L (base d.rel)) ".json" = true
      ∨ hasSuffix (toLower L (base d.rel)) ".txt" = true) :
    entrySlice L d = Slice.cfg := by
  have hc : toLower L (base d.rel) = "config.json" ∨ toLower L (base d.rel) = "tokenizer.json"
      ∨ hasSuffix (toLower L (base d.rel)) ".json" = true
      ∨ hasSuffix (toLower L (base d.rel)) ".txt" = true := by
    rcases hj with h | h
    · exact Or.inr (Or.inr (Or.inl h))
    · exact Or.inr (Or.inr (Or.inr h))
  simp only [entrySlice, nativeSwitch, hw, if_pos hc]
  simp

/-- A `.json` file of 10 MiB and a small `.txt` file both go to the config. -/
theorem extension_first_witness :
    entrySlice demoLib (fileEntry "data/Big.JSON" 10485760) = Slice.cfg
    ∧ entrySlice demoLib (fileEntry "notes.txt" 3) = Slice.cfg :=
  ⟨extension_first demoLib _ (by decide) (by decide),
   extension_first demoLib _ (by decide) (by decide)⟩

/-! ## Classification by the script -/

theorem hasSuffix_clash (b x y : String) (hx : hasSuffix b x = true) (hy : hasSuffix b y = true) :
    (x.data.isSuffixOf y.data || y.data.isSuffixOf x.data) = true := by
  simp only [hasSuffix, List.isSuffixOf_iff_suffix] at hx hy
  simp only [Bool.or_eq_true, List.isSuffixOf_iff_suffix]
  exact List.suffix_or_suffix_of_suffix hx hy

theorem hasAnySuffix_iff (b : String) (xs : List String) :
    hasAnySuffix b xs = true ↔ ∃ x ∈ xs, hasSuffix b x = true := by
  induction xs with
  | nil => simp [hasAnySuffix]
  | cons x rest ih =>
    by_cases hx : hasSuffix b x = true
    · simp [hasAnySuffix, hx]
    · simp [hasAnySuffix, hx, ih]

theorem hasAnySuffix_meet (b : String) (xs ys : List String)
    (hx : hasAnySuffix b xs = true) (hy : hasAnySuffix b ys = true) :
    suffixesMeet xs ys = true := by
  obtain ⟨x, hxm, hxs⟩ := (hasAnySuffix_iff b xs).1 hx
  obtain ⟨y, hym, hys⟩ := (hasAnySuffix_iff b ys).1 hy
  simp only [suffixesMeet, List.any_eq_true]
  exact ⟨x, hxm, y, hym, hasSuffix_clash b x y hxs hys⟩

theorem hasAnySuffix_disjoint (b : String) (xs ys : List String)
    (hm : suffixesMeet xs ys = false) (hx : hasAnySuffix b xs = true) :
    hasAnySuffix b ys = false := by
  cases hy : hasAnySuffix b ys
  · rfl
  · rw [hasAnySuffix_meet b xs ys hx hy] at hm
    cases hm

theorem hasSuffix_disjoint (b : String) (xs : List String) (y : String)
    (hm : suffixesMeet xs [y] = false) (hx : hasAnySuffix b xs = true) :
    hasSuffix b y = false := by
  have h := hasAnySuffix_disjoint b xs [y] hm hx
  cases hy : hasSuffix b y
  · rfl
  · simp [hasAnySuffix, hy] at h

theorem shellCase_code_dataset (b : String) (sz : Nat) (c : Category)
    (hr : hasPrefix b "readme" = false) (hl : hasPrefix b "license" = false)
    (hext : (c = Category.code
        ∧ hasAnySuffix b [".py", ".sh", ".ipynb", ".go", ".js", ".ts"] = true)
      ∨ (c = Category.dataset
        ∧ hasAnySuffix b [".csv", ".tsv", ".jsonl", ".parquet", ".arrow", ".h5", ".npz"] = true)) :
    shellCase b sz = c := by
  have hlic : b ≠ "license" := by
    intro h
    rw [h] at hl
    exact absurd hl (by decide)
  rcases hext with ⟨rfl, he⟩ | ⟨rfl, he⟩
  · have hw := hasAnySuffix_disjoint b _ [".safetensors", ".bin", ".gguf", ".pt", ".ckpt"] (by decide) he
    have hmd := hasSuffix_disjoint b _ ".md" (by decide) he
    have hjs := hasSuffix_disjoint b _ ".json" (by decide) he
    have htx := hasSuffix_disjoint b _ ".txt" (by decide) he
    have h1 : b ≠ "config.json" := by
      intro h; rw [h] at hjs; exact absurd hjs (by decide)
    have h2 : b ≠ "tokenizer.json" := by
      intro h; rw [h] at hjs; exact absurd hjs (by decide)
    have h3 : b ≠ "generation_config.json" := by
      intro h; rw [h] at hjs; exact absurd hjs (by decide)
    simp [shellCase, hw, hr, hl, hlic, hmd, hjs, htx, h1, h2, h3, he]
  · have hw := hasAnySuffix_disjoint b _ [".safetensors", ".bin", ".gguf", ".pt", ".ckpt"] (by decide) he
    have hco := hasAnySuffix_disjoint b _ [".py", ".sh", ".ipynb", ".go", ".js", ".ts"] (by decide) he
    have hmd := hasSuffix_disjoint b _ ".md" (by decide) he
    have hjs := hasSuffix_disjoint b _ ".json" (by decide) he
    have htx := hasSuffix_disjoint b _ ".txt" (by decide) he
    have h1 : b ≠ "config.json" := by
      intro h; rw [h] at hjs; exact absurd hjs (by decide)
    have h2 : b ≠ "tokenizer.json" := by
      intro h; rw [h] at hjs; exact absurd hjs (by decide)
    have h3 : b ≠ "generation_config.json" := by
      intro h; rw [h] at hjs; exact absurd hjs (by decide)
    simp [shellCase, hw, hr, hl, hlic, hmd, hjs, htx, h1, h2, h3, he, hco]

theorem foldl_nameLists (size : String → Nat) (files : List String) (l : ShellLists) :
    files.foldl (fun l f => l.append (nameCategory f (size f)) f) l =
      { weights := l.weights ++ files.filter (fun f => decide (nameCategory f (size f) = Category.weights)),
        config := l.config ++ files.filter (fun f => decide (nameCategory f (size f) = Category.config)),
        docs := l.docs ++ files.filter (fun f => decide (nameCategory f (size f) = Category.docs)),
        code := l.code ++ files.filter (fun f => decide (nameCategory f (size f) = Category.code)),
        dataset := l.dataset ++ files.filter (fun f => decide (nameCategory f (size f) = Category.dataset)) } := by
  induction files generalizing l with
  | nil => simp
  | cons f rest ih =>
    rw [List.foldl_cons, ih]
    cases hs : nameCategory f (size f) <;>
      simp [hs, ShellLists.append, List.filter_cons]

theorem nameLists_get (size : String → Nat) (files : List String) (c : Category) :
    (nameLists size files).get c = files.filter (fun f => decide (nameCategory f (size f) = c)) := by
  unfold nameLists
  rw [foldl_nameLists]
  cases c <;> simp [ShellLists.get]

theorem mem_nameLists_get (size : String → Nat) (files : List String) (c : Category) (f : String) :
    f ∈ (nameLists size files).get c ↔ f ∈ files ∧ nameCategory f (size f) = c := by
  rw [nameLists_get]
  simp

theorem mem_allFiles (entries : List DirEntry) (f : String) :
    f ∈ allFiles entries ↔ ∃ d ∈ entries, shellKeeps d = true ∧ d.rel = f := by
  unfold allFiles
  rw [(sortStrings_perm _).mem_iff]
  simp [and_assoc]

/-- On a path that does not begin with `-`, `basename` prints the base name and the
`case` gives its category. -/
theorem shellCategory_ok (f : String) (sz : Nat) (h : hasPrefix f "-" = false) :
    shellCategory f sz = Except.ok (nameCategory f sz) := by
  simp [shellCategory, nameCategory, h]

theorem shellLoop_ok (size : String → Nat) (files : List String) (l : ShellLists)
    (h : ∀ f ∈ files, hasPrefix f "-" = false) :
    shellLoop size files l
      = Except.ok (files.foldl (fun l f => l.append (nameCategory f (size f)) f) l) := by
  induction files generalizing l with
  | nil => rfl
  | cons f rest ih =>
    have hf := h f (List.mem_cons_self _ _)
    simp only [shellLoop, shellCategory_ok f _ hf, List.foldl_cons]
    exact ih _ (fun g hg => h g (List.mem_cons_of_mem _ hg))

/-- The loop over lines of which none begins with `-` ends, with every line on
the list of its category. -/
theorem shellLists_ok (size : String → Nat) (files : List String)
    (h : ∀ f ∈ files, hasPrefix f "-" = false) :
    shellLists size files = Except.ok (nameLists size files) :=
  shellLoop_ok size files _ h

theorem ordinaryPath_undashed (f : String) (h : ordinaryPath f = true) :
    hasPrefix f "-" = false ∧ dashedArg f = false := by
  simp only [ordinaryPath, Bool.and_eq_true, Bool.not_eq_true'] at h
  refine ⟨h.1.2, ?_⟩
  simp [dashedArg, h.1.2, h.2]

theorem allFiles_ordinary (entries : List DirEntry)
    (hord : ∀ d ∈ entries, shellKeeps d = true → ordinaryPath d.rel = true)
    (f : String) (hf : f ∈ allFiles entries) : ordinaryPath f = true := by
  obtain ⟨d, hd, hk, rfl⟩ := (mem_allFiles entries f).1 hf
  exact hord d hd hk

theorem find_dashed_none (list : List String) (hd : ∀ f ∈ list, dashedArg f = false) :
    list.find? (fun f => hasPrefix f "-") = none ∧ list.find? dashedArg = none := by
  constructor
  · rw [List.find?_eq_none]
    intro f hf
    have h := hd f hf
    simp only [dashedArg, Bool.or_eq_false_iff] at h
    simp [h.1]
  · rw [List.find?_eq_none]
    intro f hf
    simp [hd f hf]

theorem addCategory_ok (packMode : String) (list : List String) (c : Category)
    (m1 m2 m3 m4 : String)
    (hmode : packMode = "raw" ∨ packMode = "tar" ∨ packMode = "tar+gzip" ∨ packMode = "tar+zstd")
    (hd : ∀ f ∈ list, dashedArg f = false) :
    ∃ ls, addCategory packMode list c m1 m2 m3 m4 = Except.ok ls
      ∧ (∀ l ∈ ls, l.category = c ∧ ∀ f ∈ l.files, f ∈ list)
      ∧ (∀ f ∈ list, ∃ l ∈ ls, f ∈ l.files) := by
  obtain ⟨h1, h2⟩ := find_dashed_none list hd
  unfold addCategory
  by_cases hl : list = []
  · subst hl
    exact ⟨[], by simp, by simp, by simp⟩
  · rw [if_neg hl]
    by_cases hraw : packMode = "raw"
    · rw [if_pos hraw]
      simp only [h1]
      refine ⟨_, rfl, ?_, ?_⟩
      · intro l hl
        simp only [List.mem_map] at hl
        obtain ⟨f, hf, rfl⟩ := hl
        simpa using hf
      · intro f hf
        exact ⟨_, List.mem_map.2 ⟨f, hf, rfl⟩, by simp⟩
    · rw [if_neg hraw]
      have htar : packMode = "tar" ∨ packMode = "tar+gzip" ∨ packMode = "tar+zstd" := by
        rcases hmode with h | h
        · exact absurd h hraw
        · exact h
      rw [if_pos htar]
      by_cases hw : c.name = "weights"
      · simp only [hw, if_true, h2]
        refine ⟨_, rfl, ?_, ?_⟩
        · intro l hl
          simp only [List.mem_map] at hl
          obtain ⟨f, hf, rfl⟩ := hl
          simpa using hf
        · intro f hf
          exact ⟨_, List.mem_map.2 ⟨f, hf, rfl⟩, by simp⟩
      · simp only [hw, if_false]
        refine ⟨_, rfl, ?_, ?_⟩
        · intro l hl
          simp only [List.mem_singleton] at hl
          subst hl
          exact ⟨rfl, fun f hf => hf⟩
        · intro f hf
          exact ⟨_, List.mem_singleton.2 rfl, hf⟩

theorem addCategoryOf_ok (packMode : String) (l : ShellLists) (c : Category)
    (hmode : packMode = "raw" ∨ packMode = "tar" ∨ packMode = "tar+gzip" ∨ packMode = "tar+zstd")
    (hd : ∀ f ∈ l.get c, dashedArg f = false) :
    addCategoryOf packMode l c = Except.ok (layersFor packMode l c)
      ∧ (∀ y ∈ layersFor packMode l c, y.category = c ∧ ∀ f ∈ y.files, f ∈ l.get c)
      ∧ (∀ f ∈ l.get c, ∃ y ∈ layersFor packMode l c, f ∈ y.files) := by
  have key : ∃ ls, addCategoryOf packMode l c = Except.ok ls
      ∧ (∀ y ∈ ls, y.category = c ∧ ∀ f ∈ y.files, f ∈ l.get c)
      ∧ (∀ f ∈ l.get c, ∃ y ∈ ls, f ∈ y.files) := by
    cases c <;> exact addCategory_ok packMode _ _ _ _ _ _ hmode hd
  obtain ⟨ls, h1, h2, h3⟩ := key
  have hl : layersFor packMode l c = ls := by simp [layersFor, h1]
  rw [hl]
  exact ⟨h1, h2, h3⟩

/-- On a source directory whose selected paths are ordinary, the script in an
accepted pack mode runs through: the loop ends with every path on the list of
its category, and the five calls of `add_category` give their layers. -/
theorem scriptLayers_ok (packMode : String) (size : String → Nat) (entries : List DirEntry)
    (hmode : packMode = "raw" ∨ packMode = "tar" ∨ packMode = "tar+gzip" ∨ packMode = "tar+zstd")
    (hord : ∀ d ∈ entries, shellKeeps d = true → ordinaryPath d.rel = true) :
    shellLists size (allFiles entries) = Except.ok (nameLists size (allFiles entries))
    ∧ (∀ c, ∀ f ∈ (nameLists size (allFiles entries)).get c, dashedArg f = false)
    ∧ scriptLayers packMode size entries =
      Except.ok (layersFor packMode (nameLists size (allFiles entries)) Category.weights
        ++ (layersFor packMode (nameLists size (allFiles entries)) Category.config
        ++ (layersFor packMode (nameLists size (allFiles entries)) Category.docs
        ++ (layersFor packMode (nameLists size (allFiles entries)) Category.code
        ++ (layersFor packMode (nameLists size (allFiles entries)) Category.dataset ++ []))))) := by
  have hl := shellLists_ok size (allFiles entries)
    (fun f hf => (ordinaryPath_undashed f (allFiles_ordinary entries hord f hf)).1)
  have hd : ∀ c, ∀ f ∈ (nameLists size (allFiles entries)).get c, dashedArg f = false := by
    intro c f hf
    have hm := ((mem_nameLists_get size _ c f).1 hf).1
    exact (ordinaryPath_undashed f (allFiles_ordinary entries hord f hm)).2
  refine ⟨hl, hd, ?_⟩
  simp only [scriptLayers, hl, addCategories,
    (addCategoryOf_ok packMode _ Category.weights hmode (hd _)).1,
    (addCategoryOf_ok packMode _ Category.config hmode (hd _)).1,
    (addCategoryOf_ok packMode _ Category.docs hmode (hd _)).1,
    (addCategoryOf_ok packMode _ Category.code hmode (hd _)).1,
    (addCategoryOf_ok packMode _ Category.dataset hmode (hd _)).1]

theorem layersFor_category (packMode : String) (l : ShellLists) (c : Category)
    (hmode : packMode = "raw" ∨ packMode = "tar" ∨ packMode = "tar+gzip" ∨ packMode = "tar+zstd")
    (hd : ∀ f ∈ l.get c, dashedArg f = false)
    (y : ShLayer) (hy : y ∈ layersFor packMode l c) : y.category = c :=
  ((addCategoryOf_ok packMode l c hmode hd).2.1 y hy).1

theorem layersFor_pairwise (packMode : String) (l : ShellLists)
    (hmode : packMode = "raw" ∨ packMode = "tar" ∨ packMode = "tar+gzip" ∨ packMode = "tar+zstd")
    (hd : ∀ c, ∀ f ∈ l.get c, dashedArg f = false) :
    (layersFor packMode l Category.weights
        ++ (layersFor packMode l Category.config
        ++ (layersFor packMode l Category.docs
        ++ (layersFor packMode l Category.code
        ++ (layersFor packMode l Category.dataset ++ []))))).Pairwise
      (fun (a b : ShLayer) => a.category.rank ≤ b.category.rank) := by
  have hsame : ∀ c : Category, List.Pairwise
      (fun (a b : ShLayer) => a.category.rank ≤ b.category.rank) (layersFor packMode l c) := by
    intro c
    rw [List.pairwise_iff_forall_sublist]
    intro a b hab
    have ha := layersFor_category packMode l c hmode (hd c) a (hab.subset (by simp))
    have hb := layersFor_category packMode l c hmode (hd c) b (hab.subset (by simp))
    rw [ha, hb]
  simp only [List.pairwise_append, List.mem_append, List.append_nil]
  refine ⟨hsame _, ⟨hsame _, ⟨hsame _, ⟨hsame _, hsame _, ?_⟩, ?_⟩, ?_⟩, ?_⟩
  · intro a ha b hb
    rw [layersFor_category packMode l _ hmode (hd _) a ha,
      layersFor_category packMode l _ hmode (hd _) b hb]
    decide
  · intro a ha b hb
    rw [layersFor_category packMode l _ hmode (hd _) a ha]
    rcases hb with hb | hb <;> rw [layersFor_category packMode l _ hmode (hd _) b hb] <;> decide
  · intro a ha b hb
    rw [layersFor_category packMode l _ hmode (hd _) a ha]
    rcases hb with hb | hb | hb <;>
      rw [layersFor_category packMode l _ hmode (hd _) b hb] <;> decide
  · intro a ha b hb
    rw [layersFor_category packMode l _ hmode (hd _) a ha]
    rcases hb with hb | hb | hb | hb <;>
      rw [layersFor_category packMode l _ hmode (hd _) b hb] <;> decide

theorem mem_script_layers (packMode : String) (l : ShellLists) (y : ShLayer) :
    y ∈ (layersFor packMode l Category.weights
        ++ (layersFor packMode l Category.config
        ++ (layersFor packMode l Category.docs
        ++ (layersFor packMode l Category.code
        ++ (layersFor packMode l Category.dataset ++ [])))))
      ↔ ∃ c, y ∈ layersFor packMode l c := by
  simp only [List.mem_append, List.append_nil]
  constructor
  · rintro (h | h | h | h | h) <;> exact ⟨_, h⟩
  · rintro ⟨c, h⟩
    cases c
    · exact Or.inl h
    · exact Or.inr (Or.inl h)
    · exact Or.inr (Or.inr (Or.inl h))
    · exact Or.inr (Or.inr (Or.inr (Or.inl h)))
    · exact Or.inr (Or.inr (Or.inr (Or.inr h)))

/-- C9 (amended). In the script of `generateModelpackScript`, on a source
directory whose selected paths are ordinary (printable characters, no double
quote, no backslash, neither the path nor its base name beginning with `-`), a
file that `find` selects, whose lower-cased base name does not start with
`readme` or `license` and ends in a code extension (or a dataset extension) is
put on the code list (the dataset list) and on neither the weights nor the
config list; for each pack mode the script accepts, the script runs through,
the manifest has a layer of that category that holds the file, no layer of
another category holds it, and the layers are in the order weights, config,
docs, code, dataset. -/
theorem script_code_dataset (packMode : String) (size : String → Nat)
    (entries : List DirEntry) (d : DirEntry) (c : Category)
    (hmode : packMode = "raw" ∨ packMode = "tar" ∨ packMode = "tar+gzip" ∨ packMode = "tar+zstd")
    (hord : ∀ e ∈ entries, shellKeeps e = true → ordinaryPath e.rel = true)
    (hin : d ∈ entries) (hkeep : shellKeeps d = true)
    (hr : hasPrefix (asciiLower (base d.rel)) "readme" = false)
    (hl : hasPrefix (asciiLower (base d.rel)) "license" = false)
    (hext : (c = Category.code ∧ hasAnySuffix (asciiLower (base d.rel))
          [".py", ".sh", ".ipynb", ".go", ".js", ".ts"] = true)
      ∨ (c = Category.dataset ∧ hasAnySuffix (asciiLower (base d.rel))
          [".csv", ".tsv", ".jsonl", ".parquet", ".arrow", ".h5", ".npz"] = true)) :
    shellCategory d.rel (size d.rel) = Except.ok c
    ∧ ∃ l, shellLists size (allFiles entries) = Except.ok l
      ∧ d.rel ∈ l.get c
      ∧ d.rel ∉ l.weights
      ∧ d.rel ∉ l.config
      ∧ ∃ ls, scriptLayers packMode size entries = Except.ok ls
        ∧ (∃ y ∈ ls, y.category = c ∧ d.rel ∈ y.files)
        ∧ (∀ y ∈ ls, d.rel ∈ y.files → y.category = c)
        ∧ ls.Pairwise (fun a b => a.category.rank ≤ b.category.rank) := by
  obtain ⟨hlists, hd, hsl⟩ := scriptLayers_ok packMode size entries hmode hord
  have hund := (ordinaryPath_undashed d.rel (hord d hin hkeep)).1
  have hcat : nameCategory d.rel (size d.rel) = c :=
    shellCase_code_dataset _ _ c hr hl hext
  have hmem : d.rel ∈ allFiles entries := (mem_allFiles entries d.rel).2 ⟨d, hin, hkeep, rfl⟩
  have hget : d.rel ∈ (nameLists size (allFiles entries)).get c :=
    (mem_nameLists_get size _ c d.rel).2 ⟨hmem, hcat⟩
  have hcw : c ≠ Category.weights := by
    rcases hext with ⟨rfl, _⟩ | ⟨rfl, _⟩ <;> decide
  have hcc : c ≠ Category.config := by
    rcases hext with ⟨rfl, _⟩ | ⟨rfl, _⟩ <;> decide
  refine ⟨by rw [shellCategory_ok _ _ hund, hcat], _, hlists, hget, ?_, ?_, _, hsl, ?_, ?_, ?_⟩
  · intro h
    have h2 := (mem_nameLists_get size (allFiles entries) Category.weights d.rel).1 h
    exact hcw (hcat.symm.trans h2.2)
  · intro h
    have h2 := (mem_nameLists_get size (allFiles entries) Category.config d.rel).1 h
    exact hcc (hcat.symm.trans h2.2)
  · obtain ⟨y, hy, hf⟩ := (addCategoryOf_ok packMode _ c hmode (hd c)).2.2 d.rel hget
    exact ⟨y, (mem_script_layers packMode _ y).2 ⟨c, hy⟩,
      layersFor_category packMode _ c hmode (hd c) y hy, hf⟩
  · intro y hy hf
    obtain ⟨c2, hy2⟩ := (mem_script_layers packMode _ y).1 hy
    have h3 := (addCategoryOf_ok packMode (nameLists size (allFiles entries)) c2 hmode
      (hd c2)).2.1 y hy2
    have h4 := (mem_nameLists_get size (allFiles entries) c2 d.rel).1 (h3.2 d.rel hf)
    rw [h3.1, ← h4.2, hcat]
  · exact layersFor_pairwise packMode _ hmode hd

/-- The script at a Python file and at an upper-case `.JSONL` file. -/
theorem script_code_dataset_witness :
    shellCategory "src/train.py" 120 = Except.ok Category.code
    ∧ shellCategory "data/eval.JSONL" 4096 = Except.ok Category.dataset :=
  ⟨(script_code_dataset "tar" (fun _ => 120)
      [fileEntry "README.md" 10, fileEntry "src/train.py" 120, fileEntry "model.gguf" 64]
      (fileEntry "src/train.py" 120) Category.code (by decide) (by decide) (by decide)
      (by decide) (by decide) (by decide) (by decide)).1,
   (script_code_dataset "raw" (fun _ => 4096)
      [fileEntry "data/eval.JSONL" 4096]
      (fileEntry "data/eval.JSONL" 4096) Category.dataset (by decide) (by decide) (by decide)
      (by decide) (by decide) (by decide) (by decide)).1⟩

/-- C9, counterexample. The file `tools/readme.py` ends in `.py`, yet the script
puts it on the docs list, because the `readme*` pattern comes first, and its
layer is the docs layer; and the native packager, which has no code slice,
appends `src/train.py` to the config. -/
theorem code_rule_counterexample :
    hasAnySuffix (asciiLower (base "tools/readme.py"))
        [".py", ".sh", ".ipynb", ".go", ".js", ".ts"] = true
    ∧ shellCategory "tools/readme.py" 300 = Except.ok Category.docs
    ∧ scriptLayers "tar" (fun _ => 300) [fileEntry "tools/readme.py" 300] =
        Except.ok [{ category := Category.docs, mediaType := "application/vnd.cncf.model.doc.v1.tar",
                     filepath := "docs", files := ["tools/readme.py"] }]
    ∧ entrySlice demoLib (fileEntry "src/train.py" 300) = Slice.cfg := by
  decide

/-- A Python file at the top of the source directory whose name begins with `-`:
the loop of the script stops at `basename`, and so does the script; below a
directory the same name is classified, and as a weight file in a tar mode it
stops the script at `tar`. -/
theorem script_stops_on_dashed_names :
    shellCategory "-x.py" 10 = Except.error "basename: invalid option: -x.py"
    ∧ scriptLayers "raw" (fun _ => 10) [fileEntry "-x.py" 10, fileEntry "model.bin" 10]
      = Except.error "basename: invalid option: -x.py"
    ∧ shellCategory "sub/-x.py" 10 = Except.ok Category.code
    ∧ scriptLayers "tar" (fun _ => 10) [fileEntry "sub/-n.bin" 10]
      = Except.error "tar: invalid option: -n.bin" := by
  decide

/-! ## What a successful run of the native packager did -/

theorem buildTarLayer_ok (L : Lib) (src : SrcTree) (outDir : String) (files : List String)
    (mt : String) (fs fs1 : FS) (d : Descriptor)
    (h : buildTarLayer L src outDir files mt fs = (Except.ok d, fs1)) :
    ∃ blob, tarBlob L src files = Except.ok blob ∧ d = descriptorOf L mt blob
      ∧ fs1 = fs.writeFile (blobPath L outDir d.digest) blob := by
  unfold buildTarLayer at h
  unfold tarBlob
  split at h
  · simp at h
  · rename_i body hb
    simp only [Prod.mk.injEq, Except.ok.injEq] at h
    obtain ⟨h1, h2⟩ := h
    refine ⟨_, rfl, ?_, ?_⟩
    · rw [← h1]; rfl
    · rw [← h2, ← h1]

theorem appendLayer_ok (L : Lib) (src : SrcTree) (outDir : String) (files : List String)
    (mt : String) (descs ds : List Descriptor) (fs fs1 : FS)
    (h : appendLayer L src outDir files mt descs fs = (Except.ok ds, fs1)) :
    (files = [] ∧ ds = descs ∧ fs1 = fs)
    ∨ (files ≠ [] ∧ ∃ blob, tarBlob L src files = Except.ok blob
        ∧ ds = descs ++ [descriptorOf L mt blob]
        ∧ fs1 = fs.writeFile (blobPath L outDir (digestOf L blob)) blob) := by
  unfold appendLayer at h
  by_cases hf : files.length > 0
  · rw [if_pos hf] at h
    right
    refine ⟨by intro h0; simp [h0] at hf, ?_⟩
    split at h
    · simp at h
    · rename_i d fs2 hb
      simp only [Prod.mk.injEq, Except.ok.injEq] at h
      obtain ⟨blob, hb1, hb2, hb3⟩ := buildTarLayer_ok L src outDir files mt fs fs2 d hb
      refine ⟨blob, hb1, ?_, ?_⟩
      · rw [← h.1, hb2]
      · rw [← h.2, hb3, hb2]; rfl
  · rw [if_neg hf] at h
    left
    simp only [Prod.mk.injEq, Except.ok.injEq] at h
    refine ⟨by simpa using hf, h.1.symm, h.2.symm⟩

theorem writeJSONBlob_ok (L : Lib) (C : Codec) (outDir : String) (v : JSONValue) (mt : String)
    (fs fs1 : FS) (d : Descriptor)
    (h : writeJSONBlob L C outDir v mt fs = (Except.ok d, fs1)) :
    ∃ b, C.marshal v = Except.ok b ∧ d = descriptorOf L mt b
      ∧ fs1 = fs.writeFile (blobPath L outDir (digestOf L b)) b := by
  unfold writeJSONBlob at h
  split at h
  · simp at h
  · rename_i b hb
    simp only [Prod.mk.injEq, Except.ok.injEq] at h
    exact ⟨b, hb, h.1.symm, h.2.symm⟩

theorem writeJSONFile_ok (C : Codec) (p : String) (v : JSONValue) (fs fs1 : FS) (u : Unit)
    (h : writeJSONFile C p v fs = (Except.ok u, fs1)) :
    ∃ b, C.marshalIndent v = Except.ok b ∧ fs1 = fs.writeFile p b := by
  unfold writeJSONFile at h
  split at h
  · simp at h
  · rename_i b hb
    simp only [Prod.mk.injEq, Except.ok.injEq] at h
    exact ⟨b, hb, h.2.symm⟩

theorem buildModelPackLayers_ok (L : Lib) (C : Codec) (src : SrcTree) (outDir : String)
    (mt : ModelPackMediaTypes) (fs fs3 : FS) (ds : List Descriptor)
    (h : buildModelPackLayers L C src outDir mt fs = (Except.ok ds, fs3)) :
    ∃ entries ds1 ds2 fs1 fs2, src.walk = Except.ok entries
      ∧ appendLayer L src outDir (sortStrings (partitionFiles L entries).weights)
          (if mt.layerWeights = "" then C.mediaTypeModelWeight else mt.layerWeights) [] fs
          = (Except.ok ds1, fs1)
      ∧ appendLayer L src outDir (sortStrings (partitionFiles L entries).cfg)
          (if mt.layerConfig = "" then C.mediaTypeModelWeightConfig else mt.layerConfig) ds1 fs1
          = (Except.ok ds2, fs2)
      ∧ appendLayer L src outDir (sortStrings (partitionFiles L entries).docs)
          (if mt.layerDocs = "" then C.mediaTypeModelDoc else mt.layerDocs) ds2 fs2
          = (Except.ok ds, fs3) := by
  unfold buildModelPackLayers at h
  split at h
  · simp at h
  · rename_i entries hw
    simp only at h
    split at h
    · simp at h
    · rename_i ds1 fs1 h1
      split at h
      · simp at h
      · rename_i ds2 fs2 h2
        exact ⟨entries, ds1, ds2, fs1, fs2, hw, h1, h2, h⟩

theorem pack_ok (L : Lib) (C : Codec) (W : World) (opts : Options) (fs fs3 : FS) (r : Result)
    (h : pack L C W opts fs = (Except.ok r, fs3)) :
    ∃ src layers configDesc fs1 mbytes ibytes,
      opts.source ≠ "" ∧ opts.outputDir ≠ ""
      ∧ resolveSource W opts.source = Except.ok src
      ∧ buildLayers L C src (specOf opts) opts (initLayout L opts fs)
          = (Except.ok (layers, configDesc), fs1)
      ∧ r.manifest.layers = layers ∧ r.manifest.config = configDesc
      ∧ C.marshal (JSONValue.manifest r.manifest) = Except.ok mbytes
      ∧ r.index.manifests = [descriptorOf L C.mediaTypeImageManifest mbytes]
      ∧ C.marshalIndent (JSONValue.index r.index) = Except.ok ibytes
      ∧ fs3 = (fs1.writeFile (blobPath L opts.outputDir (digestOf L mbytes)) mbytes).writeFile
          (L.join [opts.outputDir, "index.json"]) ibytes := by
  unfold pack at h
  split at h
  · simp at h
  · rename_i hsrc
    split at h
    · simp at h
    · rename_i hout
      simp only at h
      split at h
      · simp at h
      · rename_i src hres
        split at h
        · simp at h
        · rename_i layers configDesc fs1 hbl
          split at h
          · simp at h
          · rename_i manifestDesc fs2 hman
            obtain ⟨mbytes, hm1, hm2, hm3⟩ := writeJSONBlob_ok L C _ _ _ _ _ _ hman
            split at h
            · simp at h
            · rename_i u fs4 hidx
              obtain ⟨ibytes, hi1, hi2⟩ := writeJSONFile_ok C _ _ _ _ _ hidx
              simp only [Prod.mk.injEq, Except.ok.injEq] at h
              obtain ⟨hr, hfs⟩ := h
              subst hr
              refine ⟨src, layers, configDesc, fs1, mbytes, ibytes, hsrc, hout, hres, hbl, rfl, rfl,
                hm1, ?_, hi1, ?_⟩
              · simp only [hm2]
              · rw [← hfs, hi2, hm3]

theorem sortStrings_eq_nil (l : List String) : sortStrings l = [] ↔ l = [] := by
  constructor
  · intro h
    have hp := (sortStrings_perm l).length_eq
    rw [h] at hp
    exact List.length_eq_zero.1 hp.symm
  · intro h
    subst h
    rfl

theorem appendLayer_layers (L : Lib) (src : SrcTree) (outDir : String) (files : List String)
    (mt : String) (descs ds : List Descriptor) (fs fs1 : FS)
    (h : appendLayer L src outDir (sortStrings files) mt descs fs = (Except.ok ds, fs1)) :
    ds.map Except.ok = descs.map Except.ok ++ categoryLayer L src files mt := by
  rcases appendLayer_ok L src outDir _ mt descs ds fs fs1 h with ⟨h0, h1, _⟩ | ⟨h0, blob, hb, h1, _⟩
  · rw [sortStrings_eq_nil] at h0
    simp [categoryLayer, h0, h1]
  · rw [Ne, sortStrings_eq_nil] at h0
    simp [categoryLayer, h0, h1, tarDescriptor, hb]

theorem buildModelPackLayers_layers (L : Lib) (C : Codec) (src : SrcTree) (outDir : String)
    (mt : ModelPackMediaTypes) (fs fs3 : FS) (ds : List Descriptor) (entries : List DirEntry)
    (hw : src.walk = Except.ok entries)
    (h : buildModelPackLayers L C src outDir mt fs = (Except.ok ds, fs3)) :
    ds.map Except.ok = modelPackLayers L C src entries mt := by
  obtain ⟨entries2, ds1, ds2, fs1, fs2, hw2, h1, h2, h3⟩ :=
    buildModelPackLayers_ok L C src outDir mt fs fs3 ds h
  rw [hw] at hw2
  cases hw2
  have e1 := appendLayer_layers L src outDir _ _ _ _ _ _ h1
  have e2 := appendLayer_layers L src outDir _ _ _ _ _ _ h2
  have e3 := appendLayer_layers L src outDir _ _ _ _ _ _ h3
  rw [e3, e2, e1]
  simp [modelPackLayers]

theorem buildGenericLayer_ok (L : Lib) (C : Codec) (src : SrcTree) (outDir : String)
    (fs fs1 : FS) (d : Descriptor)
    (h : buildGenericLayer L C src outDir fs = (Except.ok d, fs1)) :
    ∃ entries, src.walk = Except.ok entries
      ∧ buildTarLayer L src outDir (sortStrings (genericFiles entries)) C.mediaTypeImageLayer fs
        = (Except.ok d, fs1) := by
  unfold buildGenericLayer at h
  split at h
  · simp at h
  · rename_i entries hw
    exact ⟨entries, hw, h⟩

theorem buildLayers_ok (L : Lib) (C : Codec) (src : SrcTree) (spec : String) (opts : Options)
    (fs fs2 : FS) (layers : List Descriptor) (configDesc : Descriptor)
    (h : buildLayers L C src spec opts fs = (Except.ok (layers, configDesc), fs2)) :
    (spec = SpecModelPack ∧ ∃ fs1,
        buildModelPackLayers L C src opts.outputDir opts.mediaTypes fs = (Except.ok layers, fs1)
        ∧ writeJSONBlob L C opts.outputDir JSONValue.emptyMap
            (if opts.mediaTypes.manifestConfig = "" then C.mediaTypeModelConfig
              else opts.mediaTypes.manifestConfig) fs1 = (Except.ok configDesc, fs2))
    ∨ (spec = SpecGeneric ∧ ∃ layer fs1,
        buildGenericLayer L C src opts.outputDir fs = (Except.ok layer, fs1)
        ∧ layers = [layer]
        ∧ writeJSONBlob L C opts.outputDir JSONValue.emptyMap C.mediaTypeImageConfig fs1
            = (Except.ok configDesc, fs2)) := by
  unfold buildLayers at h
  split at h
  · rename_i hs
    left
    refine ⟨hs, ?_⟩
    split at h
    · simp at h
    · rename_i ls fs1 hb
      simp only at h
      split at h
      · simp at h
      · rename_i cd fs2b hc
        simp only [Prod.mk.injEq, Except.ok.injEq] at h
        obtain ⟨⟨hl, hcd⟩, hfs⟩ := h
        subst hl hcd hfs
        exact ⟨fs1, hb, hc⟩
  · split at h
    · rename_i hs
      right
      refine ⟨hs, ?_⟩
      split at h
      · simp at h
      · rename_i layer fs1 hb
        split at h
        · simp at h
        · rename_i cd fs2b hc
          simp only [Prod.mk.injEq, Except.ok.injEq] at h
          obtain ⟨⟨hl, hcd⟩, hfs⟩ := h
          subst hl hcd hfs
          exact ⟨layer, fs1, hb, rfl, hc⟩
    · simp at h

theorem pack_layers (L : Lib) (C : Codec) (W : World) (opts : Options) (fs fs3 : FS) (r : Result)
    (src : SrcTree) (entries : List DirEntry)
    (hsrc : resolveSource W opts.source = Except.ok src) (hw : src.walk = Except.ok entries)
    (h : pack L C W opts fs = (Except.ok r, fs3)) :
    r.manifest.layers.map Except.ok = expectedLayers L C src entries opts := by
  obtain ⟨src2, layers, configDesc, fs1, mbytes, ibytes, _, _, hres, hbl, hl, _⟩ :=
    pack_ok L C W opts fs fs3 r h
  rw [hsrc] at hres
  cases hres
  rw [hl]
  rcases buildLayers_ok L C src _ opts _ _ _ _ hbl with ⟨hs, fsa, hb, _⟩ | ⟨hs, layer, fsa, hb, hl2, _⟩
  · rw [expectedLayers, if_pos hs]
    exact buildModelPackLayers_layers L C src _ _ _ _ _ entries hw hb
  · have hne : specOf opts ≠ SpecModelPack := by
      rw [hs]; decide
    rw [expectedLayers, if_neg hne, hl2]
    obtain ⟨entries2, hw2, hb2⟩ := buildGenericLayer_ok L C src _ _ _ _ hb
    rw [hw] at hw2
    cases hw2
    obtain ⟨blob, hb1, hb3, _⟩ := buildTarLayer_ok L src _ _ _ _ _ _ hb2
    simp [tarDescriptor, hb1, hb3]

/-! ## Determinism -/

theorem layerHeader_congr (a b : FileInfo) (rel : String) (h : a.size = b.size) :
    layerHeader a rel = layerHeader b rel := by
  simp [layerHeader, fileInfoHeader, h]

theorem tarBody_congr (L : Lib) (s t : SrcTree) (files : List String)
    (hr : ∀ rel, s.read rel = t.read rel)
    (hs : ∀ rel, (s.stat rel).map (fun i => i.size) = (t.stat rel).map (fun i => i.size)) :
    tarBody L s files = tarBody L t files := by
  induction files with
  | nil => rfl
  | cons rel rest ih =>
    unfold tarBody
    have h1 := hs rel
    rw [← hr rel, ih]
    cases ha : s.stat rel with
    | none =>
      rw [ha] at h1
      cases hb : t.stat rel with
      | none => rfl
      | some b => rw [hb] at h1; simp at h1
    | some a =>
      rw [ha] at h1
      cases hb : t.stat rel with
      | none => rw [hb] at h1; simp at h1
      | some b =>
        rw [hb] at h1
        simp only [Option.map_some', Option.some.injEq] at h1
        simp only [layerHeader_congr a b rel h1]

theorem tarDescriptor_congr (L : Lib) (s t : SrcTree) (files : List String) (mt : String)
    (hr : ∀ rel, s.read rel = t.read rel)
    (hs : ∀ rel, (s.stat rel).map (fun i => i.size) = (t.stat rel).map (fun i => i.size)) :
    tarDescriptor L s files mt = tarDescriptor L t files mt := by
  simp only [tarDescriptor, tarBlob, tarBody_congr L s t files hr hs]

theorem nativeSwitch_congr (lower : String) (i j : Option FileInfo)
    (h : i.map (fun x => x.size) = j.map (fun x => x.size)) :
    nativeSwitch lower i = nativeSwitch lower j := by
  cases i <;> cases j <;> simp at h <;> simp [nativeSwitch, h]

theorem walkFn_congr (L : Lib) (p : Partition) (a b : DirEntry) (h : a.view = b.view) :
    walkFn L p a = walkFn L p b := by
  simp only [DirEntry.view, Prod.mk.injEq] at h
  obtain ⟨h1, h2, h3⟩ := h
  simp only [walkFn, entrySlice, h1, h2, nativeSwitch_congr _ _ _ h3]

theorem partitionFiles_congr (L : Lib) (es et : List DirEntry)
    (h : es.map DirEntry.view = et.map DirEntry.view) :
    partitionFiles L es = partitionFiles L et := by
  unfold partitionFiles
  generalize ({ weights := [], cfg := [], docs := [] } : Partition) = p
  induction es generalizing et p with
  | nil =>
    cases et with
    | nil => rfl
    | cons b rest => simp at h
  | cons a rest ih =>
    cases et with
    | nil => simp at h
    | cons b rest2 =>
      simp only [List.map_cons, List.cons.injEq] at h
      simp only [List.foldl_cons, walkFn_congr L p a b h.1]
      exact ih rest2 h.2 _

theorem genericFiles_foldl_congr (es et : List DirEntry) (p : List String)
    (h : es.map DirEntry.view = et.map DirEntry.view) :
    es.foldl (fun files d => if d.isDir then files else files ++ [d.rel]) p
      = et.foldl (fun files d => if d.isDir then files else files ++ [d.rel]) p := by
  induction es generalizing et p with
  | nil =>
    cases et with
    | nil => rfl
    | cons b rest => simp at h
  | cons a rest ih =>
    cases et with
    | nil => simp at h
    | cons b rest2 =>
      simp only [List.map_cons, List.cons.injEq, DirEntry.view, Prod.mk.injEq] at h
      simp only [List.foldl_cons, h.1.1, h.1.2.1]
      exact ih rest2 _ h.2

theorem genericFiles_congr (es et : List DirEntry)
    (h : es.map DirEntry.view = et.map DirEntry.view) :
    genericFiles es = genericFiles et :=
  genericFiles_foldl_congr es et [] h

/-- The archive of a list of files does not depend on the time of the run. -/
theorem tarBody_now (L : Lib) (now2 : String) (src : SrcTree) (files : List String) :
    tarBody { L with now := now2 } src files = tarBody L src files := by
  induction files with
  | nil => rfl
  | cons rel rest ih => simp only [tarBody, ih]

/-- The layers of a run do not depend on the time of the run. -/
theorem expectedLayers_now (L : Lib) (now2 : String) (C : Codec) (src : SrcTree)
    (entries : List DirEntry) (opts : Options) :
    expectedLayers { L with now := now2 } C src entries opts
      = expectedLayers L C src entries opts := by
  have hp : partitionFiles { L with now := now2 } entries = partitionFiles L entries := rfl
  have hd : ∀ files mt, tarDescriptor { L with now := now2 } src files mt
      = tarDescriptor L src files mt := by
    intro files mt
    simp only [tarDescriptor, tarBlob, tarBody_now]
    rfl
  simp only [expectedLayers, modelPackLayers, categoryLayer, hp, hd]

/-- C1. Determinism: two successful runs of `pack` at any two times, with the
same options but for the output directory, over two observations of a source
tree that agree on the relative paths and on the contents and may differ in
every other piece of file metadata, and started on any two states of the
output, give manifests with the same number of layers, the same layer digests
in the same order, indeed the same layer descriptors. The first run reads the
time `L.now`, the second the time `now2`. -/
theorem determinism (L : Lib) (now2 : String) (C : Codec) (W1 W2 : World) (o1 o2 : Options)
    (f1 f2 g1 g2 : FS) (r1 r2 : Result) (s t : SrcTree)
    (hopts : o2 = { o1 with outputDir := o2.outputDir })
    (hs : resolveSource W1 o1.source = Except.ok s)
    (ht : resolveSource W2 o2.source = Except.ok t)
    (hsame : SameContent s t)
    (h1 : pack L C W1 o1 f1 = (Except.ok r1, g1))
    (h2 : pack { L with now := now2 } C W2 o2 f2 = (Except.ok r2, g2)) :
    r1.manifest.layers.length = r2.manifest.layers.length
    ∧ r1.manifest.layers.map (fun d => d.digest) = r2.manifest.layers.map (fun d => d.digest)
    ∧ r1.manifest.layers = r2.manifest.layers := by
  obtain ⟨⟨es, et, hes, het, hv⟩, hr, hst⟩ := hsame
  have e1 := pack_layers L C W1 o1 f1 g1 r1 s es hs hes h1
  have e2 := pack_layers { L with now := now2 } C W2 o2 f2 g2 r2 t et ht het h2
  rw [expectedLayers_now] at e2
  have hspec : specOf o2 = specOf o1 := by rw [hopts]; rfl
  have hmt : o2.mediaTypes = o1.mediaTypes := by rw [hopts]
  have hexp : expectedLayers L C s es o1 = expectedLayers L C t et o2 := by
    simp only [expectedLayers, modelPackLayers, categoryLayer, hspec, hmt,
      partitionFiles_congr L es et hv, genericFiles_congr es et hv,
      tarDescriptor_congr L s t _ _ hr hst]
  have hl : r1.manifest.layers = r2.manifest.layers := by
    have hinj : Function.Injective (Except.ok : Descriptor → Except String Descriptor) := by
      intro a b hab
      cases hab
      rfl
    exact (List.map_injective_iff.2 hinj) (by rw [e1, e2, hexp])
  rw [hl]
  exact ⟨rfl, rfl, rfl⟩

/-! ## The blobs of the layout -/

theorem trimPrefix_append (p h : String) : trimPrefix (p ++ h) p = h := by
  have hp : hasPrefix (p ++ h) p = true := by
    simp [hasPrefix, String.data_append]
  simp [trimPrefix, hp, String.data_append]

/-- The blob of a digest lies at `blobs/sha256/` followed by the hex form of the
hash. -/
theorem blobPath_digestOf (L : Lib) (outDir : String) (b : Bytes) :
    blobPath L outDir (digestOf L b) = L.join [outDir, "blobs", "sha256", L.sha256hex b] := by
  simp [blobPath, digestOf, trimPrefix_append]

theorem stored_descriptorOf (L : Lib) (outDir mt : String) (b : Bytes) (ws : List (String × Bytes))
    (h : (blobPath L outDir (digestOf L b), b) ∈ ws) : Stored L outDir ws (descriptorOf L mt b) :=
  ⟨b, h, rfl, rfl⟩

theorem Stored.mono (L : Lib) (outDir : String) (ws ws2 : List (String × Bytes)) (d : Descriptor)
    (h : Stored L outDir ws d) (hsub : ∀ x ∈ ws, x ∈ ws2) : Stored L outDir ws2 d := by
  obtain ⟨b, h1, h2, h3⟩ := h
  exact ⟨b, hsub _ h1, h2, h3⟩

theorem appendLayer_writes (L : Lib) (src : SrcTree) (outDir : String) (files : List String)
    (mt : String) (descs ds : List Descriptor) (fs fs1 : FS)
    (h : appendLayer L src outDir files mt descs fs = (Except.ok ds, fs1)) :
    ∃ ws, fs1.files = ws ++ fs.files
      ∧ ∀ d ∈ ds, d ∈ descs ∨ Stored L outDir ws d := by
  rcases appendLayer_ok L src outDir files mt descs ds fs fs1 h with
    ⟨_, h1, h2⟩ | ⟨_, blob, _, h1, h2⟩
  · subst h1 h2
    exact ⟨[], rfl, fun d hd => Or.inl hd⟩
  · subst h1 h2
    refine ⟨[(blobPath L outDir (digestOf L blob), blob)], rfl, ?_⟩
    intro d hd
    rcases List.mem_append.1 hd with hd | hd
    · exact Or.inl hd
    · right
      rw [List.mem_singleton.1 hd]
      exact stored_descriptorOf L outDir mt blob _ (List.mem_singleton.2 rfl)

theorem buildModelPackLayers_writes (L : Lib) (C : Codec) (src : SrcTree) (outDir : String)
    (mt : ModelPackMediaTypes) (fs fs3 : FS) (ds : List Descriptor)
    (h : buildModelPackLayers L C src outDir mt fs = (Except.ok ds, fs3)) :
    ∃ ws, fs3.files = ws ++ fs.files ∧ ∀ d ∈ ds, Stored L outDir ws d := by
  obtain ⟨entries, ds1, ds2, fs1, fs2, _, h1, h2, h3⟩ :=
    buildModelPackLayers_ok L C src outDir mt fs fs3 ds h
  obtain ⟨w1, e1, s1⟩ := appendLayer_writes L src outDir _ _ _ _ _ _ h1
  obtain ⟨w2, e2, s2⟩ := appendLayer_writes L src outDir _ _ _ _ _ _ h2
  obtain ⟨w3, e3, s3⟩ := appendLayer_writes L src outDir _ _ _ _ _ _ h3
  refine ⟨w3 ++ (w2 ++ w1), by rw [e3, e2, e1]; simp, ?_⟩
  intro d hd
  rcases s3 d hd with hd2 | hst
  · rcases s2 d hd2 with hd1 | hst
    · rcases s1 d hd1 with hd0 | hst
      · simp at hd0
      · exact hst.mono L outDir _ _ d (fun x hx => by simp [hx])
    · exact hst.mono L outDir _ _ d (fun x hx => by simp [hx])
  · exact hst.mono L outDir _ _ d (fun x hx => by simp [hx])

theorem buildLayers_writes (L : Lib) (C : Codec) (src : SrcTree) (spec : String) (opts : Options)
    (fs fs2 : FS) (layers : List Descriptor) (configDesc : Descriptor)
    (h : buildLayers L C src spec opts fs = (Except.ok (layers, configDesc), fs2)) :
    ∃ ws, fs2.files = ws ++ fs.files
      ∧ ∀ d ∈ configDesc :: layers, Stored L opts.outputDir ws d := by
  rcases buildLayers_ok L C src spec opts fs fs2 layers configDesc h with
    ⟨_, fs1, hb, hc⟩ | ⟨_, layer, fs1, hb, hl, hc⟩
  · obtain ⟨w1, e1, s1⟩ := buildModelPackLayers_writes L C src _ _ _ _ _ hb
    obtain ⟨b, _, hd, hfs⟩ := writeJSONBlob_ok L C _ _ _ _ _ _ hc
    refine ⟨(blobPath L opts.outputDir (digestOf L b), b) :: w1, by simp [hfs, FS.writeFile, e1], ?_⟩
    intro d hd2
    rcases List.mem_cons.1 hd2 with h0 | h0
    · rw [h0, hd]
      exact stored_descriptorOf L _ _ b _ (List.mem_cons_self _ _)
    · exact (s1 d h0).mono L _ _ _ d (fun x hx => List.mem_cons_of_mem _ hx)
  · obtain ⟨entries, _, hb2⟩ := buildGenericLayer_ok L C src _ _ _ _ hb
    obtain ⟨blob, _, hd1, hfs1⟩ := buildTarLayer_ok L src _ _ _ _ _ _ hb2
    obtain ⟨b, _, hd, hfs⟩ := writeJSONBlob_ok L C _ _ _ _ _ _ hc
    refine ⟨[(blobPath L opts.outputDir (digestOf L b), b),
        (blobPath L opts.outputDir (digestOf L blob), blob)], ?_, ?_⟩
    · rw [hfs, hfs1, hd1]; rfl
    · intro d hd2
      subst hl
      rcases List.mem_cons.1 hd2 with h0 | h0
      · rw [h0, hd]
        exact stored_descriptorOf L _ _ b _ (List.mem_cons_self _ _)
      · rw [List.mem_singleton.1 h0, hd1]
        exact stored_descriptorOf L _ _ blob _ (by simp)

theorem lookup_of_mem (ws rest : List (String × Bytes)) (p : String) (b : Bytes)
    (hmem : (p, b) ∈ ws)
    (hone : ∀ x ∈ ws, ∀ y ∈ ws, x.1 = y.1 → x.2 = y.2) :
    List.lookup p (ws ++ rest) = some b := by
  induction ws with
  | nil => simp at hmem
  | cons w ws ih =>
    obtain ⟨q, c⟩ := w
    by_cases hq : p = q
    · subst hq
      have hc : c = b := hone (p, c) (List.mem_cons_self _ _) (p, b) hmem rfl
      simp [List.lookup, hc]
    · have hmem2 : (p, b) ∈ ws := by
        rcases List.mem_cons.1 hmem with h | h
        · simp only [Prod.mk.injEq] at h
          exact absurd h.1 hq
        · exact h
      have hbeq : (p == q) = false := by simpa using hq
      simp only [List.cons_append, List.lookup, hbeq]
      exact ih hmem2 (fun x hx y hy => hone x (List.mem_cons_of_mem _ hx) y (List.mem_cons_of_mem _ hy))

theorem pack_writes (L : Lib) (C : Codec) (W : World) (opts : Options) (fs fs3 : FS) (r : Result)
    (h : pack L C W opts fs = (Except.ok r, fs3)) :
    ∃ ws, fs3.files = ws ++ fs.files
      ∧ ∀ d ∈ r.index.manifests ++ [r.manifest.config] ++ r.manifest.layers,
          Stored L opts.outputDir ws d := by
  obtain ⟨src, layers, configDesc, fs1, mbytes, ibytes, _, _, _, hbl, hl, hc, _, hm, _, hfs⟩ :=
    pack_ok L C W opts fs fs3 r h
  obtain ⟨w1, e1, s1⟩ := buildLayers_writes L C src _ opts _ _ _ _ hbl
  refine ⟨(L.join [opts.outputDir, "index.json"], ibytes)
      :: (blobPath L opts.outputDir (digestOf L mbytes), mbytes)
      :: (w1 ++ [(L.join [opts.outputDir, "oci-layout"],
            strBytes "\x7b\n  \"imageLayoutVersion\": \"1.0.0\"\n\x7d\n")]), ?_, ?_⟩
  · rw [hfs]
    simp only [FS.writeFile, e1, initLayout, FS.mkdirAll]
    simp
  · intro d hd
    rw [hm, hl, hc] at hd
    simp only [List.singleton_append, List.mem_cons, List.cons_append, List.nil_append] at hd
    rcases hd with h0 | h0 | h0
    · rw [h0]
      exact stored_descriptorOf L _ _ mbytes _ (by simp)
    · exact (s1 d (by rw [h0]; exact List.mem_cons_self _ _)).mono L _ _ _ d
        (fun x hx => by simp [hx])
    · exact (s1 d (List.mem_cons_of_mem _ h0)).mono L _ _ _ d (fun x hx => by simp [hx])

theorem written_eq (fs fs3 : FS) (ws : List (String × Bytes)) (h : fs3.files = ws ++ fs.files) :
    written fs fs3 = ws := by
  simp [written, h]

/-! ## Layer order -/

theorem appendLayer_mediaTypes (L : Lib) (src : SrcTree) (outDir : String) (files : List String)
    (mt : String) (descs ds : List Descriptor) (fs fs1 : FS)
    (h : appendLayer L src outDir (sortStrings files) mt descs fs = (Except.ok ds, fs1)) :
    ds.map (fun d => d.mediaType)
      = descs.map (fun d => d.mediaType) ++ (if files = [] then [] else [mt]) := by
  rcases appendLayer_ok L src outDir _ mt descs ds fs fs1 h with ⟨h0, h1, _⟩ | ⟨h0, blob, hb, h1, _⟩
  · rw [sortStrings_eq_nil] at h0
    simp [h0, h1]
  · rw [Ne, sortStrings_eq_nil] at h0
    simp [h0, h1, descriptorOf]

/-- C3. Layer order: in a successful run of `pack` under the modelpack spec, the
layers of the manifest are the descriptor of the archive of the sorted weights
when there are weights, then that of the config when there is config, then that
of the docs when there are docs, and nothing else: one layer for each
non-empty category, in this order, with the media type of its category. -/
theorem layer_order (L : Lib) (C : Codec) (W : World) (opts : Options) (fs fs3 : FS) (r : Result)
    (src : SrcTree) (entries : List DirEntry)
    (hspec : opts.spec = "" ∨ opts.spec = SpecModelPack)
    (hsrc : resolveSource W opts.source = Except.ok src) (hw : src.walk = Except.ok entries)
    (h : pack L C W opts fs = (Except.ok r, fs3)) :
    r.manifest.layers.map Except.ok =
      (if (partitionFiles L entries).weights = [] then []
        else [tarDescriptor L src (sortStrings (partitionFiles L entries).weights)
          (if opts.mediaTypes.layerWeights = "" then C.mediaTypeModelWeight
            else opts.mediaTypes.layerWeights)])
      ++ (if (partitionFiles L entries).cfg = [] then []
        else [tarDescriptor L src (sortStrings (partitionFiles L entries).cfg)
          (if opts.mediaTypes.layerConfig = "" then C.mediaTypeModelWeightConfig
            else opts.mediaTypes.layerConfig)])
      ++ (if (partitionFiles L entries).docs = [] then []
        else [tarDescriptor L src (sortStrings (partitionFiles L entries).docs)
          (if opts.mediaTypes.layerDocs = "" then C.mediaTypeModelDoc
            else opts.mediaTypes.layerDocs)])
    ∧ r.manifest.layers.map (fun d => d.mediaType) =
      (if (partitionFiles L entries).weights = [] then []
        else [if opts.mediaTypes.layerWeights = "" then C.mediaTypeModelWeight
          else opts.mediaTypes.layerWeights])
      ++ (if (partitionFiles L entries).cfg = [] then []
        else [if opts.mediaTypes.layerConfig = "" then C.mediaTypeModelWeightConfig
          else opts.mediaTypes.layerConfig])
      ++ (if (partitionFiles L entries).docs = [] then []
        else [if opts.mediaTypes.layerDocs = "" then C.mediaTypeModelDoc
          else opts.mediaTypes.layerDocs])
    ∧ r.manifest.layers.length =
      (if (partitionFiles L entries).weights = [] then 0 else 1)
      + (if (partitionFiles L entries).cfg = [] then 0 else 1)
      + (if (partitionFiles L entries).docs = [] then 0 else 1) := by
  have hs : specOf opts = SpecModelPack := by
    rcases hspec with h0 | h0 <;> simp [specOf, h0]
  have e := pack_layers L C W opts fs fs3 r src entries hsrc hw h
  rw [expectedLayers, if_pos hs] at e
  have hmt : r.manifest.layers.map (fun d => d.mediaType) =
      (if (partitionFiles L entries).weights = [] then []
        else [if opts.mediaTypes.layerWeights = "" then C.mediaTypeModelWeight
          else opts.mediaTypes.layerWeights])
      ++ (if (partitionFiles L entries).cfg = [] then []
        else [if opts.mediaTypes.layerConfig = "" then C.mediaTypeModelWeightConfig
          else opts.mediaTypes.layerConfig])
      ++ (if (partitionFiles L entries).docs = [] then []
        else [if opts.mediaTypes.layerDocs = "" then C.mediaTypeModelDoc
          else opts.mediaTypes.layerDocs]) := by
    obtain ⟨src2, layers, configDesc, fs1, mbytes, ibytes, _, _, hres, hbl, hl, _⟩ :=
      pack_ok L C W opts fs fs3 r h
    rw [hsrc] at hres
    cases hres
    rw [hl]
    rcases buildLayers_ok L C src _ opts _ _ _ _ hbl with ⟨_, fsa, hb, _⟩ | ⟨hg, _⟩
    · obtain ⟨entries2, ds1, ds2, fa, fb, hw2, h1, h2, h3⟩ :=
        buildModelPackLayers_ok L C src _ _ _ _ _ hb
      rw [hw] at hw2
      cases hw2
      rw [appendLayer_mediaTypes L src _ _ _ _ _ _ _ h3,
        appendLayer_mediaTypes L src _ _ _ _ _ _ _ h2,
        appendLayer_mediaTypes L src _ _ _ _ _ _ _ h1]
      simp
    · rw [hs] at hg
      exact absurd hg (by decide)
  refine ⟨?_, hmt, ?_⟩
  · rw [e]
    simp only [modelPackLayers, categoryLayer]
  · have hlen := congrArg List.length hmt
    rw [List.length_map] at hlen
    rw [hlen]
    by_cases h1 : (partitionFiles L entries).weights = [] <;>
      by_cases h2 : (partitionFiles L entries).cfg = [] <;>
      by_cases h3 : (partitionFiles L entries).docs = [] <;>
      simp [h1, h2, h3]

/-- A directory with files of the three categories gives three layers in the order weights, config, docs; a directory with one weight file gives the weights layer only. -/
theorem layer_order_witness :
    (resultOf (pack demoLib demoCodec (worldOf (treeOf demoFilesA)) (demoOpts "out" "")
        emptyFS)).manifest.layers.map (fun d => d.mediaType)
      = ["application/vnd.cncf.model.weight.v1.tar",
         "application/vnd.cncf.model.weight.config.v1.tar",
         "application/vnd.cncf.model.doc.v1.tar"]
    ∧ (resultOf (pack demoLib demoCodec (worldOf (treeOf [userFile "a.bin" [7]]))
        (demoOpts "out" "modelpack") emptyFS)).manifest.layers.map (fun d => d.mediaType)
      = ["application/vnd.cncf.model.weight.v1.tar"] :=
  ⟨(layer_order demoLib demoCodec (worldOf (treeOf demoFilesA)) (demoOpts "out" "") emptyFS
      (pack demoLib demoCodec (worldOf (treeOf demoFilesA)) (demoOpts "out" "") emptyFS).2
      (resultOf (pack demoLib demoCodec (worldOf (treeOf demoFilesA)) (demoOpts "out" "") emptyFS))
      (treeOf demoFilesA) _ (by decide) rfl rfl (by decide)).2.1,
   (layer_order demoLib demoCodec (worldOf (treeOf [userFile "a.bin" [7]]))
      (demoOpts "out" "modelpack") emptyFS
      (pack demoLib demoCodec (worldOf (treeOf [userFile "a.bin" [7]]))
        (demoOpts "out" "modelpack") emptyFS).2
      (resultOf (pack demoLib demoCodec (worldOf (treeOf [userFile "a.bin" [7]]))
        (demoOpts "out" "modelpack") emptyFS))
      (treeOf [userFile "a.bin" [7]]) _ (by decide) rfl rfl (by decide)).2.1⟩

/-! ## Runs on a concrete directory -/

theorem find_congr (fa fb : List SrcFile) (rel : String)
    (h : fa.map (fun f => (f.rel, f.info.size, f.content))
      = fb.map (fun f => (f.rel, f.info.size, f.content))) :
    (fa.find? (fun f => decide (f.rel = rel))).map (fun f => (f.info.size, f.content))
      = (fb.find? (fun f => decide (f.rel = rel))).map (fun f => (f.info.size, f.content)) := by
  induction fa generalizing fb with
  | nil =>
    cases fb with
    | nil => rfl
    | cons b rest => simp at h
  | cons a rest ih =>
    cases fb with
    | nil => simp at h
    | cons b rest2 =>
      simp only [List.map_cons, List.cons.injEq, Prod.mk.injEq] at h
      obtain ⟨⟨h1, h2, h3⟩, h4⟩ := h
      by_cases hr : a.rel = rel
      · have hb : b.rel = rel := by rw [← h1]; exact hr
        simp [List.find?, hr, hb, h2, h3]
      · have hb : ¬ b.rel = rel := by rw [← h1]; exact hr
        simp only [List.find?, hr, hb, decide_False]
        exact ih rest2 h4

/-- Two directories that hold the same files, up to the metadata, are two
observations of one source tree. -/
theorem sameContent_treeOf (fa fb : List SrcFile)
    (h : fa.map (fun f => (f.rel, f.info.size, f.content))
      = fb.map (fun f => (f.rel, f.info.size, f.content))) :
    SameContent (treeOf fa) (treeOf fb) := by
  refine ⟨⟨_, _, rfl, rfl, ?_⟩, ?_, ?_⟩
  · have h2 := congrArg (List.map (fun x : String × Nat × Bytes => (x.1, false, some x.2.1))) h
    simpa [DirEntry.view, List.map_map, Function.comp_def] using h2
  · intro rel
    have h2 := congrArg (Option.map (fun x : Nat × Bytes => x.2)) (find_congr fa fb rel h)
    simpa [treeOf, Option.map_map, Function.comp_def] using h2
  · intro rel
    have h2 := congrArg (Option.map (fun x : Nat × Bytes => x.1)) (find_congr fa fb rel h)
    simpa [treeOf, Option.map_map, Function.comp_def] using h2

/-- Two runs, one at the start of 2024 and one in the middle of 2025, over a
directory and over its copy with other owners, permissions and times, into two
output directories: the same three layer digests, and two indexes that differ
in the time of creation. -/
theorem determinism_witness :
    (resultOf (pack demoLib demoCodec (worldOf (treeOf demoFilesA)) (demoOpts "out1" "")
        emptyFS)).manifest.layers.map (fun d => d.digest)
      = (resultOf (pack { demoLib with now := "2025-06-30T12:00:00Z" } demoCodec
          (worldOf (treeOf demoFilesB)) (demoOpts "out2" "")
          (emptyFS.writeFile "out2/old" [1]))).manifest.layers.map (fun d => d.digest)
    ∧ (resultOf (pack demoLib demoCodec (worldOf (treeOf demoFilesA)) (demoOpts "out1" "")
        emptyFS)).manifest.layers.length = 3
    ∧ demoFilesA.map (fun f => f.info) ≠ demoFilesB.map (fun f => f.info)
    ∧ (resultOf (pack demoLib demoCodec (worldOf (treeOf demoFilesA)) (demoOpts "out1" "")
        emptyFS)).index.annotations
      ≠ (resultOf (pack { demoLib with now := "2025-06-30T12:00:00Z" } demoCodec
          (worldOf (treeOf demoFilesB)) (demoOpts "out2" "")
          (emptyFS.writeFile "out2/old" [1]))).index.annotations :=
  ⟨(determinism demoLib "2025-06-30T12:00:00Z" demoCodec (worldOf (treeOf demoFilesA))
      (worldOf (treeOf demoFilesB))
      (demoOpts "out1" "") (demoOpts "out2" "") emptyFS (emptyFS.writeFile "out2/old" [1])
      (pack demoLib demoCodec (worldOf (treeOf demoFilesA)) (demoOpts "out1" "") emptyFS).2
      (pack { demoLib with now := "2025-06-30T12:00:00Z" } demoCodec (worldOf (treeOf demoFilesB))
        (demoOpts "out2" "") (emptyFS.writeFile "out2/old" [1])).2
      (resultOf (pack demoLib demoCodec (worldOf (treeOf demoFilesA)) (demoOpts "out1" "") emptyFS))
      (resultOf (pack { demoLib with now := "2025-06-30T12:00:00Z" } demoCodec
        (worldOf (treeOf demoFilesB)) (demoOpts "out2" "") (emptyFS.writeFile "out2/old" [1])))
      (treeOf demoFilesA) (treeOf demoFilesB) rfl rfl rfl
      (sameContent_treeOf demoFilesA demoFilesB (by decide)) (by decide) (by decide)).2.1,
   by decide, by decide, by decide⟩

/-- C4. Blob referential integrity and content addressing: after a successful
run of `pack` in which no path was written with two different contents (no two
blobs of the run collide), `index.json` holds the index of the run, whose one
manifest descriptor is that of the serialized manifest; and the manifest
descriptor of the index, the config descriptor and every layer descriptor of
the manifest each have their file `blobs/sha256/<hex>` in the output: the digest
of the bytes of the file is the digest of the descriptor and their number is its
size. -/
theorem blob_integrity (L : Lib) (C : Codec) (W : World) (opts : Options) (fs fs3 : FS)
    (r : Result)
    (h : pack L C W opts fs = (Except.ok r, fs3))
    (hone : ∀ x ∈ written fs fs3, ∀ y ∈ written fs fs3, x.1 = y.1 → x.2 = y.2) :
    (∃ ib, C.marshalIndent (JSONValue.index r.index) = Except.ok ib
      ∧ fs3.readFile (L.join [opts.outputDir, "index.json"]) = some ib)
    ∧ (∃ mb, C.marshal (JSONValue.manifest r.manifest) = Except.ok mb
      ∧ r.index.manifests = [descriptorOf L C.mediaTypeImageManifest mb])
    ∧ ∀ d ∈ r.index.manifests ++ [r.manifest.config] ++ r.manifest.layers,
      ∃ b, fs3.readFile (blobPath L opts.outputDir d.digest) = some b
        ∧ digestOf L b = d.digest ∧ b.length = d.size := by
  obtain ⟨ws, hws, hst⟩ := pack_writes L C W opts fs fs3 r h
  rw [written_eq fs fs3 ws hws] at hone
  obtain ⟨src, layers, configDesc, fs1, mbytes, ibytes, _, _, _, _, _, _, hm1, hm2, hi, hfs⟩ :=
    pack_ok L C W opts fs fs3 r h
  refine ⟨⟨ibytes, hi, ?_⟩, ⟨mbytes, hm1, hm2⟩, ?_⟩
  · rw [hfs]
    simp [FS.readFile, FS.writeFile, List.lookup]
  · intro d hd
    obtain ⟨b, hb, h1, h2⟩ := hst d hd
    refine ⟨b, ?_, h1, h2⟩
    rw [FS.readFile, hws]
    exact lookup_of_mem ws fs.files _ b hb hone

/-- The run over the demonstration directory: the blob of the config descriptor
and the blob of the weights layer are in the output, with the digest and the
size of their descriptors. -/
theorem blob_integrity_witness :
    (∃ b, (pack demoLib demoCodec (worldOf (treeOf demoFilesA)) (demoOpts "out" "")
          emptyFS).2.readFile (blobPath demoLib "out" "sha256:tv") = some b
        ∧ digestOf demoLib b = "sha256:tv" ∧ b.length = 2)
    ∧ (∃ b, (pack demoLib demoCodec (worldOf (treeOf demoFilesA)) (demoOpts "out" "")
          emptyFS).2.readFile (blobPath demoLib "out" "sha256:fhwxeultyxmxglhkleeaaabcdeaa") = some b
        ∧ digestOf demoLib b = "sha256:fhwxeultyxmxglhkleeaaabcdeaa" ∧ b.length = 28) :=
  ⟨(blob_integrity demoLib demoCodec (worldOf (treeOf demoFilesA)) (demoOpts "out" "") emptyFS
      (pack demoLib demoCodec (worldOf (treeOf demoFilesA)) (demoOpts "out" "") emptyFS).2
      (resultOf (pack demoLib demoCodec (worldOf (treeOf demoFilesA)) (demoOpts "out" "") emptyFS))
      (by decide) (by decide)).2.2
      { mediaType := "application/vnd.cncf.model.config.v1+json", digest := "sha256:tv", size := 2 }
      (by decide),
   (blob_integrity demoLib demoCodec (worldOf (treeOf demoFilesA)) (demoOpts "out" "") emptyFS
      (pack demoLib demoCodec (worldOf (treeOf demoFilesA)) (demoOpts "out" "") emptyFS).2
      (resultOf (pack demoLib demoCodec (worldOf (treeOf demoFilesA)) (demoOpts "out" "") emptyFS))
      (by decide) (by decide)).2.2
      { mediaType := "application/vnd.cncf.model.weight.v1.tar",
        digest := "sha256:fhwxeultyxmxglhkleeaaabcdeaa", size := 28 }
      (by decide)⟩

/-! ## Where the native packager and the script part -/

/-- The docs case of the script: a name without a weights extension that starts
with `readme` or `license`, or ends in `.md`, goes to the docs list, before the
`.json` and `.txt` patterns are tried. -/
theorem shell_docs_rule (f : String) (sz : Nat)
    (hw : hasAnySuffix (asciiLower (base f)) [".safetensors", ".bin", ".gguf", ".pt", ".ckpt"] = false)
    (hd : hasPrefix (asciiLower (base f)) "readme" = true
      ∨ hasPrefix (asciiLower (base f)) "license" = true
      ∨ hasSuffix (asciiLower (base f)) ".md" = true) :
    nameCategory f sz = Category.docs := by
  have hc : hasPrefix (asciiLower (base f)) "readme" = true
      ∨ hasPrefix (asciiLower (base f)) "license" = true
      ∨ asciiLower (base f) = "license"
      ∨ hasSuffix (asciiLower (base f)) ".md" = true := by
    rcases hd with h | h | h
    · exact Or.inl h
    · exact Or.inr (Or.inl h)
    · exact Or.inr (Or.inr (Or.inr h))
  simp only [nameCategory, shellCase, hw, if_pos hc]
  simp

/-- The native switch reaches its docs case only for a name that has no weights
extension and no `.json` or `.txt` ending. -/
theorem native_docs_rule (L : Lib) (d : DirEntry) :
    entrySlice L d = Slice.docs ↔
      (hasAnySuffix (toLower L (base d.rel)) [".safetensors", ".bin", ".gguf", ".pt", ".ckpt"] = false
      ∧ ¬ (toLower L (base d.rel) = "config.json" ∨ toLower L (base d.rel) = "tokenizer.json"
          ∨ hasSuffix (toLower L (base d.rel)) ".json" = true
          ∨ hasSuffix (toLower L (base d.rel)) ".txt" = true)
      ∧ (hasPrefix (toLower L (base d.rel)) "readme" = true
          ∨ hasPrefix (toLower L (base d.rel)) "license" = true
          ∨ hasSuffix (toLower L (base d.rel)) ".md" = true)) := by
  unfold entrySlice nativeSwitch
  cases hw : hasAnySuffix (toLower L (base d.rel)) [".safetensors", ".bin", ".gguf", ".pt", ".ckpt"]
  · by_cases hc : (toLower L (base d.rel) = "config.json" ∨ toLower L (base d.rel) = "tokenizer.json"
          ∨ hasSuffix (toLower L (base d.rel)) ".json" = true
          ∨ hasSuffix (toLower L (base d.rel)) ".txt" = true)
    · simp only [if_pos hc]
      simp [hc]
    · simp only [if_neg hc]
      by_cases hd : (hasPrefix (toLower L (base d.rel)) "readme" = true
          ∨ hasPrefix (toLower L (base d.rel)) "license" = true
          ∨ hasSuffix (toLower L (base d.rel)) ".md" = true)
      · simp only [if_pos hd]
        simp [hc, hd]
      · simp only [if_neg hd]
        have hne : (match d.info with
            | some i => if i.size < 10 * 1024 * 1024 then Slice.cfg else Slice.weights
            | none => Slice.weights) ≠ Slice.docs := by
          split
          · split <;> simp
          · simp
        simp [hne, hd]
  · simp

/-- C6. Docs rule, on the native packager at `README.txt`, `LICENSE.txt` and
`readme.json`: the switch of `buildModelPackLayers` tries the `.json`/`.txt` case
before the `readme`/`license`/`.md` case and appends the three files to the
config, where the script of `generateModelpackScript` puts them on the docs
list. -/
theorem docs_rule_native_divergence :
    entrySlice demoLib (fileEntry "README.txt" 120) = Slice.cfg
    ∧ entrySlice demoLib (fileEntry "LICENSE.txt" 1070) = Slice.cfg
    ∧ entrySlice demoLib (fileEntry "docs/readme.json" 16) = Slice.cfg
    ∧ partitionFiles demoLib [fileEntry "LICENSE.txt" 1070, fileEntry "README.txt" 120]
        = { weights := [], cfg := ["LICENSE.txt", "README.txt"], docs := [] }
    ∧ shellCategory "README.txt" 120 = Except.ok Category.docs
    ∧ shellCategory "LICENSE.txt" 1070 = Except.ok Category.docs
    ∧ shellCategory "docs/readme.json" 16 = Except.ok Category.docs := by
  decide

/-- The selection of the script leaves out the directories, the lock files and
the files below `.cache/`: every path of `/tmp/allfiles.list` is that of a
regular file of the walk that is none of these. -/
theorem shell_excludes (entries : List DirEntry) (f : String) (hf : f ∈ allFiles entries) :
    ∃ d ∈ entries, d.rel = f ∧ d.isDir = false ∧ hasSuffix (base f) ".lock" = false
      ∧ hasPrefix ("./" ++ f) "./.cache/" = false := by
  obtain ⟨d, hd, hk, hr⟩ := (mem_allFiles entries f).1 hf
  refine ⟨d, hd, hr, ?_⟩
  subst hr
  simpa [shellKeeps, and_assoc] using hk

/-- C10. Exclusions, on the native packager at a directory with a lock file and
a cache file: `buildModelPackLayers` appends `model.bin.lock` and
`.cache/download.tmp` to the config and `buildGenericLayer` collects them for
its layer, where the selection of the script leaves both out. -/
theorem exclusions_native_divergence :
    partitionFiles demoLib lockedEntries
      = { weights := ["model.bin"], cfg := [".cache/download.tmp", "model.bin.lock"], docs := [] }
    ∧ genericFiles lockedEntries = [".cache/download.tmp", "model.bin", "model.bin.lock"]
    ∧ allFiles lockedEntries = ["model.bin"] := by
  decide

/-! ## Reference names and titles -/

theorem safeRefRune_eq_spec (c : Char) : safeRefRune c = specRefChar c := by
  unfold safeRefRune specRefChar
  simp only [Char.isLower, Char.isDigit, Char.isUpper, Char.toLower, Char.toNat,
    Bool.and_eq_true, decide_eq_true_eq, ge_iff_le, UInt32.le_def, Fin.le_def]
  have ha : 'a'.val.toNat = 97 := rfl
  have hz : 'z'.val.toNat = 122 := rfl
  have h0 : '0'.val.toNat = 48 := rfl
  have h9 : '9'.val.toNat = 57 := rfl
  have hA : 'A'.val.toNat = 65 := rfl
  have hZ : 'Z'.val.toNat = 90 := rfl
  have e1 : (UInt32.toBitVec 97).toNat = 97 := rfl
  have e2 : (UInt32.toBitVec 122).toNat = 122 := rfl
  have e3 : (UInt32.toBitVec 48).toNat = 48 := rfl
  have e4 : (UInt32.toBitVec 57).toNat = 57 := rfl
  have e5 : (UInt32.toBitVec 65).toNat = 65 := rfl
  have e6 : (UInt32.toBitVec 90).toNat = 90 := rfl
  have ec : c.val.toBitVec.toNat = c.val.toNat := rfl
  simp only [BitVec.le_def, ha, hz, h0, h9, hA, hZ, e1, e2, e3, e4, e5, e6, ec]
  by_cases h1 : 97 ≤ c.val.toNat ∧ c.val.toNat ≤ 122
  · simp [h1]
  · by_cases h2 : 48 ≤ c.val.toNat ∧ c.val.toNat ≤ 57
    · simp [h1, h2]
    · by_cases h3 : c = '/' ∨ c = '.' ∨ c = '_' ∨ c = '-'
      · simp [h1, h2, h3]
      · by_cases h4 : 65 ≤ c.val.toNat ∧ c.val.toNat ≤ 90
        · simp only [h1, h2, h3, h4, or_self, if_false, if_true, and_self]
        · simp only [h1, h2, h3, h4, or_self, if_false]

/-- C16. The function `safeRefName` against its reference definition: the empty
string gives `aikit/model`, and any other string is mapped character by
character, in order, by the mapping the specification describes; so
`My Model 1` gives `my-model-1` and `Already/good_name.ok` is kept. -/
theorem safeRefName_reference :
    safeRefName "" = "aikit/model"
    ∧ (∀ s : String, safeRefName s
        = if s = "" then "aikit/model" else String.mk (s.data.map specRefChar))
    ∧ safeRefName "My Model 1" = "my-model-1"
    ∧ safeRefName "Already/good_name.ok" = "already/good_name.ok"
    ∧ safeRefName "Weird!Name@With#Chars" = "weird-name-with-chars"
    ∧ safeRefName "UPPERCASE.and.Mixed" = "uppercase.and.mixed" := by
  refine ⟨by decide, ?_, by decide, by decide, by decide, by decide⟩
  intro s
  unfold safeRefName
  have hf : safeRefRune = specRefChar := funext safeRefRune_eq_spec
  rw [hf]

/-- C17. Title and ref-name fallbacks: when the options hold a non-empty value
under `build-arg:name`, `determineName` and `determineRefName` both return it;
when the map is nil, the key is absent or its value is empty, they return
`aikitmodel` and `latest`; the two fallbacks differ and the title is never
empty. -/
theorem name_fallbacks (opts : BuildOpts) :
    (∀ v : String, opts.get "build-arg:name" = some v → v ≠ "" →
        determineName opts = v ∧ determineRefName opts = v)
    ∧ ((opts.get "build-arg:name" = none ∨ opts.get "build-arg:name" = some "") →
        determineName opts = "aikitmodel" ∧ determineRefName opts = "latest")
    ∧ determineName opts ≠ ""
    ∧ ("aikitmodel" : String) ≠ "latest" := by
  have hkey : ("build-arg:" ++ "name" : String) = "build-arg:name" := by decide
  have hget : getBuildArg opts "name" = (opts.get "build-arg:name").getD "" := by
    cases opts with
    | none => rfl
    | some m =>
      simp only [getBuildArg, BuildOpts.get, hkey]
      cases m.lookup "build-arg:name" <;> rfl
  refine ⟨?_, ?_, ?_, by decide⟩
  · intro v hv hne
    simp [determineName, determineRefName, hget, hv, hne]
  · intro h
    rcases h with h | h <;> simp [determineName, determineRefName, hget, h]
  · unfold determineName
    by_cases h : getBuildArg opts "name" = ""
    · simp [h]
    · simp [h]

/-- The cases of the tests of the two functions. -/
theorem name_fallbacks_witness :
    determineName (some [("build-arg:name", "foo")]) = "foo"
    ∧ determineRefName (some [("build-arg:name", "modelA")]) = "modelA"
    ∧ determineName (some []) = "aikitmodel" ∧ determineRefName (some []) = "latest"
    ∧ determineName none = "aikitmodel" ∧ determineRefName none = "latest"
    ∧ determineName (some [("build-arg:name", "")]) = "aikitmodel" :=
  ⟨((name_fallbacks (some [("build-arg:name", "foo")])).1 "foo" rfl (by decide)).1,
   ((name_fallbacks (some [("build-arg:name", "modelA")])).1 "modelA" rfl (by decide)).2,
   ((name_fallbacks (some [])).2.1 (Or.inl rfl)).1,
   ((name_fallbacks (some [])).2.1 (Or.inl rfl)).2,
   ((name_fallbacks none).2.1 (Or.inl rfl)).1,
   ((name_fallbacks none).2.1 (Or.inl rfl)).2,
   ((name_fallbacks (some [("build-arg:name", "")])).2.1 (Or.inr rfl)).1⟩

/-! ## Media types, empty inputs, layers per category -/

/-- The media types of the layers of a successful modelpack run, in the order
of the manifest: that of the weights, of the config and of the docs, each when
its slice has a file and each chosen by its own override alone. -/
theorem pack_modelpack_mediaTypes (L : Lib) (C : Codec) (W : World) (opts : Options)
    (fs fs3 : FS) (r : Result) (src : SrcTree) (entries : List DirEntry)
    (hs : specOf opts = SpecModelPack)
    (hsrc : resolveSource W opts.source = Except.ok src) (hw : src.walk = Except.ok entries)
    (h : pack L C W opts fs = (Except.ok r, fs3)) :
    r.manifest.layers.map (fun d => d.mediaType) =
      (if (partitionFiles L entries).weights = [] then []
        else [if opts.mediaTypes.layerWeights = "" then C.mediaTypeModelWeight
          else opts.mediaTypes.layerWeights])
      ++ (if (partitionFiles L entries).cfg = [] then []
        else [if opts.mediaTypes.layerConfig = "" then C.mediaTypeModelWeightConfig
          else opts.mediaTypes.layerConfig])
      ++ (if (partitionFiles L entries).docs = [] then []
        else [if opts.mediaTypes.layerDocs = "" then C.mediaTypeModelDoc
          else opts.mediaTypes.layerDocs])
    ∧ r.manifest.config.mediaType =
      (if opts.mediaTypes.manifestConfig = "" then C.mediaTypeModelConfig
        else opts.mediaTypes.manifestConfig) := by
  obtain ⟨src2, layers, configDesc, fs1, mbytes, ibytes, _, _, hres, hbl, hl, hc, _⟩ :=
    pack_ok L C W opts fs fs3 r h
  rw [hsrc] at hres
  cases hres
  rw [hl, hc]
  rcases buildLayers_ok L C src _ opts _ _ _ _ hbl with ⟨_, fsa, hb, hcfg⟩ | ⟨hg, _⟩
  · obtain ⟨entries2, ds1, ds2, fa, fb, hw2, h1, h2, h3⟩ :=
      buildModelPackLayers_ok L C src _ _ _ _ _ hb
    rw [hw] at hw2
    cases hw2
    obtain ⟨b, _, hd, _⟩ := writeJSONBlob_ok L C _ _ _ _ _ _ hcfg
    refine ⟨?_, by rw [hd]; rfl⟩
    rw [appendLayer_mediaTypes L src _ _ _ _ _ _ _ h3,
      appendLayer_mediaTypes L src _ _ _ _ _ _ _ h2,
      appendLayer_mediaTypes L src _ _ _ _ _ _ _ h1]
    simp
  · rw [hs] at hg
    exact absurd hg (by decide)

/-- C13. Override propagation: in a successful run of `pack` under the modelpack
spec, the layer of the weights, of the config and of the docs, and the config
descriptor of the manifest, each carry the override of the options for them
when it is not empty and the ModelPack default when it is; the media type of a
descriptor depends on no other override. -/
theorem override_propagation (L : Lib) (C : Codec) (W : World) (opts : Options)
    (fs fs3 : FS) (r : Result) (src : SrcTree) (entries : List DirEntry)
    (hspec : opts.spec = "" ∨ opts.spec = SpecModelPack)
    (hsrc : resolveSource W opts.source = Except.ok src) (hw : src.walk = Except.ok entries)
    (h : pack L C W opts fs = (Except.ok r, fs3)) :
    r.manifest.layers.map (fun d => d.mediaType) =
      (if (partitionFiles L entries).weights = [] then []
        else [if opts.mediaTypes.layerWeights = "" then C.mediaTypeModelWeight
          else opts.mediaTypes.layerWeights])
      ++ (if (partitionFiles L entries).cfg = [] then []
        else [if opts.mediaTypes.layerConfig = "" then C.mediaTypeModelWeightConfig
          else opts.mediaTypes.layerConfig])
      ++ (if (partitionFiles L entries).docs = [] then []
        else [if opts.mediaTypes.layerDocs = "" then C.mediaTypeModelDoc
          else opts.mediaTypes.layerDocs])
    ∧ r.manifest.config.mediaType =
      (if opts.mediaTypes.manifestConfig = "" then C.mediaTypeModelConfig
        else opts.mediaTypes.manifestConfig) := by
  have hs : specOf opts = SpecModelPack := by
    rcases hspec with h0 | h0 <;> simp [specOf, h0]
  exact pack_modelpack_mediaTypes L C W opts fs fs3 r src entries hs hsrc hw h

/-- The run of the test of the overrides: a weight file and a config file, with the four
media types overridden. -/
theorem override_propagation_witness :
    (resultOf (pack demoLib demoCodec
        (worldOf (treeOf [userFile "a.bin" [1], userFile "config.json" [2]]))
        overrideOpts emptyFS)).manifest.layers.map (fun d => d.mediaType) = ["custom/w", "custom/c"]
    ∧ (resultOf (pack demoLib demoCodec
        (worldOf (treeOf [userFile "a.bin" [1], userFile "config.json" [2]]))
        overrideOpts emptyFS)).manifest.config.mediaType = "custom/mcfg" :=
  override_propagation demoLib demoCodec
    (worldOf (treeOf [userFile "a.bin" [1], userFile "config.json" [2]])) overrideOpts emptyFS
    (pack demoLib demoCodec (worldOf (treeOf [userFile "a.bin" [1], userFile "config.json" [2]]))
      overrideOpts emptyFS).2
    (resultOf (pack demoLib demoCodec
      (worldOf (treeOf [userFile "a.bin" [1], userFile "config.json" [2]])) overrideOpts emptyFS))
    (treeOf [userFile "a.bin" [1], userFile "config.json" [2]]) _ (by decide) rfl rfl (by decide)

theorem genericFiles_foldl (entries : List DirEntry) (p : List String) :
    entries.foldl (fun files d => if d.isDir then files else files ++ [d.rel]) p
      = p ++ regularFiles entries := by
  induction entries generalizing p with
  | nil => simp [regularFiles]
  | cons d rest ih =>
    rw [List.foldl_cons, ih]
    by_cases hd : d.isDir = true
    · simp [regularFiles, List.filter_cons, hd]
    · simp [regularFiles, List.filter_cons, hd]

/-- The walk of `buildGenericLayer` collects the regular files of the walk, in
its order. -/
theorem genericFiles_eq (entries : List DirEntry) : genericFiles entries = regularFiles entries := by
  simp [genericFiles, genericFiles_foldl]

theorem sliceFiles_sublist (L : Lib) (entries : List DirEntry) (s : Slice) :
    (sliceFiles L entries s).Sublist (regularFiles entries) := by
  unfold sliceFiles regularFiles
  apply List.Sublist.map
  induction entries with
  | nil => simp
  | cons d rest ih =>
    by_cases hd : d.isDir = true
    · simpa [List.filter_cons, hd] using ih
    · by_cases hs : entrySlice L d = s
      · simpa [List.filter_cons, hd, hs] using ih
      · simp only [List.filter_cons, hd, hs, Bool.not_false, Bool.true_and, decide_False,
          Bool.false_eq_true, if_false, Bool.not_eq_true, if_true]
        exact List.Sublist.cons _ ih

theorem buildTarLayer_nil (L : Lib) (src : SrcTree) (outDir mt : String) (fs : FS) :
    buildTarLayer L src outDir [] mt fs
      = (Except.ok (descriptorOf L mt L.tarTrailer),
          fs.writeFile (blobPath L outDir (digestOf L L.tarTrailer)) L.tarTrailer) := by
  simp [buildTarLayer, tarBody, descriptorOf]

/-- The guards `len(..) > 0` of `buildModelPackLayers` leave out the layer of an
empty slice: a successful run of `pack` under the modelpack spec on a source
directory without regular files has a manifest without layers. -/
theorem modelpack_empty_layers (L : Lib) (C : Codec) (W : World) (opts : Options) (fs fs3 : FS)
    (r : Result) (src : SrcTree) (entries : List DirEntry)
    (hspec : opts.spec = "" ∨ opts.spec = SpecModelPack)
    (hsrc : resolveSource W opts.source = Except.ok src) (hw : src.walk = Except.ok entries)
    (hempty : regularFiles entries = [])
    (h : pack L C W opts fs = (Except.ok r, fs3)) :
    r.manifest.layers = [] := by
  have e := pack_layers L C W opts fs fs3 r src entries hsrc hw h
  have hs : specOf opts = SpecModelPack := by
    rcases hspec with h0 | h0 <;> simp [specOf, h0]
  have hslice : ∀ s, sliceFiles L entries s = [] := by
    intro s
    have hsub := sliceFiles_sublist L entries s
    rw [hempty] at hsub
    exact List.eq_nil_of_sublist_nil hsub
  rw [expectedLayers, if_pos hs, modelPackLayers, partitionFiles_eq] at e
  simp only [categoryLayer, hslice, if_true, List.append_nil] at e
  exact List.map_eq_nil_iff.1 e

/-- A successful run of `pack` under the generic spec on a source directory
without regular files has one layer: `buildGenericLayer` hands the empty list to
`buildTarLayer`, which archives it. -/
theorem generic_empty_layer (L : Lib) (C : Codec) (W : World) (opts : Options) (fs fs3 : FS)
    (r : Result) (src : SrcTree) (entries : List DirEntry)
    (hspec : opts.spec = SpecGeneric)
    (hsrc : resolveSource W opts.source = Except.ok src) (hw : src.walk = Except.ok entries)
    (hempty : regularFiles entries = [])
    (h : pack L C W opts fs = (Except.ok r, fs3)) :
    r.manifest.layers = [descriptorOf L C.mediaTypeImageLayer L.tarTrailer] := by
  have e := pack_layers L C W opts fs fs3 r src entries hsrc hw h
  have hne : specOf opts ≠ SpecModelPack := by
    simp only [specOf, hspec]
    decide
  have hnil : sortStrings ([] : List String) = [] := rfl
  rw [expectedLayers, if_neg hne, genericFiles_eq, hempty, hnil] at e
  have hd : tarDescriptor L src [] C.mediaTypeImageLayer
      = Except.ok (descriptorOf L C.mediaTypeImageLayer L.tarTrailer) := by
    simp [tarDescriptor, tarBlob, tarBody]
  rw [hd] at e
  cases hl : r.manifest.layers with
  | nil => simp [hl] at e
  | cons d rest =>
    rw [hl] at e
    simp only [List.map_cons, List.cons.injEq, Except.ok.injEq, List.map_eq_nil_iff] at e
    rw [e.1, e.2]

/-- C11. No zero-content layer, at the generic spec on an empty source directory:
`buildTarLayer` called on the empty list writes the archive that holds the
trailer alone and returns its descriptor, `buildGenericLayer` calls it without
the guard of `buildModelPackLayers`, and the manifest of the successful generic
run has one layer, the empty archive; the run under the modelpack spec on the
same directory has no layer. -/
theorem empty_input_generic_layer :
    (buildTarLayer demoLib (treeOf []) "out" [] "application/vnd.oci.image.layer.v1.tar" emptyFS).1
      = Except.ok { mediaType := "application/vnd.oci.image.layer.v1.tar",
                    digest := "sha256:aa", size := 2 }
    ∧ (pack demoLib demoCodec (worldOf (treeOf [])) (demoOpts "out" "generic") emptyFS).1
      = Except.ok (resultOf (pack demoLib demoCodec (worldOf (treeOf [])) (demoOpts "out" "generic")
          emptyFS))
    ∧ (resultOf (pack demoLib demoCodec (worldOf (treeOf [])) (demoOpts "out" "generic")
        emptyFS)).manifest.layers
      = [{ mediaType := "application/vnd.oci.image.layer.v1.tar", digest := "sha256:aa",
           size := 2 }]
    ∧ (pack demoLib demoCodec (worldOf (treeOf [])) (demoOpts "out" "modelpack") emptyFS).1
      = Except.ok (resultOf (pack demoLib demoCodec (worldOf (treeOf []))
          (demoOpts "out" "modelpack") emptyFS))
    ∧ (resultOf (pack demoLib demoCodec (worldOf (treeOf [])) (demoOpts "out" "modelpack")
        emptyFS)).manifest.layers = [] := by
  decide

theorem layersFor_weights_tar (packMode : String) (l : ShellLists)
    (hmode : packMode = "tar" ∨ packMode = "tar+gzip" ∨ packMode = "tar+zstd")
    (hd : ∀ f ∈ l.weights, dashedArg f = false) :
    (layersFor packMode l Category.weights).map (fun y => y.files)
      = l.weights.map (fun f => [f]) := by
  have hraw : packMode ≠ "raw" := by
    rcases hmode with h | h | h <;> rw [h] <;> decide
  have h2 := (find_dashed_none l.weights hd).2
  by_cases hl : l.weights = []
  · simp [layersFor, addCategoryOf, addCategory, hl]
  · simp [layersFor, addCategoryOf, addCategory, hl, hraw, hmode, Category.name,
      Function.comp_def, h2]

theorem layersFor_other_tar (packMode : String) (l : ShellLists) (c : Category)
    (hmode : packMode = "tar" ∨ packMode = "tar+gzip" ∨ packMode = "tar+zstd")
    (hc : c ≠ Category.weights) :
    (layersFor packMode l c).map (fun y => y.files)
      = if l.get c = [] then [] else [l.get c] := by
  have hraw : packMode ≠ "raw" := by
    rcases hmode with h | h | h <;> rw [h] <;> decide
  cases c with
  | weights => exact absurd rfl hc
  | config =>
    by_cases hl : l.config = []
    · simp [layersFor, addCategoryOf, addCategory, hl, ShellLists.get]
    · simp [layersFor, addCategoryOf, addCategory, hl, hraw, hmode, Category.name, ShellLists.get]
  | docs =>
    by_cases hl : l.docs = []
    · simp [layersFor, addCategoryOf, addCategory, hl, ShellLists.get]
    · simp [layersFor, addCategoryOf, addCategory, hl, hraw, hmode, Category.name, ShellLists.get]
  | code =>
    by_cases hl : l.code = []
    · simp [layersFor, addCategoryOf, addCategory, hl, ShellLists.get]
    · simp [layersFor, addCategoryOf, addCategory, hl, hraw, hmode, Category.name, ShellLists.get]
  | dataset =>
    by_cases hl : l.dataset = []
    · simp [layersFor, addCategoryOf, addCategory, hl, ShellLists.get]
    · simp [layersFor, addCategoryOf, addCategory, hl, hraw, hmode, Category.name, ShellLists.get]

theorem filter_category_same (packMode : String) (l : ShellLists) (c : Category)
    (hmode : packMode = "raw" ∨ packMode = "tar" ∨ packMode = "tar+gzip" ∨ packMode = "tar+zstd")
    (hd : ∀ c, ∀ f ∈ l.get c, dashedArg f = false) :
    (layersFor packMode l c).filter (fun y => decide (y.category = c)) = layersFor packMode l c := by
  rw [List.filter_eq_self]
  intro y hy
  simp [layersFor_category packMode l c hmode (hd c) y hy]

theorem filter_category_other (packMode : String) (l : ShellLists) (c c2 : Category)
    (hmode : packMode = "raw" ∨ packMode = "tar" ∨ packMode = "tar+gzip" ∨ packMode = "tar+zstd")
    (hd : ∀ c, ∀ f ∈ l.get c, dashedArg f = false)
    (hne : c2 ≠ c) :
    (layersFor packMode l c2).filter (fun y => decide (y.category = c)) = [] := by
  rw [List.filter_eq_nil_iff]
  intro y hy
  simp [layersFor_category packMode l c2 hmode (hd c2) y hy, hne]

/-- The layers of the script that the call of `add_category` for `c` made. -/
theorem filter_script_layers (packMode : String) (l : ShellLists) (c : Category)
    (hmode : packMode = "raw" ∨ packMode = "tar" ∨ packMode = "tar+gzip" ∨ packMode = "tar+zstd")
    (hd : ∀ c, ∀ f ∈ l.get c, dashedArg f = false) :
    (layersFor packMode l Category.weights
        ++ (layersFor packMode l Category.config
        ++ (layersFor packMode l Category.docs
        ++ (layersFor packMode l Category.code
        ++ (layersFor packMode l Category.dataset ++ []))))).filter
      (fun y => decide (y.category = c)) = layersFor packMode l c := by
  simp only [List.filter_append, List.filter_nil, List.append_nil]
  cases c <;>
    simp [filter_category_same packMode l _ hmode hd,
      filter_category_other packMode l _ _ hmode hd]

/-- C12 (amended). In the script of `generateModelpackScript` with a tar pack
mode, on a source directory whose selected paths are ordinary (printable
characters, no double quote, no backslash, neither the path nor its base name
beginning with `-`), the script runs through and every file of the weights list
is archived on its own, so the manifest has as many weights layers as weights
files, and every other non-empty category is one archive with one descriptor.
The native `pack` combines the weights like every other category: its manifest
has one layer for each non-empty slice. -/
theorem weights_layers (packMode : String) (size : String → Nat) (L : Lib) (C : Codec)
    (W : World) (opts : Options) (fs fs3 : FS) (r : Result) (src : SrcTree)
    (entries : List DirEntry)
    (hmode : packMode = "tar" ∨ packMode = "tar+gzip" ∨ packMode = "tar+zstd")
    (hspec : opts.spec = "" ∨ opts.spec = SpecModelPack)
    (hsrc : resolveSource W opts.source = Except.ok src) (hw : src.walk = Except.ok entries)
    (hord : ∀ e ∈ entries, shellKeeps e = true → ordinaryPath e.rel = true)
    (h : pack L C W opts fs = (Except.ok r, fs3)) :
    (∃ l ls, shellLists size (allFiles entries) = Except.ok l
      ∧ scriptLayers packMode size entries = Except.ok ls
      ∧ (ls.filter (fun y => decide (y.category = Category.weights))).map (fun y => y.files)
          = l.weights.map (fun f => [f])
      ∧ (ls.filter (fun y => decide (y.category = Category.weights))).length
          = l.weights.length
      ∧ ∀ c, c ≠ Category.weights →
          (ls.filter (fun y => decide (y.category = c))).map (fun y => y.files)
            = if l.get c = [] then [] else [l.get c])
    ∧ r.manifest.layers.length =
      (if (partitionFiles L entries).weights = [] then 0 else 1)
      + (if (partitionFiles L entries).cfg = [] then 0 else 1)
      + (if (partitionFiles L entries).docs = [] then 0 else 1) := by
  have hm4 : packMode = "raw" ∨ packMode = "tar" ∨ packMode = "tar+gzip" ∨ packMode = "tar+zstd" :=
    Or.inr hmode
  obtain ⟨hlists, hd, hsl⟩ := scriptLayers_ok packMode size entries hm4 hord
  constructor
  · refine ⟨_, _, hlists, hsl, ?_, ?_, ?_⟩
    · rw [filter_script_layers packMode _ _ hm4 hd]
      exact layersFor_weights_tar packMode _ hmode (hd Category.weights)
    · rw [filter_script_layers packMode _ _ hm4 hd]
      have hl := congrArg List.length (layersFor_weights_tar packMode
        (nameLists size (allFiles entries)) hmode (hd Category.weights))
      simpa using hl
    · intro c hc
      rw [filter_script_layers packMode _ _ hm4 hd]
      exact layersFor_other_tar packMode _ c hmode hc
  · have hs : specOf opts = SpecModelPack := by
      rcases hspec with h0 | h0 <;> simp [specOf, h0]
    have hmt := (pack_modelpack_mediaTypes L C W opts fs fs3 r src entries hs hsrc hw h).1
    have hlen := congrArg List.length hmt
    rw [List.length_map] at hlen
    rw [hlen]
    by_cases h1 : (partitionFiles L entries).weights = [] <;>
      by_cases h2 : (partitionFiles L entries).cfg = [] <;>
      by_cases h3 : (partitionFiles L entries).docs = [] <;>
      simp [h1, h2, h3]

/-- Two weight files and a config file: the script in mode `tar` makes two weights
layers and one config layer, the native `pack` one weights layer and one config
layer. -/
theorem weights_layers_witness :
    (resultOf (pack demoLib demoCodec
        (worldOf (treeOf [userFile "a.bin" [1], userFile "b.bin" [2], userFile "config.json" [3]]))
        (demoOpts "out" "") emptyFS)).manifest.layers.length = 2
    ∧ scriptLayers "tar" (fun _ => 1)
        [fileEntry "a.bin" 1, fileEntry "b.bin" 1, fileEntry "config.json" 1]
      = Except.ok
        [{ category := Category.weights, mediaType := "application/vnd.cncf.model.weight.v1.tar",
           filepath := "a.bin", files := ["a.bin"] },
         { category := Category.weights, mediaType := "application/vnd.cncf.model.weight.v1.tar",
           filepath := "b.bin", files := ["b.bin"] },
         { category := Category.config,
           mediaType := "application/vnd.cncf.model.weight.config.v1.tar",
           filepath := "config", files := ["config.json"] }] :=
  ⟨(weights_layers "tar" (fun _ => 1) demoLib demoCodec
      (worldOf (treeOf [userFile "a.bin" [1], userFile "b.bin" [2], userFile "config.json" [3]]))
      (demoOpts "out" "") emptyFS
      (pack demoLib demoCodec
        (worldOf (treeOf [userFile "a.bin" [1], userFile "b.bin" [2], userFile "config.json" [3]]))
        (demoOpts "out" "") emptyFS).2
      (resultOf (pack demoLib demoCodec
        (worldOf (treeOf [userFile "a.bin" [1], userFile "b.bin" [2], userFile "config.json" [3]]))
        (demoOpts "out" "") emptyFS))
      (treeOf [userFile "a.bin" [1], userFile "b.bin" [2], userFile "config.json" [3]]) _
      (by decide) (by decide) rfl rfl (by decide) (by decide)).2,
   by decide⟩

/-- C12, counterexample. A successful run of the native `pack` on two weight
files: both go to the weights slice and the manifest has one layer, not two. -/
theorem weights_layers_counterexample :
    (partitionFiles demoLib [fileEntry "a.bin" 1, fileEntry "b.bin" 1]).weights = ["a.bin", "b.bin"]
    ∧ (pack demoLib demoCodec (worldOf (treeOf [userFile "a.bin" [1], userFile "b.bin" [2]]))
        (demoOpts "out" "") emptyFS).1
      = Except.ok (resultOf (pack demoLib demoCodec
          (worldOf (treeOf [userFile "a.bin" [1], userFile "b.bin" [2]])) (demoOpts "out" "") emptyFS))
    ∧ (resultOf (pack demoLib demoCodec
        (worldOf (treeOf [userFile "a.bin" [1], userFile "b.bin" [2]]))
        (demoOpts "out" "") emptyFS)).manifest.layers.map (fun d => d.mediaType)
      = ["application/vnd.cncf.model.weight.v1.tar"] := by
  decide

/-! ## Tar headers and the order of the entries -/

theorem tarBody_entries (L : Lib) (src : SrcTree) (files : List String) (body : Bytes)
    (h : tarBody L src files = Except.ok body) :
    ∃ es : List (Header × Bytes × Bytes),
      List.Forall₂ (WrittenEntry L src) files es
      ∧ body = (es.map (fun e => e.2.2)).flatten := by
  induction files generalizing body with
  | nil =>
    simp only [tarBody, Except.ok.injEq] at h
    exact ⟨[], List.Forall₂.nil, by simp [← h]⟩
  | cons rel rest ih =>
    unfold tarBody at h
    split at h
    · simp at h
    · rename_i st hst
      split at h
      · simp at h
      · rename_i content hrd
        split at h
        · simp at h
        · rename_i bytes hte
          split at h
          · simp at h
          · rename_i more hmore
            simp only [Except.ok.injEq] at h
            obtain ⟨es, hes, hb⟩ := ih more hmore
            refine ⟨(layerHeader st rel, content, bytes) :: es, List.Forall₂.cons ?_ hes, ?_⟩
            · exact ⟨rfl, rfl, rfl, rfl, rfl, rfl, rfl, ⟨st, hst, rfl⟩, hrd, hte⟩
            · rw [← h, hb]
              simp

theorem writtenEntry_names (L : Lib) (src : SrcTree) (files : List String)
    (es : List (Header × Bytes × Bytes)) (hes : List.Forall₂ (WrittenEntry L src) files es) :
    es.map (fun e => e.1.name) = files.map toSlash := by
  induction hes with
  | nil => rfl
  | cons hx _ ih => simp [hx.1, ih]

/-- C14. Tar header normalization: the archive that a successful call of
`buildTarLayer` writes is, before the trailer, the sequence of the entries of its
files in the order of the list, and the header of each entry has the relative
path with forward slashes as name, mode 0644, uid 0, gid 0, empty owner and group
names and the Unix epoch as modification time, whatever `os.Stat` reports of the
file beyond its size. -/
theorem tar_header_normalization (L : Lib) (src : SrcTree) (outDir : String)
    (relPaths : List String) (mt : String) (fs fs1 : FS) (d : Descriptor)
    (h : buildTarLayer L src outDir relPaths mt fs = (Except.ok d, fs1)) :
    (∀ (st : FileInfo) (rel : String), layerHeader st rel
      = { name := toSlash rel, size := st.size, mode := 0o644, uid := 0, gid := 0,
          uname := "", gname := "", modTime := 0 })
    ∧ ∃ es : List (Header × Bytes × Bytes),
      List.Forall₂ (WrittenEntry L src) relPaths es
      ∧ es.map (fun e => e.1.name) = relPaths.map toSlash
      ∧ fs1.readFile (blobPath L outDir d.digest)
          = some ((es.map (fun e => e.2.2)).flatten ++ L.tarTrailer) := by
  refine ⟨fun st rel => rfl, ?_⟩
  obtain ⟨blob, hb, hd, hfs⟩ := buildTarLayer_ok L src outDir relPaths mt fs fs1 d h
  unfold tarBlob at hb
  split at hb
  · simp at hb
  · rename_i body hbody
    simp only [Except.ok.injEq] at hb
    obtain ⟨es, hes, hbe⟩ := tarBody_entries L src relPaths body hbody
    refine ⟨es, hes, writtenEntry_names L src relPaths es hes, ?_⟩
    · rw [hfs, ← hb, hbe]
      simp [FS.readFile, FS.writeFile, List.lookup]

/-- A file that an ordinary user owns, archived by `buildTarLayer`: the blob is the
entry of the normalized header followed by the trailer. -/
theorem tar_header_normalization_witness :
    layerHeader (userFile "sub/a.bin" [7, 8]).info "sub/a.bin"
      = { name := "sub/a.bin", size := 2, mode := 420, uid := 0, gid := 0,
          uname := "", gname := "", modTime := 0 }
    ∧ ∃ es : List (Header × Bytes × Bytes),
      es.map (fun e => e.1.name) = ["sub/a.bin"]
      ∧ (buildTarLayer demoLib (treeOf [userFile "sub/a.bin" [7, 8]]) "out" ["sub/a.bin"] "m"
          emptyFS).2.readFile (blobPath demoLib "out" (layerOf (buildTarLayer demoLib
            (treeOf [userFile "sub/a.bin" [7, 8]]) "out" ["sub/a.bin"] "m" emptyFS)).digest)
        = some ((es.map (fun e => e.2.2)).flatten ++ [0, 0]) :=
  ⟨(tar_header_normalization demoLib (treeOf [userFile "sub/a.bin" [7, 8]]) "out" ["sub/a.bin"] "m"
      emptyFS (buildTarLayer demoLib (treeOf [userFile "sub/a.bin" [7, 8]]) "out"
        ["sub/a.bin"] "m" emptyFS).2 (layerOf (buildTarLayer demoLib
        (treeOf [userFile "sub/a.bin" [7, 8]]) "out" ["sub/a.bin"] "m" emptyFS)) (by decide)).1 _ _,
   (tar_header_normalization demoLib (treeOf [userFile "sub/a.bin" [7, 8]]) "out" ["sub/a.bin"] "m"
      emptyFS (buildTarLayer demoLib (treeOf [userFile "sub/a.bin" [7, 8]]) "out"
        ["sub/a.bin"] "m" emptyFS).2 (layerOf (buildTarLayer demoLib
        (treeOf [userFile "sub/a.bin" [7, 8]]) "out" ["sub/a.bin"] "m" emptyFS)) (by decide)).2.elim
      (fun es hes => ⟨es, hes.2.1, hes.2.2⟩)⟩

/-! ## The order of `sort.Strings` -/

theorem strLE_refl (a : List Char) : strLE a a = true := by
  induction a with
  | nil => rfl
  | cons c cs ih => simp [strLE, ih]

theorem strLE_total (a b : List Char) : strLE a b = true ∨ strLE b a = true := by
  induction a generalizing b with
  | nil => exact Or.inl rfl
  | cons c cs ih =>
    cases b with
    | nil => exact Or.inr rfl
    | cons d ds =>
      by_cases h1 : c.toNat < d.toNat
      · left; simp [strLE, h1]
      · by_cases h2 : d.toNat < c.toNat
        · right; simp [strLE, h2]
        · rcases ih ds with h | h
          · left; simp [strLE, h1, h2, h]
          · right; simp [strLE, h1, h2, h]

theorem strLE_antisymm (a b : List Char) (hab : strLE a b = true) (hba : strLE b a = true) :
    a = b := by
  induction a generalizing b with
  | nil =>
    cases b with
    | nil => rfl
    | cons d ds => simp [strLE] at hba
  | cons c cs ih =>
    cases b with
    | nil => simp [strLE] at hab
    | cons d ds =>
      by_cases h1 : c.toNat < d.toNat
      · have h2 : ¬ d.toNat < c.toNat := by omega
        simp [strLE, h1, h2] at hba
      · by_cases h2 : d.toNat < c.toNat
        · simp [strLE, h1, h2] at hab
        · simp only [strLE, h1, h2, if_false] at hab hba
          have hcd : c = d := by
            have hn : c.toNat = d.toNat := by omega
            rw [← Char.ofNat_toNat c, hn, Char.ofNat_toNat]
          rw [hcd, ih ds hab hba]

theorem strLE_trans (a b c : List Char) (hab : strLE a b = true) (hbc : strLE b c = true) :
    strLE a c = true := by
  induction a generalizing b c with
  | nil => rfl
  | cons x xs ih =>
    cases b with
    | nil => simp [strLE] at hab
    | cons y ys =>
      cases c with
      | nil => simp [strLE] at hbc
      | cons z zs =>
        by_cases h1 : x.toNat < y.toNat
        · by_cases h2 : y.toNat < z.toNat
          · have : x.toNat < z.toNat := by omega
            simp [strLE, this]
          · by_cases h3 : z.toNat < y.toNat
            · simp [strLE, h2, h3] at hbc
            · have : x.toNat < z.toNat := by omega
              simp [strLE, this]
        · by_cases h1b : y.toNat < x.toNat
          · simp [strLE, h1, h1b] at hab
          · simp only [strLE, h1, h1b, if_false] at hab
            by_cases h2 : y.toNat < z.toNat
            · have : x.toNat < z.toNat := by omega
              simp [strLE, this]
            · by_cases h3 : z.toNat < y.toNat
              · simp [strLE, h2, h3] at hbc
              · simp only [strLE, h2, h3, if_false] at hbc
                have h4 : ¬ x.toNat < z.toNat := by omega
                have h5 : ¬ z.toNat < x.toNat := by omega
                simp only [strLE, h4, h5, if_false]
                exact ih ys zs hab hbc

theorem sortStrings_sorted (l : List String) : (sortStrings l).Sorted StrLE :=
  @List.sorted_insertionSort String StrLE _ ⟨fun a b => strLE_total a.data b.data⟩
    ⟨fun a b c => strLE_trans a.data b.data c.data⟩ l

/-- The result of `sort.Strings` depends on the strings of the slice, not on their
order. -/
theorem sortStrings_congr (l l2 : List String) (h : l.Perm l2) : sortStrings l = sortStrings l2 :=
  @List.eq_of_perm_of_sorted String StrLE
    ⟨fun a b hab hba => String.ext (strLE_antisymm a.data b.data hab hba)⟩ _ _
    (((sortStrings_perm l).trans h).trans (sortStrings_perm l2).symm)
    (sortStrings_sorted l) (sortStrings_sorted l2)

theorem sortStrings_strict (l : List String) (h : l.Nodup) :
    (sortStrings l).Pairwise (fun a b => StrLE a b ∧ a ≠ b) :=
  List.Pairwise.and (sortStrings_sorted l) ((sortStrings_perm l).nodup_iff.2 h)

theorem sliceFiles_perm_congr (L : Lib) (entries entries2 : List DirEntry) (s : Slice)
    (h : entries2.Perm entries) : (sliceFiles L entries2 s).Perm (sliceFiles L entries s) :=
  (h.filter _).map _

theorem regularFiles_perm_congr (entries entries2 : List DirEntry)
    (h : entries2.Perm entries) : (regularFiles entries2).Perm (regularFiles entries) :=
  (h.filter _).map _

theorem categoryLayer_congr (L : Lib) (src : SrcTree) (files files2 : List String) (mt : String)
    (h : files2.Perm files) : categoryLayer L src files2 mt = categoryLayer L src files mt := by
  unfold categoryLayer
  rw [sortStrings_congr files2 files h]
  by_cases hf : files = []
  · subst hf
    rw [List.Perm.eq_nil h]
  · have hf2 : files2 ≠ [] := by
      intro h0
      rw [h0] at h
      exact hf (List.Perm.eq_nil h.symm)
    rw [if_neg hf, if_neg hf2]

theorem mem_expectedLayers (L : Lib) (C : Codec) (src : SrcTree) (entries : List DirEntry)
    (opts : Options) (x : Except String Descriptor)
    (hx : x ∈ expectedLayers L C src entries opts) :
    ∃ files mt, files.Sublist (regularFiles entries)
      ∧ x = tarDescriptor L src (sortStrings files) mt := by
  unfold expectedLayers at hx
  split at hx
  · simp only [modelPackLayers, partitionFiles_eq, categoryLayer, List.mem_append] at hx
    rcases hx with (hx | hx) | hx
    · split at hx
      · simp at hx
      · exact ⟨_, _, sliceFiles_sublist L entries Slice.weights, List.mem_singleton.1 hx⟩
    · split at hx
      · simp at hx
      · exact ⟨_, _, sliceFiles_sublist L entries Slice.cfg, List.mem_singleton.1 hx⟩
    · split at hx
      · simp at hx
      · exact ⟨_, _, sliceFiles_sublist L entries Slice.docs, List.mem_singleton.1 hx⟩
  · refine ⟨genericFiles entries, _, ?_, List.mem_singleton.1 hx⟩
    rw [genericFiles_eq]

theorem tarDescriptor_entries (L : Lib) (src : SrcTree) (files : List String) (mt : String)
    (d : Descriptor) (h : tarDescriptor L src files mt = Except.ok d) :
    ∃ es : List (Header × Bytes × Bytes), List.Forall₂ (WrittenEntry L src) files es
      ∧ d = descriptorOf L mt ((es.map (fun e => e.2.2)).flatten ++ L.tarTrailer) := by
  unfold tarDescriptor tarBlob at h
  cases hb : tarBody L src files with
  | error e => simp [hb] at h
  | ok body =>
    simp only [hb, Except.ok.injEq] at h
    obtain ⟨es, hes, hbe⟩ := tarBody_entries L src files body hb
    exact ⟨es, hes, by rw [← h, hbe]⟩

/-- C15. Sorted entries: the lists of files that `buildModelPackLayers` and
`buildGenericLayer` hand to `buildTarLayer`, which writes the entries of a layer
in the order of its list, are in ascending byte-wise order and, for a walk that
visits no path twice, strictly ascending, so without duplicates; a walk that
visits the same entries in another order gives the same lists and the same
layers; and every layer of the manifest of a successful run of `pack` is the
descriptor of the archive of the entries of such a strictly ascending list. -/
theorem sorted_entries (L : Lib) (C : Codec) (W : World) (opts : Options) (fs fs3 : FS)
    (r : Result) (src : SrcTree) (entries entries2 : List DirEntry)
    (hperm : entries2.Perm entries) (hnodup : (regularFiles entries).Nodup)
    (hsrc : resolveSource W opts.source = Except.ok src) (hw : src.walk = Except.ok entries)
    (h : pack L C W opts fs = (Except.ok r, fs3)) :
    ((sortStrings (partitionFiles L entries).weights).Pairwise (fun a b => StrLE a b ∧ a ≠ b)
      ∧ (sortStrings (partitionFiles L entries).cfg).Pairwise (fun a b => StrLE a b ∧ a ≠ b)
      ∧ (sortStrings (partitionFiles L entries).docs).Pairwise (fun a b => StrLE a b ∧ a ≠ b)
      ∧ (sortStrings (genericFiles entries)).Pairwise (fun a b => StrLE a b ∧ a ≠ b))
    ∧ (sortStrings (partitionFiles L entries2).weights = sortStrings (partitionFiles L entries).weights
      ∧ sortStrings (partitionFiles L entries2).cfg = sortStrings (partitionFiles L entries).cfg
      ∧ sortStrings (partitionFiles L entries2).docs = sortStrings (partitionFiles L entries).docs
      ∧ sortStrings (genericFiles entries2) = sortStrings (genericFiles entries))
    ∧ expectedLayers L C src entries2 opts = expectedLayers L C src entries opts
    ∧ ∀ d ∈ r.manifest.layers, ∃ (files : List String) (es : List (Header × Bytes × Bytes)),
        files.Pairwise (fun a b => StrLE a b ∧ a ≠ b)
        ∧ List.Forall₂ (WrittenEntry L src) files es
        ∧ es.map (fun e => e.1.name) = files.map toSlash
        ∧ d.digest = digestOf L ((es.map (fun e => e.2.2)).flatten ++ L.tarTrailer) := by
  have hslice : ∀ s, (sliceFiles L entries s).Nodup :=
    fun s => List.Nodup.sublist (sliceFiles_sublist L entries s) hnodup
  have hgen : (genericFiles entries2).Perm (genericFiles entries) := by
    rw [genericFiles_eq, genericFiles_eq]
    exact regularFiles_perm_congr entries entries2 hperm
  simp only [partitionFiles_eq]
  refine ⟨⟨sortStrings_strict _ (hslice _), sortStrings_strict _ (hslice _),
    sortStrings_strict _ (hslice _), ?_⟩,
    ⟨sortStrings_congr _ _ (sliceFiles_perm_congr L entries entries2 _ hperm),
     sortStrings_congr _ _ (sliceFiles_perm_congr L entries entries2 _ hperm),
     sortStrings_congr _ _ (sliceFiles_perm_congr L entries entries2 _ hperm),
     sortStrings_congr _ _ hgen⟩, ?_, ?_⟩
  · rw [genericFiles_eq]
    exact sortStrings_strict _ hnodup
  · simp only [expectedLayers, modelPackLayers, partitionFiles_eq,
      categoryLayer_congr L src _ _ _ (sliceFiles_perm_congr L entries entries2 _ hperm),
      sortStrings_congr _ _ hgen]
  · intro d hd
    have e := pack_layers L C W opts fs fs3 r src entries hsrc hw h
    have hmem : Except.ok d ∈ expectedLayers L C src entries opts := by
      rw [← e]
      exact List.mem_map.2 ⟨d, hd, rfl⟩
    obtain ⟨files, mt, hsub, hx⟩ := mem_expectedLayers L C src entries opts _ hmem
    obtain ⟨es, hes, hde⟩ := tarDescriptor_entries L src _ mt d hx.symm
    refine ⟨sortStrings files, es, sortStrings_strict _ (List.Nodup.sublist hsub hnodup), hes,
      writtenEntry_names L src _ es hes, ?_⟩
    rw [hde]
    rfl

/-- A walk that visits `z.bin` first and `a.bin` last, and the walk in the reverse
order: the weights are archived in the order `a.bin`, `m/k.bin`, `z.bin` in both. -/
theorem sorted_entries_witness :
    sortStrings (partitionFiles demoLib (walkOf
        (treeOf [userFile "z.bin" [1], userFile "m/k.bin" [1], userFile "a.bin" [1]]))).weights
      = ["a.bin", "m/k.bin", "z.bin"]
    ∧ sortStrings (partitionFiles demoLib (walkOf
        (treeOf [userFile "z.bin" [1], userFile "m/k.bin" [1], userFile "a.bin" [1]])).reverse).weights
      = sortStrings (partitionFiles demoLib (walkOf
        (treeOf [userFile "z.bin" [1], userFile "m/k.bin" [1], userFile "a.bin" [1]]))).weights :=
  ⟨by decide,
   (sorted_entries demoLib demoCodec
      (worldOf (treeOf [userFile "z.bin" [1], userFile "m/k.bin" [1], userFile "a.bin" [1]]))
      (demoOpts "out" "") emptyFS
      (pack demoLib demoCodec
        (worldOf (treeOf [userFile "z.bin" [1], userFile "m/k.bin" [1], userFile "a.bin" [1]]))
        (demoOpts "out" "") emptyFS).2
      (resultOf (pack demoLib demoCodec
        (worldOf (treeOf [userFile "z.bin" [1], userFile "m/k.bin" [1], userFile "a.bin" [1]]))
        (demoOpts "out" "") emptyFS))
      (treeOf [userFile "z.bin" [1], userFile "m/k.bin" [1], userFile "a.bin" [1]])
      (walkOf (treeOf [userFile "z.bin" [1], userFile "m/k.bin" [1], userFile "a.bin" [1]]))
      (walkOf (treeOf [userFile "z.bin" [1], userFile "m/k.bin" [1], userFile "a.bin" [1]])).reverse
      (by decide) (by decide) rfl rfl (by decide)).2.1.1⟩

/-! ## Index and manifest -/

/-- The documents of a successful run of `pack`: the fields of the manifest and
of the index that do not come from the layers. -/
theorem pack_documents (L : Lib) (C : Codec) (W : World) (opts : Options) (fs fs3 : FS)
    (r : Result) (h : pack L C W opts fs = (Except.ok r, fs3)) :
    r.layoutPath = opts.outputDir
    ∧ r.manifest.schemaVersion = 2
    ∧ r.manifest.mediaType = C.mediaTypeImageManifest
    ∧ r.manifest.artifactType =
      (if opts.artifactType = "" then
        (if specOf opts = SpecModelPack then C.artifactTypeModelManifest
         else "application/vnd.oci.artifact")
       else opts.artifactType)
    ∧ r.index.schemaVersion = 0
    ∧ r.index.mediaType = C.mediaTypeImageIndex
    ∧ r.index.annotations =
      [(C.annotationRefName, safeRefName opts.name), (C.annotationCreated, L.now),
       (C.annotationTitle, opts.name),
       (C.annotationDescription, "AI model packaged by AIKit (" ++ specOf opts ++ ")")] := by
  unfold pack at h
  split at h
  · simp at h
  · split at h
    · simp at h
    · simp only at h
      split at h
      · simp at h
      · split at h
        · simp at h
        · split at h
          · simp at h
          · split at h
            · simp at h
            · simp only [Prod.mk.injEq, Except.ok.injEq] at h
              obtain ⟨hr, _⟩ := h
              subst hr
              exact ⟨rfl, rfl, rfl, rfl, rfl, rfl, rfl⟩

/-- The file `index.json` after a successful run holds the index of the run. -/
theorem pack_index_file (L : Lib) (C : Codec) (W : World) (opts : Options) (fs fs3 : FS)
    (r : Result) (h : pack L C W opts fs = (Except.ok r, fs3)) :
    ∃ ib, C.marshalIndent (JSONValue.index r.index) = Except.ok ib
      ∧ fs3.readFile (L.join [opts.outputDir, "index.json"]) = some ib := by
  obtain ⟨src, layers, configDesc, fs1, mbytes, ibytes, _, _, _, _, _, _, _, _, hi, hfs⟩ :=
    pack_ok L C W opts fs fs3 r h
  refine ⟨ibytes, hi, ?_⟩
  rw [hfs]
  simp [FS.readFile, FS.writeFile, List.lookup]

/-- C18 (amended). Index annotations of the native engine: the index that a
successful run of `pack` writes to `index.json` has one annotation for each of
the four keys; its ref-name annotation is `safeRefName` of the name of the
options, which is `aikit/model` for the empty name; and for a name that is not
empty its title annotation is that name. -/
theorem index_annotations (L : Lib) (C : Codec) (W : World) (opts : Options) (fs fs3 : FS)
    (r : Result) (h : pack L C W opts fs = (Except.ok r, fs3)) :
    (∃ ib, C.marshalIndent (JSONValue.index r.index) = Except.ok ib
      ∧ fs3.readFile (L.join [opts.outputDir, "index.json"]) = some ib)
    ∧ r.index.annotations.map (fun a => a.1)
      = [C.annotationRefName, C.annotationCreated, C.annotationTitle, C.annotationDescription]
    ∧ (C.annotationRefName, safeRefName opts.name) ∈ r.index.annotations
    ∧ (opts.name = "" → (C.annotationRefName, "aikit/model") ∈ r.index.annotations)
    ∧ (opts.name ≠ "" → (C.annotationTitle, opts.name) ∈ r.index.annotations) := by
  obtain ⟨_, _, _, _, _, _, ha⟩ := pack_documents L C W opts fs fs3 r h
  refine ⟨pack_index_file L C W opts fs fs3 r h, ?_, ?_, ?_, ?_⟩
  · rw [ha]; rfl
  · rw [ha]; simp
  · intro hn
    rw [ha, hn]
    simp [safeRefName]
  · intro _
    rw [ha]; simp

/-- The run of the test of the partitioning, with the name `My Model 1`. -/
theorem index_annotations_witness :
    ("org.opencontainers.image.ref.name", "my-model-1")
      ∈ (resultOf (pack demoLib demoCodec (worldOf (treeOf demoFilesA)) (demoOpts "out" "")
          emptyFS)).index.annotations
    ∧ ("org.opencontainers.image.title", "My Model 1")
      ∈ (resultOf (pack demoLib demoCodec (worldOf (treeOf demoFilesA)) (demoOpts "out" "")
          emptyFS)).index.annotations :=
  ⟨(index_annotations demoLib demoCodec (worldOf (treeOf demoFilesA)) (demoOpts "out" "") emptyFS
      (pack demoLib demoCodec (worldOf (treeOf demoFilesA)) (demoOpts "out" "") emptyFS).2
      (resultOf (pack demoLib demoCodec (worldOf (treeOf demoFilesA)) (demoOpts "out" "") emptyFS))
      (by decide)).2.2.1,
   (index_annotations demoLib demoCodec (worldOf (treeOf demoFilesA)) (demoOpts "out" "") emptyFS
      (pack demoLib demoCodec (worldOf (treeOf demoFilesA)) (demoOpts "out" "") emptyFS).2
      (resultOf (pack demoLib demoCodec (worldOf (treeOf demoFilesA)) (demoOpts "out" "") emptyFS))
      (by decide)).2.2.2.2 (by decide)⟩

/-- C18, counterexample. A successful run of the native `pack` with an empty name:
the ref-name annotation of the index is `aikit/model`, not `latest`, and the
title annotation is the empty string. -/
theorem index_annotations_counterexample :
    (pack demoLib demoCodec (worldOf (treeOf demoFilesA)) overrideOpts emptyFS).1
      = Except.ok (resultOf (pack demoLib demoCodec (worldOf (treeOf demoFilesA)) overrideOpts
          emptyFS))
    ∧ overrideOpts.name = ""
    ∧ (resultOf (pack demoLib demoCodec (worldOf (treeOf demoFilesA)) overrideOpts
        emptyFS)).index.annotations
      = [("org.opencontainers.image.ref.name", "aikit/model"),
         ("org.opencontainers.image.created", "2024-01-01T00:00:00Z"),
         ("org.opencontainers.image.title", ""),
         ("org.opencontainers.image.description", "AI model packaged by AIKit (modelpack)")] := by
  decide

/-- C19. Index shape, on a successful run of the native `pack`: the index has the
index media type and one manifest descriptor, that of the manifest blob, but
its schema version is 0, the zero value of the field `pack` does not set, where
the manifest of the same run has the schema version 2. -/
theorem index_shape_schema_version :
    (pack demoLib demoCodec (worldOf (treeOf demoFilesA)) (demoOpts "out" "") emptyFS).1
      = Except.ok (resultOf (pack demoLib demoCodec (worldOf (treeOf demoFilesA)) (demoOpts "out" "")
          emptyFS))
    ∧ (resultOf (pack demoLib demoCodec (worldOf (treeOf demoFilesA)) (demoOpts "out" "")
        emptyFS)).index.schemaVersion = 0
    ∧ (resultOf (pack demoLib demoCodec (worldOf (treeOf demoFilesA)) (demoOpts "out" "")
        emptyFS)).index.mediaType = "application/vnd.oci.image.index.v1+json"
    ∧ (resultOf (pack demoLib demoCodec (worldOf (treeOf demoFilesA)) (demoOpts "out" "")
        emptyFS)).index.manifests.length = 1
    ∧ (resultOf (pack demoLib demoCodec (worldOf (treeOf demoFilesA)) (demoOpts "out" "")
        emptyFS)).manifest.schemaVersion = 2 := by
  decide

/-- The config blob is the last write of the `switch opts.Spec` of `pack`. -/
theorem buildLayers_config (L : Lib) (C : Codec) (src : SrcTree) (spec : String) (opts : Options)
    (fs fs2 : FS) (layers : List Descriptor) (configDesc : Descriptor)
    (h : buildLayers L C src spec opts fs = (Except.ok (layers, configDesc), fs2)) :
    ∃ b ws, C.marshal JSONValue.emptyMap = Except.ok b
      ∧ configDesc = descriptorOf L configDesc.mediaType b
      ∧ fs2.files = ((blobPath L opts.outputDir (digestOf L b), b) :: ws) ++ fs.files := by
  rcases buildLayers_ok L C src spec opts fs fs2 layers configDesc h with
    ⟨_, fs1, hb, hc⟩ | ⟨_, layer, fs1, hb, _, hc⟩
  · obtain ⟨wa, ea, _⟩ := buildModelPackLayers_writes L C src _ _ _ _ _ hb
    obtain ⟨b, hb1, hb2, hb3⟩ := writeJSONBlob_ok L C _ _ _ _ _ _ hc
    refine ⟨b, wa, hb1, by rw [hb2]; rfl, ?_⟩
    rw [hb3]
    simp [FS.writeFile, ea]
  · obtain ⟨entries, _, hbt⟩ := buildGenericLayer_ok L C src _ _ _ _ hb
    obtain ⟨blob, _, _, hfa⟩ := buildTarLayer_ok L src _ _ _ _ _ _ hbt
    obtain ⟨b, hb1, hb2, hb3⟩ := writeJSONBlob_ok L C _ _ _ _ _ _ hc
    refine ⟨b, [(blobPath L opts.outputDir layer.digest, blob)], hb1, by rw [hb2]; rfl, ?_⟩
    rw [hb3, hfa]
    simp [FS.writeFile]

/-- C20. Manifest shape: the manifest of a successful run of `pack` has the schema
version 2 and the image-manifest media type; its config is the descriptor of
the blob of the empty JSON object, an opening and a closing brace; its layers
are the list that the layer builder of the spec returned, in its order; and its
blob, written among the blobs of the layout under the digest that the index
lists, is the encoding of the manifest and begins with an opening brace. The
two facts used of `encoding/json` are that the empty map is encoded as the two
braces and that the encoding of a structure begins with an opening brace. -/
theorem manifest_shape (L : Lib) (C : Codec) (W : World) (opts : Options) (fs fs3 : FS)
    (r : Result)
    (hempty : C.marshal JSONValue.emptyMap = Except.ok (strBytes "\x7b\x7d"))
    (hobj : ∀ m b, C.marshal (JSONValue.manifest m) = Except.ok b → b.head? = some 123)
    (h : pack L C W opts fs = (Except.ok r, fs3)) :
    r.manifest.schemaVersion = 2
    ∧ r.manifest.mediaType = C.mediaTypeImageManifest
    ∧ r.manifest.config.digest = digestOf L [123, 125]
    ∧ r.manifest.config.size = 2
    ∧ (blobPath L opts.outputDir r.manifest.config.digest, [123, 125]) ∈ written fs fs3
    ∧ (∃ src, resolveSource W opts.source = Except.ok src
      ∧ ((specOf opts = SpecModelPack ∧ ∃ fs1,
            buildModelPackLayers L C src opts.outputDir opts.mediaTypes (initLayout L opts fs)
              = (Except.ok r.manifest.layers, fs1))
        ∨ (specOf opts = SpecGeneric ∧ ∃ layer fs1,
            buildGenericLayer L C src opts.outputDir (initLayout L opts fs)
              = (Except.ok layer, fs1)
            ∧ r.manifest.layers = [layer])))
    ∧ ∃ mb, C.marshal (JSONValue.manifest r.manifest) = Except.ok mb
      ∧ mb.head? = some 123
      ∧ r.index.manifests = [descriptorOf L C.mediaTypeImageManifest mb]
      ∧ (blobPath L opts.outputDir (digestOf L mb), mb) ∈ written fs fs3 := by
  obtain ⟨_, hv, hmt, _⟩ := pack_documents L C W opts fs fs3 r h
  obtain ⟨src, layers, configDesc, fs1, mbytes, ibytes, _, _, hres, hbl, hl, hc, hm1, hm2, _, hfs⟩ :=
    pack_ok L C W opts fs fs3 r h
  obtain ⟨b, ws, hb1, hb2, hb3⟩ := buildLayers_config L C src _ opts _ _ _ _ hbl
  have hbytes : strBytes "\x7b\x7d" = [123, 125] := by decide
  rw [hempty, hbytes] at hb1
  cases hb1
  have hfiles : fs3.files = ((L.join [opts.outputDir, "index.json"], ibytes)
      :: (blobPath L opts.outputDir (digestOf L mbytes), mbytes)
      :: (blobPath L opts.outputDir (digestOf L [123, 125]), [123, 125])
      :: (ws ++ [(L.join [opts.outputDir, "oci-layout"],
            strBytes "\x7b\n  \"imageLayoutVersion\": \"1.0.0\"\n\x7d\n")])) ++ fs.files := by
    rw [hfs]
    simp only [FS.writeFile, hb3, initLayout, FS.mkdirAll]
    simp
  have hwr := written_eq fs fs3 _ hfiles
  refine ⟨hv, hmt, ?_, ?_, ?_, ⟨src, hres, ?_⟩, mbytes, hm1, hobj _ _ hm1, hm2, ?_⟩
  · rw [hc, hb2]; rfl
  · rw [hc, hb2]; rfl
  · rw [hwr, hc, hb2]
    simp [descriptorOf]
  · rcases buildLayers_ok L C src _ opts _ _ _ _ hbl with ⟨hs, fa, hb, _⟩ | ⟨hs, layer, fa, hb, hl2, _⟩
    · left
      exact ⟨hs, fa, by rw [hl]; exact hb⟩
    · right
      exact ⟨hs, layer, fa, hb, by rw [hl]; exact hl2⟩
  · rw [hwr]
    simp

/-- The run over the demonstration directory: the manifest has the schema version
2 and the image-manifest media type, and its config is the descriptor of the
two bytes of the empty object. -/
theorem manifest_shape_witness :
    (resultOf (pack demoLib demoCodec (worldOf (treeOf demoFilesA)) (demoOpts "out" "")
        emptyFS)).manifest.schemaVersion = 2
    ∧ (resultOf (pack demoLib demoCodec (worldOf (treeOf demoFilesA)) (demoOpts "out" "")
        emptyFS)).manifest.mediaType = "application/vnd.oci.image.manifest.v1+json"
    ∧ (resultOf (pack demoLib demoCodec (worldOf (treeOf demoFilesA)) (demoOpts "out" "")
        emptyFS)).manifest.config.size = 2 :=
  ⟨(manifest_shape demoLib demoCodec (worldOf (treeOf demoFilesA)) (demoOpts "out" "") emptyFS
      (pack demoLib demoCodec (worldOf (treeOf demoFilesA)) (demoOpts "out" "") emptyFS).2
      (resultOf (pack demoLib demoCodec (worldOf (treeOf demoFilesA)) (demoOpts "out" "") emptyFS))
      rfl (fun m b hb => by cases hb; rfl) (by decide)).1,
   (manifest_shape demoLib demoCodec (worldOf (treeOf demoFilesA)) (demoOpts "out" "") emptyFS
      (pack demoLib demoCodec (worldOf (treeOf demoFilesA)) (demoOpts "out" "") emptyFS).2
      (resultOf (pack demoLib demoCodec (worldOf (treeOf demoFilesA)) (demoOpts "out" "") emptyFS))
      rfl (fun m b hb => by cases hb; rfl) (by decide)).2.1,
   (manifest_shape demoLib demoCodec (worldOf (treeOf demoFilesA)) (demoOpts "out" "") emptyFS
      (pack demoLib demoCodec (worldOf (treeOf demoFilesA)) (demoOpts "out" "") emptyFS).2
      (resultOf (pack demoLib demoCodec (worldOf (treeOf demoFilesA)) (demoOpts "out" "") emptyFS))
      rfl (fun m b hb => by cases hb; rfl) (by decide)).2.2.2.1⟩

/-! ## Configuration errors and the artifact type -/

/-- An empty source stops `pack` at its first check, before anything is written. -/
theorem pack_source_required (L : Lib) (C : Codec) (W : World) (opts : Options) (fs : FS)
    (h : opts.source = "") : pack L C W opts fs = (Except.error "source is required", fs) := by
  simp [pack, h]

/-- An empty output directory stops `pack` at its second check, before anything
is written. -/
theorem pack_output_required (L : Lib) (C : Codec) (W : World) (opts : Options) (fs : FS)
    (hs : opts.source ≠ "") (h : opts.outputDir = "") :
    pack L C W opts fs = (Except.error "output directory is required", fs) := by
  simp [pack, hs, h]

/-- A source that does not resolve stops `pack` with the error of the resolver,
before anything is written, whatever the spec. -/
theorem pack_unresolved (L : Lib) (C : Codec) (W : World) (opts : Options) (fs : FS) (e : String)
    (hs : opts.source ≠ "") (ho : opts.outputDir ≠ "")
    (hr : resolveSource W opts.source = Except.error e) :
    pack L C W opts fs = (Except.error e, fs) := by
  simp [pack, hs, ho, hr]

/-- An unknown spec is found by the `switch` only: when the source resolves, the
error is returned after the directory of the blobs is created and the file
`oci-layout` is written. -/
theorem pack_unknown_spec (L : Lib) (C : Codec) (W : World) (opts : Options) (fs : FS)
    (src : SrcTree) (hs : opts.source ≠ "") (ho : opts.outputDir ≠ "")
    (h0 : opts.spec ≠ "") (h1 : opts.spec ≠ SpecModelPack) (h2 : opts.spec ≠ SpecGeneric)
    (hr : resolveSource W opts.source = Except.ok src) :
    pack L C W opts fs = (Except.error ("unknown spec: " ++ opts.spec), initLayout L opts fs)
    ∧ (initLayout L opts fs).dirs = L.join [opts.outputDir, "blobs", "sha256"] :: fs.dirs
    ∧ (initLayout L opts fs).files
      = (L.join [opts.outputDir, "oci-layout"],
          strBytes "\x7b\n  \"imageLayoutVersion\": \"1.0.0\"\n\x7d\n") :: fs.files := by
  refine ⟨?_, rfl, rfl⟩
  simp [pack, hs, ho, hr, h0, buildLayers, h1, h2, initLayout]

/-- C21. Configuration errors, at an unknown spec: `pack` with the spec `bogus` on
a source that resolves returns the error `unknown spec: bogus` and no result, but
only after it has created `out/blobs/sha256` and written `out/oci-layout` into
the empty output; the checks of the empty source and of the empty output
directory do return before anything is written. -/
theorem config_errors_unknown_spec :
    pack demoLib demoCodec (worldOf (treeOf demoFilesA)) (demoOpts "out" "bogus") emptyFS
      = (Except.error "unknown spec: bogus",
          { dirs := ["out/blobs/sha256"],
            files := [("out/oci-layout",
              strBytes "\x7b\n  \"imageLayoutVersion\": \"1.0.0\"\n\x7d\n")] })
    ∧ pack demoLib demoCodec (worldOf (treeOf demoFilesA))
        { demoOpts "out" "bogus" with source := "" } emptyFS
      = (Except.error "source is required", emptyFS)
    ∧ pack demoLib demoCodec (worldOf (treeOf demoFilesA)) (demoOpts "" "bogus") emptyFS
      = (Except.error "output directory is required", emptyFS) := by
  decide

/-- C25. Artifact type defaulting: the manifest of a successful run of `pack`,
which is the document whose encoding the index points to, has the artifact type
of the options when that is not empty; when it is empty it has the artifact type
of the ModelPack manifest under the modelpack spec, also when the spec was left
empty, and `application/vnd.oci.artifact` under the generic spec. -/
theorem artifact_type_defaulting (L : Lib) (C : Codec) (W : World) (opts : Options) (fs fs3 : FS)
    (r : Result) (h : pack L C W opts fs = (Except.ok r, fs3)) :
    (opts.artifactType ≠ "" → r.manifest.artifactType = opts.artifactType)
    ∧ (opts.artifactType = "" → opts.spec = "" ∨ opts.spec = SpecModelPack →
        r.manifest.artifactType = C.artifactTypeModelManifest)
    ∧ (opts.artifactType = "" → opts.spec = SpecGeneric →
        r.manifest.artifactType = "application/vnd.oci.artifact")
    ∧ ∃ mbytes, C.marshal (JSONValue.manifest r.manifest) = Except.ok mbytes
        ∧ r.index.manifests = [descriptorOf L C.mediaTypeImageManifest mbytes] := by
  obtain ⟨_, _, _, hat, _⟩ := pack_documents L C W opts fs fs3 r h
  obtain ⟨_, _, _, _, mbytes, _, _, _, _, _, _, _, hm, hi, _⟩ := pack_ok L C W opts fs fs3 r h
  refine ⟨?_, ?_, ?_, mbytes, hm, hi⟩
  · intro hne
    rw [hat, if_neg hne]
  · intro he hs
    have hspec : specOf opts = SpecModelPack := by
      rcases hs with h0 | h0 <;> simp [specOf, h0]
    rw [hat, if_pos he, if_pos hspec]
  · intro he hs
    have hspec : specOf opts ≠ SpecModelPack := by
      simp [specOf, hs]
      decide
    rw [hat, if_pos he, if_neg hspec]

/-- Three runs on one directory: the default of the modelpack spec, the default
of the generic spec, and an artifact type given in the options. -/
theorem artifact_type_defaulting_witness :
    (resultOf (pack demoLib demoCodec (worldOf (treeOf demoFilesA)) (demoOpts "out" "")
        emptyFS)).manifest.artifactType = "application/vnd.cncf.model.manifest.v1+json"
    ∧ (resultOf (pack demoLib demoCodec (worldOf (treeOf demoFilesA)) (demoOpts "out" "generic")
        emptyFS)).manifest.artifactType = "application/vnd.oci.artifact"
    ∧ (resultOf (pack demoLib demoCodec (worldOf (treeOf demoFilesA)) (typedOpts "generic")
        emptyFS)).manifest.artifactType = "application/x.custom" :=
  ⟨(artifact_type_defaulting demoLib demoCodec (worldOf (treeOf demoFilesA)) (demoOpts "out" "")
      emptyFS (pack demoLib demoCodec (worldOf (treeOf demoFilesA)) (demoOpts "out" "") emptyFS).2
      (resultOf (pack demoLib demoCodec (worldOf (treeOf demoFilesA)) (demoOpts "out" "") emptyFS))
      (by decide)).2.1 (by decide) (by decide),
   (artifact_type_defaulting demoLib demoCodec (worldOf (treeOf demoFilesA))
      (demoOpts "out" "generic") emptyFS
      (pack demoLib demoCodec (worldOf (treeOf demoFilesA)) (demoOpts "out" "generic") emptyFS).2
      (resultOf (pack demoLib demoCodec (worldOf (treeOf demoFilesA)) (demoOpts "out" "generic")
        emptyFS))
      (by decide)).2.2.1 (by decide) (by decide),
   (artifact_type_defaulting demoLib demoCodec (worldOf (treeOf demoFilesA)) (typedOpts "generic")
      emptyFS (pack demoLib demoCodec (worldOf (treeOf demoFilesA)) (typedOpts "generic") emptyFS).2
      (resultOf (pack demoLib demoCodec (worldOf (treeOf demoFilesA)) (typedOpts "generic") emptyFS))
      (by decide)).1 (by decide)⟩

/-! ## Reference names are closed under `safeRefName` -/

theorem toNat_ofNat_small (n : Nat) (h : n < 55296) : (Char.ofNat n).toNat = n := by
  have hv : n.isValidChar := Or.inl h
  unfold Char.ofNat
  rw [dif_pos hv]
  show (Char.ofNatAux n hv).val.toNat = n
  unfold Char.ofNatAux
  simp only [UInt32.toNat, BitVec.toNat_ofNatLt]

theorem safeRefRune_alphabet (c : Char) :
    (97 ≤ (safeRefRune c).toNat ∧ (safeRefRune c).toNat ≤ 122)
    ∨ (48 ≤ (safeRefRune c).toNat ∧ (safeRefRune c).toNat ≤ 57)
    ∨ safeRefRune c = '/' ∨ safeRefRune c = '.' ∨ safeRefRune c = '_' ∨ safeRefRune c = '-' := by
  have ha : 'a'.toNat = 97 := rfl
  have hz : 'z'.toNat = 122 := rfl
  have h0 : '0'.toNat = 48 := rfl
  have h9 : '9'.toNat = 57 := rfl
  have hA : 'A'.toNat = 65 := rfl
  have hZ : 'Z'.toNat = 90 := rfl
  unfold safeRefRune
  rw [ha, hz, h0, h9, hA, hZ]
  by_cases h1 : 97 ≤ c.toNat ∧ c.toNat ≤ 122
  · rw [if_pos h1]
    exact Or.inl h1
  · rw [if_neg h1]
    by_cases h2 : 48 ≤ c.toNat ∧ c.toNat ≤ 57
    · rw [if_pos h2]
      exact Or.inr (Or.inl h2)
    · rw [if_neg h2]
      by_cases h3 : c = '/' ∨ c = '.' ∨ c = '_' ∨ c = '-'
      · rw [if_pos h3]
        exact Or.inr (Or.inr h3)
      · rw [if_neg h3]
        by_cases h4 : 65 ≤ c.toNat ∧ c.toNat ≤ 90
        · rw [if_pos h4]
          left
          rw [toNat_ofNat_small _ (by omega)]
          omega
        · rw [if_neg h4]
          exact Or.inr (Or.inr (Or.inr (Or.inr (Or.inr rfl))))

theorem safeRefRune_fixed (c : Char)
    (h : (97 ≤ c.toNat ∧ c.toNat ≤ 122) ∨ (48 ≤ c.toNat ∧ c.toNat ≤ 57)
      ∨ c = '/' ∨ c = '.' ∨ c = '_' ∨ c = '-') : safeRefRune c = c := by
  have ha : 'a'.toNat = 97 := rfl
  have hz : 'z'.toNat = 122 := rfl
  have h0 : '0'.toNat = 48 := rfl
  have h9 : '9'.toNat = 57 := rfl
  unfold safeRefRune
  rw [ha, hz, h0, h9]
  by_cases h1 : 97 ≤ c.toNat ∧ c.toNat ≤ 122
  · rw [if_pos h1]
  · rw [if_neg h1]
    by_cases h2 : 48 ≤ c.toNat ∧ c.toNat ≤ 57
    · rw [if_pos h2]
    · rw [if_neg h2]
      rcases h with h | h | h
      · exact absurd h h1
      · exact absurd h h2
      · rw [if_pos h]

theorem safeRefRune_idem (c : Char) : safeRefRune (safeRefRune c) = safeRefRune c :=
  safeRefRune_fixed _ (safeRefRune_alphabet c)

/-- C28. The function `safeRefName` is alphabet-closed and idempotent: every
character of its result is one of `a`-`z`, `0`-`9`, `/`, `.`, `_`, `-`; applying it
to its own result changes nothing; and for a non-empty string the result has as
many characters as the string. -/
theorem safeRefName_closed (s : String) :
    (∀ c ∈ (safeRefName s).data,
      (97 ≤ c.toNat ∧ c.toNat ≤ 122) ∨ (48 ≤ c.toNat ∧ c.toNat ≤ 57)
      ∨ c = '/' ∨ c = '.' ∨ c = '_' ∨ c = '-')
    ∧ safeRefName (safeRefName s) = safeRefName s
    ∧ (s ≠ "" → (safeRefName s).length = s.length) := by
  by_cases hs : s = ""
  · subst hs
    refine ⟨by decide, by decide, fun h => absurd rfl h⟩
  · have hd : s.data ≠ [] := by
      intro h
      apply hs
      cases s
      simp_all
    have hne : String.mk (s.data.map safeRefRune) ≠ "" := by
      intro h
      have h2 := congrArg String.data h
      simp only [List.map_eq_nil_iff] at h2
      exact hd h2
    refine ⟨?_, ?_, fun _ => ?_⟩
    · intro c hc
      simp only [safeRefName, if_neg hs, List.mem_map] at hc
      obtain ⟨a, _, rfl⟩ := hc
      exact safeRefRune_alphabet a
    · simp only [safeRefName, if_neg hs, if_neg hne, List.map_map]
      congr 1
      apply List.map_congr_left
      intro a _
      exact safeRefRune_idem a
    · simp only [safeRefName, if_neg hs, String.length, List.length_map]

/-- The name `My Model 1`: its reference name `my-model-1` is kept by a second
application and has the ten characters of the name. -/
theorem safeRefName_closed_witness :
    safeRefName (safeRefName "My Model 1") = safeRefName "My Model 1"
    ∧ (safeRefName "My Model 1").length = "My Model 1".length
    ∧ safeRefName "My Model 1" = "my-model-1" :=
  ⟨(safeRefName_closed "My Model 1").2.1, (safeRefName_closed "My Model 1").2.2 (by decide),
   by decide⟩

/-! ## The base image -/

/-- The loop of `getBaseImage` returns the Debian image exactly when a backend
that is not `utils.BackendExllama` is `exllama2` or `stablediffusion`. -/
theorem getBaseImage_debian (be : String) (bs : List String) :
    getBaseImage be bs
      = if ∃ b ∈ bs, b ≠ be ∧ (b = BackendExllamaV2 ∨ b = BackendStableDiffusion) then debianSlim
        else distrolessBase := by
  induction bs with
  | nil => simp [getBaseImage]
  | cons b rest ih =>
    unfold getBaseImage
    by_cases h1 : b = be
    · rw [if_pos h1, ih]
      have e : (∃ x ∈ b :: rest, x ≠ be ∧ (x = BackendExllamaV2 ∨ x = BackendStableDiffusion))
          ↔ ∃ x ∈ rest, x ≠ be ∧ (x = BackendExllamaV2 ∨ x = BackendStableDiffusion) := by
        constructor
        · rintro ⟨x, hx, hne, hx2⟩
          rcases List.mem_cons.1 hx with hxb | hxr
          · exact absurd (hxb.trans h1) hne
          · exact ⟨x, hxr, hne, hx2⟩
        · rintro ⟨x, hx, hne, hx2⟩
          exact ⟨x, List.mem_cons_of_mem _ hx, hne, hx2⟩
      simp only [e]
    · rw [if_neg h1]
      by_cases h2 : b = BackendExllamaV2
      · rw [if_pos h2, if_pos ⟨b, List.mem_cons_self _ _, h1, Or.inl h2⟩]
      · rw [if_neg h2]
        by_cases h3 : b = BackendStableDiffusion
        · rw [if_pos h3, if_pos ⟨b, List.mem_cons_self _ _, h1, Or.inr h3⟩]
        · rw [if_neg h3, ih]
          have e : (∃ x ∈ b :: rest, x ≠ be ∧ (x = BackendExllamaV2 ∨ x = BackendStableDiffusion))
              ↔ ∃ x ∈ rest, x ≠ be ∧ (x = BackendExllamaV2 ∨ x = BackendStableDiffusion) := by
            constructor
            · rintro ⟨x, hx, hne, hx2⟩
              rcases List.mem_cons.1 hx with hxb | hxr
              · subst hxb
                rcases hx2 with hx2 | hx2
                · exact absurd hx2 h2
                · exact absurd hx2 h3
              · exact ⟨x, hxr, hne, hx2⟩
            · rintro ⟨x, hx, hne, hx2⟩
              exact ⟨x, List.mem_cons_of_mem _ hx, hne, hx2⟩
          simp only [e]

/-- C30. Base-image selection, at the backend `exllama`: the case of
`utils.BackendExllama` has no statement and Go does not fall through, so a
configuration whose only backend is `exllama` gets the distroless image, and so
does any list of backends that are `exllama` or none of the three; `exllama2` and
`stablediffusion` do get the Debian image. -/
theorem base_image_exllama :
    getBaseImage "exllama" ["exllama"] = "gcr.io/distroless/cc-debian12:latest"
    ∧ getBaseImage "exllama" ["llama", "exllama", "mamba"] = "gcr.io/distroless/cc-debian12:latest"
    ∧ getBaseImage "exllama" ["exllama", "exllama2"] = "docker.io/library/debian:12-slim"
    ∧ getBaseImage "exllama" ["exllama2"] = "docker.io/library/debian:12-slim"
    ∧ getBaseImage "exllama" ["stablediffusion"] = "docker.io/library/debian:12-slim"
    ∧ getBaseImage "exllama" [] = "gcr.io/distroless/cc-debian12:latest" := by
  decide

/-! ## Scheme dispatch -/

/-- The list-level form of `containsStr`. -/
theorem containsStr_iff (s sub : String) : containsStr s sub = true ↔ sub.data <:+: s.data := by
  unfold containsStr
  rw [List.any_eq_true, List.infix_iff_prefix_suffix]
  constructor
  · rintro ⟨t, ht, hp⟩
    exact ⟨t, List.isPrefixOf_iff_prefix.1 hp, (List.mem_tails _ _).1 ht⟩
  · rintro ⟨t, hp, ht⟩
    exact ⟨t, (List.mem_tails _ _).2 ht, List.isPrefixOf_iff_prefix.2 hp⟩

theorem containsStr_false_iff (s sub : String) :
    containsStr s sub = false ↔ ¬ sub.data <:+: s.data := by
  rw [← containsStr_iff]
  simp

/-- Go `strings.Index` finds the first occurrence: when no occurrence of `sub`
starts inside `pre`, the index in `pre ++ sub ++ rest` is the length of `pre`. -/
theorem indexFrom_first (sub pre rest : List Char) (k : Nat)
    (h : ¬ sub <:+: pre ++ sub.dropLast) :
    indexFrom sub (pre ++ sub ++ rest) k = some (k + pre.length) := by
  induction pre generalizing k with
  | nil =>
    cases hl : sub ++ rest with
    | nil =>
      have hs : sub = [] := (List.append_eq_nil.1 hl).1
      exact absurd (hs ▸ List.nil_infix) h
    | cons c cs =>
      have hp : sub.isPrefixOf (c :: cs) = true := by
        rw [← hl]
        exact List.isPrefixOf_iff_prefix.2 (List.prefix_append _ _)
      simp [hl, indexFrom, hp]
  | cons c pre ih =>
    have hnp : sub.isPrefixOf (c :: (pre ++ sub ++ rest)) = false := by
      rw [Bool.eq_false_iff]
      intro hp
      have hp1 : sub <+: c :: (pre ++ sub ++ rest) := List.isPrefixOf_iff_prefix.1 hp
      have hne : sub ≠ [] := by
        intro h0
        apply h
        rw [h0]
        exact List.nil_infix
      have hp2 : (c :: pre) ++ sub.dropLast <+: c :: (pre ++ sub ++ rest) := by
        have e : c :: (pre ++ sub ++ rest)
            = ((c :: pre) ++ sub.dropLast) ++ ([sub.getLast hne] ++ rest) := by
          nth_rewrite 1 [← List.dropLast_append_getLast hne]
          simp
        rw [e]
        exact List.prefix_append _ _
      have hlen : sub.length ≤ ((c :: pre) ++ sub.dropLast).length := by
        simp only [List.length_append, List.length_cons, List.length_dropLast]
        have : 0 < sub.length := List.length_pos.2 hne
        omega
      exact h (List.prefix_of_prefix_length_le hp1 hp2 hlen).isInfix
    have hrest : ¬ sub <:+: pre ++ sub.dropLast := by
      intro hi
      apply h
      exact List.IsInfix.trans hi (List.suffix_cons c _).isInfix
    have e2 : (c :: pre) ++ sub ++ rest = c :: (pre ++ sub ++ rest) := by simp
    rw [e2, indexFrom, hnp, ih (k + 1) hrest]
    simp only [Bool.false_eq_true, if_false, List.length_cons, Option.some.injEq]
    omega

/-- Go `strings.Index` returns -1 when `sub` does not occur. -/
theorem indexFrom_none (sub l : List Char) (k : Nat) (h : ¬ sub <:+: l) :
    indexFrom sub l k = none := by
  induction l generalizing k with
  | nil =>
    have hs : sub ≠ [] := by
      intro h0
      apply h
      rw [h0]
    simp [indexFrom, hs]
  | cons c cs ih =>
    have hnp : sub.isPrefixOf (c :: cs) = false := by
      rw [Bool.eq_false_iff]
      intro hp
      exact h (List.isPrefixOf_iff_prefix.1 hp).isInfix
    have hrest : ¬ sub <:+: cs := fun hi => h (List.IsInfix.trans hi (List.suffix_cons c _).isInfix)
    rw [indexFrom, hnp, ih (k + 1) hrest]
    simp

theorem resolvers_none_iff (W : World) (scheme : String) :
    resolvers W scheme = none
      ↔ scheme ∉ ["", "file", "hf", "huggingface", "http", "https"] := by
  unfold resolvers
  simp only [List.mem_cons, List.mem_singleton, List.not_mem_nil, or_false, not_or]
  constructor
  · intro h
    split_ifs at h with h1 h2 h3 h4 h5 h6
    exact ⟨h2, h1, h3, h4, h6, h5⟩
  · rintro ⟨h2, h1, h3, h4, h6, h5⟩
    simp [h1, h2, h3, h4, h5, h6]

/-- C29. Scheme dispatch: the scheme of `resolveSource` is the text before the
first occurrence of `://` in the source, and the empty scheme when `://` does not
occur; the map `resolvers` has no entry for the scheme exactly when the scheme is
none of the empty scheme, `file`, `hf`, `huggingface`, `http`, `https`, and then
`resolveSource` returns the error `unsupported source scheme` with the scheme,
the same in every world, so without a call of a resolver; otherwise it returns
what the resolver of the scheme returns on the source: the local resolver for
the empty scheme and `file`, the HTTP resolver for `http` and `https`. -/
theorem scheme_dispatch (W : World) (source : String) :
    (∀ pre rest : String, source = pre ++ "://" ++ rest →
      containsStr (pre ++ ":/") "://" = false → schemeOf source = pre)
    ∧ (containsStr source "://" = false → schemeOf source = "")
    ∧ (resolvers W (schemeOf source) = none
        ↔ schemeOf source ∉ ["", "file", "hf", "huggingface", "http", "https"])
    ∧ (schemeOf source ∉ ["", "file", "hf", "huggingface", "http", "https"] →
        resolveSource W source
          = Except.error ("unsupported source scheme: " ++ schemeOf source))
    ∧ (schemeOf source = "" ∨ schemeOf source = "file" →
        resolveSource W source = W.localResolver source)
    ∧ (schemeOf source = "http" ∨ schemeOf source = "https" →
        resolveSource W source = W.httpResolver source)
    ∧ (schemeOf source = "hf" → resolveSource W source = W.hfResolver source)
    ∧ (schemeOf source = "huggingface" →
        resolveSource W source = W.huggingfaceFileResolver source) := by
  refine ⟨?_, ?_, resolvers_none_iff W _, ?_, ?_, ?_, ?_, ?_⟩
  · intro pre rest hs hc
    have hn : ¬ "://".data <:+: pre.data ++ "://".data.dropLast := by
      have h2 := (containsStr_false_iff _ _).1 hc
      simpa using h2
    have hi := indexFrom_first "://".data pre.data rest.data 0 hn
    have hd : source.data = pre.data ++ "://".data ++ rest.data := by
      rw [hs]
      simp [String.data_append]
    unfold schemeOf
    rw [hd, hi]
    simp
  · intro hc
    have hi := indexFrom_none "://".data source.data 0 ((containsStr_false_iff _ _).1 hc)
    unfold schemeOf
    rw [hi]
  · intro h
    have hn := (resolvers_none_iff W _).2 h
    unfold resolveSource
    rw [hn]
  · intro h
    unfold resolveSource resolvers
    rcases h with h | h <;> rw [h] <;> simp
  · intro h
    unfold resolveSource resolvers
    rcases h with h | h <;> rw [h] <;> simp
  · intro h
    unfold resolveSource resolvers
    rw [h]
    simp
  · intro h
    unfold resolveSource resolvers
    rw [h]
    simp

/-- The scheme of an HTTPS source and of a plain path, the dispatch of `file`,
of a plain path and of `http`, and the schemes `FILE` and `ftp`, which have no
resolver. -/
theorem scheme_dispatch_witness :
    schemeOf "https://example.com/a://b.gguf" = "https"
    ∧ schemeOf "models/llama" = ""
    ∧ resolveSource tagWorld "file:///models/llama" = Except.error "localResolver"
    ∧ resolveSource tagWorld "models/llama" = Except.error "localResolver"
    ∧ resolveSource tagWorld "http://example.com/m.gguf" = Except.error "httpResolver"
    ∧ resolveSource tagWorld "FILE://models" = Except.error "unsupported source scheme: FILE"
    ∧ resolveSource tagWorld "ftp://host/m" = Except.error "unsupported source scheme: ftp" :=
  ⟨(scheme_dispatch tagWorld "https://example.com/a://b.gguf").1 "https" "example.com/a://b.gguf"
      (by decide) (by decide),
   (scheme_dispatch tagWorld "models/llama").2.1 (by decide),
   (scheme_dispatch tagWorld "file:///models/llama").2.2.2.2.1 (by decide),
   (scheme_dispatch tagWorld "models/llama").2.2.2.2.1 (by decide),
   (scheme_dispatch tagWorld "http://example.com/m.gguf").2.2.2.2.2.1 (by decide),
   (scheme_dispatch tagWorld "FILE://models").2.2.2.1 (by decide),
   (scheme_dispatch tagWorld "ftp://host/m").2.2.2.1 (by decide)⟩

/-! ## The generic spec -/

/-- The loop of `buildTarLayer` ends without an error when every file of the list
can be read and the writer accepts its entry. -/
theorem tarBody_total (L : Lib) (src : SrcTree) (files : List String)
    (h : ∀ rel ∈ files, ∃ st content bytes, src.stat rel = some st ∧ src.read rel = some content
      ∧ L.tarEntry (layerHeader st rel) content = Except.ok bytes) :
    ∃ body, tarBody L src files = Except.ok body := by
  induction files with
  | nil => exact ⟨[], rfl⟩
  | cons rel rest ih =>
    obtain ⟨st, content, bytes, h1, h2, h3⟩ := h rel (List.mem_cons_self _ _)
    obtain ⟨more, hm⟩ := ih (fun r hr => h r (List.mem_cons_of_mem _ hr))
    exact ⟨bytes ++ more, by simp [tarBody, h1, h2, h3, hm]⟩

/-- A run of `pack` under the generic spec succeeds when the source resolves, the
walk succeeds, every regular file can be archived and the encoder does not
fail. -/
theorem pack_generic_total (L : Lib) (C : Codec) (W : World) (opts : Options) (fs : FS)
    (src : SrcTree) (entries : List DirEntry)
    (hspec : opts.spec = SpecGeneric) (hs : opts.source ≠ "") (ho : opts.outputDir ≠ "")
    (hsrc : resolveSource W opts.source = Except.ok src) (hw : src.walk = Except.ok entries)
    (hio : ∀ rel ∈ regularFiles entries, ∃ st content bytes, src.stat rel = some st
      ∧ src.read rel = some content ∧ L.tarEntry (layerHeader st rel) content = Except.ok bytes)
    (hmar : ∀ v, ∃ b, C.marshal v = Except.ok b)
    (hind : ∀ v, ∃ b, C.marshalIndent v = Except.ok b) :
    ∃ r fs3, pack L C W opts fs = (Except.ok r, fs3) := by
  have hfiles : ∀ rel ∈ sortStrings (genericFiles entries), ∃ st content bytes,
      src.stat rel = some st ∧ src.read rel = some content
      ∧ L.tarEntry (layerHeader st rel) content = Except.ok bytes := by
    intro rel hrel
    rw [(sortStrings_perm _).mem_iff, genericFiles_eq] at hrel
    exact hio rel hrel
  obtain ⟨body, hbody⟩ := tarBody_total L src _ hfiles
  obtain ⟨b0, hb0⟩ := hmar JSONValue.emptyMap
  have hg : SpecGeneric ≠ "" := by decide
  have hg2 : SpecGeneric ≠ SpecModelPack := by decide
  simp only [pack, if_neg hs, if_neg ho, hsrc, hspec, if_neg hg, buildLayers, if_neg hg2, if_true,
    buildGenericLayer, hw, buildTarLayer, hbody, writeJSONBlob, hb0]
  split
  · rename_i e fs2 heq
    split at heq
    · rename_i e2 hm
      obtain ⟨b, hb⟩ := hmar (JSONValue.manifest _)
      rw [hb] at hm
      cases hm
    · cases heq
  · rename_i md fs2 heq
    split
    · rename_i e fs4 heq2
      unfold writeJSONFile at heq2
      split at heq2
      · rename_i e2 hm
        obtain ⟨b, hb⟩ := hind (JSONValue.index _)
        rw [hb] at hm
        cases hm
      · cases heq2
    · exact ⟨_, _, rfl⟩

/-- C22. Generic single layer: a run of `pack` under the generic spec succeeds
when the source resolves, its files can be archived and the encoder does not
fail, and the manifest of every successful run has exactly one layer, of the
media type of the OCI image layer, which is the archive of all the regular
files of the walk, whatever their names: one entry for each, in ascending order
of the paths. -/
theorem generic_single_layer (L : Lib) (C : Codec) (W : World) (opts : Options) (fs : FS)
    (src : SrcTree) (entries : List DirEntry)
    (hspec : opts.spec = SpecGeneric)
    (hsrc : resolveSource W opts.source = Except.ok src) (hw : src.walk = Except.ok entries) :
    (opts.source ≠ "" → opts.outputDir ≠ "" →
      (∀ rel ∈ regularFiles entries, ∃ st content bytes, src.stat rel = some st
        ∧ src.read rel = some content
        ∧ L.tarEntry (layerHeader st rel) content = Except.ok bytes) →
      (∀ v, ∃ b, C.marshal v = Except.ok b) → (∀ v, ∃ b, C.marshalIndent v = Except.ok b) →
      ∃ r fs3, pack L C W opts fs = (Except.ok r, fs3))
    ∧ ∀ r fs3, pack L C W opts fs = (Except.ok r, fs3) →
      ∃ (d : Descriptor) (es : List (Header × Bytes × Bytes)),
        r.manifest.layers = [d]
        ∧ d.mediaType = C.mediaTypeImageLayer
        ∧ (sortStrings (regularFiles entries)).Perm (regularFiles entries)
        ∧ List.Forall₂ (WrittenEntry L src) (sortStrings (regularFiles entries)) es
        ∧ es.map (fun e => e.1.name) = (sortStrings (regularFiles entries)).map toSlash
        ∧ d = descriptorOf L C.mediaTypeImageLayer
            ((es.map (fun e => e.2.2)).flatten ++ L.tarTrailer) := by
  refine ⟨fun hs ho hio hmar hind =>
    pack_generic_total L C W opts fs src entries hspec hs ho hsrc hw hio hmar hind, ?_⟩
  intro r fs3 h
  have e := pack_layers L C W opts fs fs3 r src entries hsrc hw h
  have hne : specOf opts ≠ SpecModelPack := by
    simp only [specOf, hspec]
    decide
  rw [expectedLayers, if_neg hne, genericFiles_eq] at e
  cases hl : r.manifest.layers with
  | nil => simp [hl] at e
  | cons d rest =>
    rw [hl] at e
    simp only [List.map_cons, List.cons.injEq, List.map_eq_nil_iff] at e
    obtain ⟨hd, hrest⟩ := e
    subst hrest
    obtain ⟨es, hes, hde⟩ := tarDescriptor_entries L src _ _ d hd.symm
    refine ⟨d, es, rfl, ?_, sortStrings_perm _, hes, writtenEntry_names L src _ es hes, hde⟩
    rw [hde]
    rfl

/-- A generic run on a directory with a readme, a config, a weight file and a
file of no known kind: the run succeeds and its one layer holds the four files. -/
theorem generic_single_layer_witness :
    (∃ r fs3, pack demoLib demoCodec (worldOf (treeOf demoFilesA)) (demoOpts "out" "generic") emptyFS
      = (Except.ok r, fs3))
    ∧ ∃ (d : Descriptor) (es : List (Header × Bytes × Bytes)),
        (resultOf (pack demoLib demoCodec (worldOf (treeOf demoFilesA)) (demoOpts "out" "generic")
          emptyFS)).manifest.layers = [d]
        ∧ d.mediaType = "application/vnd.oci.image.layer.v1.tar"
        ∧ es.map (fun e => e.1.name)
          = ["README.md", "config.json", "model.safetensors", "sub/misc.xyz"] := by
  have hsort : (sortStrings (regularFiles (walkOf (treeOf demoFilesA)))).map toSlash
      = ["README.md", "config.json", "model.safetensors", "sub/misc.xyz"] := by decide
  have h := generic_single_layer demoLib demoCodec (worldOf (treeOf demoFilesA))
    (demoOpts "out" "generic") emptyFS (treeOf demoFilesA) (walkOf (treeOf demoFilesA))
    (by decide) rfl rfl
  refine ⟨h.1 (by decide) (by decide) ?_ ?_ ?_, ?_⟩
  · intro rel hrel
    have hmem : rel ∈ ["README.md", "config.json", "model.safetensors", "sub/misc.xyz"] := hrel
    simp only [List.mem_cons, List.mem_singleton, List.not_mem_nil, or_false] at hmem
    rcases hmem with rfl | rfl | rfl | rfl <;> exact ⟨_, _, _, rfl, rfl, rfl⟩
  · intro v
    cases v <;> exact ⟨_, rfl⟩
  · intro v
    cases v <;> exact ⟨_, rfl⟩
  · obtain ⟨d, es, h1, h2, _, _, h5, _⟩ := h.2
      (resultOf (pack demoLib demoCodec (worldOf (treeOf demoFilesA)) (demoOpts "out" "generic")
        emptyFS))
      (pack demoLib demoCodec (worldOf (treeOf demoFilesA)) (demoOpts "out" "generic") emptyFS).2
      (by decide)
    exact ⟨d, es, h1, h2, h5.trans hsort⟩

/-! ## Occurrences of a text in a script -/

theorem infix_sep (sub x y : List Char) (c : Char) (hc : c ∉ sub) (h : sub <:+: x ++ c :: y) :
    sub <:+: x ∨ sub <:+: y := by
  induction x with
  | nil =>
    rcases List.infix_cons_iff.1 h with hp | hi
    · cases sub with
      | nil => exact Or.inl List.nil_infix
      | cons s ss =>
        have hs : s = c := (List.cons_prefix_cons.1 hp).1
        exact absurd (hs ▸ List.mem_cons_self s ss) hc
    · exact Or.inr hi
  | cons a x ih =>
    rcases List.infix_cons_iff.1 h with hp | hi
    · left
      have hp2 : (a :: x) ++ [c] <+: a :: (x ++ c :: y) := by
        have e : a :: (x ++ c :: y) = ((a :: x) ++ [c]) ++ y := by simp
        rw [e]
        exact List.prefix_append _ _
      rcases List.prefix_or_prefix_of_prefix hp hp2 with h1 | h1
      · rcases List.prefix_concat_iff.1 h1 with h2 | h2
        · exact absurd (h2 ▸ List.mem_append_right _ (List.mem_singleton_self c)) hc
        · exact h2.isInfix
      · exact absurd (h1.subset (List.mem_append_right _ (List.mem_singleton_self c))) hc
    · rcases ih hi with h1 | h1
      · exact Or.inl (List.IsInfix.trans h1 (List.suffix_cons a x).isInfix)
      · exact Or.inr h1

theorem isolates_iff (sub p : List Char) (h : isolates sub p = true) :
    (∃ c m, p = c :: m ∧ c ∉ sub) ∧ (∃ q e, p = q ++ [e] ∧ e ∉ sub) ∧ ¬ sub <:+: p := by
  unfold isolates at h
  cases hh : p.head? with
  | none => simp [hh] at h
  | some c =>
    cases hl : p.getLast? with
    | none => simp [hh, hl] at h
    | some e =>
      simp only [hh, hl, Option.any_some, Bool.and_eq_true, Bool.not_eq_true',
        List.contains_eq_any_beq, List.any_eq_false, beq_iff_eq] at h
      obtain ⟨⟨hc2, he2⟩, hn⟩ := h
      refine ⟨?_, ?_, ?_⟩
      · obtain ⟨m, hm⟩ := List.head?_eq_some_iff.1 hh
        exact ⟨c, m, hm, fun hmem => hc2 c hmem rfl⟩
      · obtain ⟨q, hq⟩ := List.getLast?_eq_some_iff.1 hl
        exact ⟨q, e, hq, fun hmem => he2 e hmem rfl⟩
      · intro hi
        rw [List.infix_iff_prefix_suffix] at hi
        obtain ⟨t, hp, ht⟩ := hi
        exact hn t ((List.mem_tails _ _).2 ht) (List.isPrefixOf_iff_prefix.2 hp)

theorem infix_isolated (sub a p b : List Char) (h : isolates sub p = true)
    (hi : sub <:+: a ++ p ++ b) : sub <:+: a ∨ sub <:+: b := by
  obtain ⟨⟨c, m, hm, hc⟩, ⟨q, e, hq, he⟩, hn⟩ := isolates_iff sub p h
  have e1 : a ++ p ++ b = (a ++ q) ++ e :: b := by
    rw [hq]
    simp
  rw [e1] at hi
  rcases infix_sep sub _ _ e he hi with h1 | h1
  · cases q with
    | nil => exact Or.inl (by simpa using h1)
    | cons c2 q2 =>
      have hc2 : c2 = c := by
        rw [hm] at hq
        simp only [List.cons_append, List.cons.injEq] at hq
        exact hq.1.symm
      subst hc2
      rcases infix_sep sub a q2 c2 hc h1 with h2 | h2
      · exact Or.inl h2
      · exfalso
        apply hn
        rw [hq]
        exact List.IsInfix.trans h2
          (List.IsInfix.trans (List.suffix_cons c2 q2).isInfix (List.prefix_append _ _).isInfix)
  · exact Or.inr h1

/-- A text that occurs in none of the arguments and is isolated by every piece
of the template does not occur in the text that `fmt.Sprintf` builds. -/
theorem not_infix_interleave (sub : List Char) (hne : sub ≠ [])
    (segs : List (List Char × List Char))
    (h : ∀ s ∈ segs, ¬ sub <:+: s.1 ∧ isolates sub s.2 = true) :
    ¬ sub <:+: (segs.map (fun s => s.1 ++ s.2)).flatten := by
  induction segs with
  | nil =>
    intro hi
    exact hne (List.infix_nil.1 (by simpa using hi))
  | cons s rest ih =>
    intro hi
    obtain ⟨h1, h2⟩ := h s (List.mem_cons_self _ _)
    have e : ((s :: rest).map (fun s => s.1 ++ s.2)).flatten
        = s.1 ++ s.2 ++ (rest.map (fun s => s.1 ++ s.2)).flatten := by simp
    rw [e] at hi
    rcases infix_isolated sub _ _ _ h2 hi with h3 | h3
    · exact h1 h3
    · exact ih (fun t ht => h t (List.mem_cons_of_mem _ ht)) h3

/-- The occurrence of an argument between the end of the piece before it and the
start of the piece after it. -/
theorem infix_of_parts (a t0 x t1 b u v : List Char) (h0 : u <:+ t0) (h1 : v <+: t1) :
    u ++ x ++ v <:+: a ++ t0 ++ x ++ t1 ++ b := by
  obtain ⟨p, hp⟩ := h0
  obtain ⟨q, hq⟩ := h1
  refine ⟨a ++ p, q ++ b, ?_⟩
  rw [← hp, ← hq]
  simp

theorem contains_parts (A T0 x T1 B U V : String) (h0 : hasSuffix T0 U = true)
    (h1 : hasPrefix T1 V = true) :
    containsStr (A ++ T0 ++ x ++ T1 ++ B) (U ++ x ++ V) = true := by
  rw [containsStr_iff]
  simp only [String.data_append]
  exact infix_of_parts _ _ _ _ _ _ _ (List.isSuffixOf_iff_suffix.1 h0)
    (List.isPrefixOf_iff_prefix.1 h1)

theorem contains_parts_head (T0 x T1 B U V : String) (h0 : hasSuffix T0 U = true)
    (h1 : hasPrefix T1 V = true) :
    containsStr (T0 ++ x ++ T1 ++ B) (U ++ x ++ V) = true := by
  have h := contains_parts "" T0 x T1 B U V h0 h1
  have e : ("" : String) ++ T0 = T0 := by
    apply String.ext
    simp [String.data_append]
  rw [e] at h
  exact h

theorem contains_parts_last (A T0 x T1 U V : String) (h0 : hasSuffix T0 U = true)
    (h1 : hasPrefix T1 V = true) :
    containsStr (A ++ T0 ++ x ++ T1) (U ++ x ++ V) = true := by
  have h := contains_parts A T0 x T1 "" U V h0 h1
  have e : A ++ T0 ++ x ++ T1 ++ ("" : String) = A ++ T0 ++ x ++ T1 := by
    apply String.ext
    simp [String.data_append]
  rw [e] at h
  exact h

theorem hasSuffix_append (X Y U : String) (h : hasSuffix Y U = true) :
    hasSuffix (X ++ Y) U = true := by
  unfold hasSuffix at *
  rw [List.isSuffixOf_iff_suffix] at *
  rw [String.data_append]
  exact List.IsSuffix.trans h (List.suffix_append _ _)

theorem hasPrefix_append (X Y V : String) (h : hasPrefix X V = true) :
    hasPrefix (X ++ Y) V = true := by
  unfold hasPrefix at *
  rw [List.isPrefixOf_iff_prefix] at *
  rw [String.data_append]
  exact List.IsPrefix.trans h (List.prefix_append _ _)

theorem m1_suffix : hasSuffix modelpackTemplate1 "\"artifactType\": \"" = true := by
  unfold modelpackTemplate1
  apply hasSuffix_append
  decide

theorem m1_prefix : hasPrefix modelpackTemplate1 "\n" = true := by
  unfold modelpackTemplate1
  repeat apply hasPrefix_append
  decide

theorem m3_suffix : hasSuffix modelpackTemplate3
    "\"annotations\": \x7b \"org.opencontainers.image.title\": \"" = true := by
  unfold modelpackTemplate3
  apply hasSuffix_append
  decide

theorem g2_suffix : hasSuffix genericTemplate2
    "append_layer \"/tmp/$(basename \"$f\")\" \"" = true := by
  unfold genericTemplate2
  apply hasSuffix_append
  decide

theorem g4_suffix : hasSuffix genericTemplate4 "\\\"artifactType\\\": \\\"" = true := by
  unfold genericTemplate4
  apply hasSuffix_append
  decide

theorem g5_suffix : hasSuffix genericTemplate5
    "\"annotations\": \x7b \"org.opencontainers.image.title\": \"" = true := by
  unfold genericTemplate5
  apply hasSuffix_append
  decide

/-! ## The scripts and their arguments -/

theorem genericScript_data (C : Codec) (packMode artifactType name refName : String)
    (debug : Bool) :
    (generateGenericScript C packMode artifactType name refName debug).data
      = genericTemplate0.data
        ++ (([((if debug then "set -x" else "" : String).data, genericTemplate1.data),
              (packMode.data, genericTemplate2.data),
              ((if packMode = packModeRaw then "application/octet-stream"
                else C.mediaTypeImageLayer : String).data, genericTemplate3.data),
              (C.mediaTypeImageLayer.data, genericTemplate4.data),
              (artifactType.data, genericTemplate5.data),
              (name.data, genericTemplate6.data),
              (refName.data, genericTemplate7.data)] : List (List Char × List Char)).map
            (fun s => s.1 ++ s.2)).flatten := by
  simp only [generateGenericScript, String.data_append, List.map_cons, List.map_nil,
    List.flatten_cons, List.flatten_nil, List.append_nil, List.append_assoc]

/-- A text without a line feed that the first line and the pieces of the template
of `generateGenericScript` isolate occurs in the script only if it occurs in an
argument. -/
theorem genericScript_absent (sub : String) (C : Codec)
    (packMode artifactType name refName : String) (debug : Bool)
    (hnl : '\n' ∉ sub.data) (h0 : containsStr "set -euo pipefail" sub = false)
    (hiso : ∀ p ∈ [genericTemplate1, genericTemplate2, genericTemplate3, genericTemplate4,
      genericTemplate5, genericTemplate6, genericTemplate7], isolates sub.data p.data = true)
    (hargs : ∀ x ∈ [if debug then "set -x" else "", packMode,
      if packMode = packModeRaw then "application/octet-stream" else C.mediaTypeImageLayer,
      C.mediaTypeImageLayer, artifactType, name, refName], containsStr x sub = false) :
    containsStr (generateGenericScript C packMode artifactType name refName debug) sub = false := by
  rw [containsStr_false_iff, genericScript_data]
  intro hi
  have hne : sub.data ≠ [] := by
    intro h
    have h1 := (isolates_iff _ _ (hiso genericTemplate1 (by simp))).2.2
    apply h1
    rw [h]
    exact List.nil_infix
  have e0 : genericTemplate0.data = "set -euo pipefail".data ++ ['\n'] := by decide
  rw [e0, List.append_assoc, List.singleton_append] at hi
  rcases infix_sep _ _ _ _ hnl hi with h1 | h1
  · exact (containsStr_false_iff _ _).1 h0 h1
  · refine not_infix_interleave sub.data hne _ ?_ h1
    intro s hs
    simp only [List.mem_cons, List.mem_singleton, List.not_mem_nil, or_false] at hs
    have ha : ∀ x, x ∈ [if debug then "set -x" else "", packMode,
        if packMode = packModeRaw then "application/octet-stream" else C.mediaTypeImageLayer,
        C.mediaTypeImageLayer, artifactType, name, refName] → ¬ sub.data <:+: x.data :=
      fun x hx => (containsStr_false_iff _ _).1 (hargs x hx)
    rcases hs with rfl | rfl | rfl | rfl | rfl | rfl | rfl
    · exact ⟨ha _ (by simp), hiso _ (by simp)⟩
    · exact ⟨ha _ (by simp), hiso _ (by simp)⟩
    · exact ⟨ha _ (by simp), hiso _ (by simp)⟩
    · exact ⟨ha _ (by simp), hiso _ (by simp)⟩
    · exact ⟨ha _ (by simp), hiso _ (by simp)⟩
    · exact ⟨ha _ (by simp), hiso _ (by simp)⟩
    · exact ⟨ha _ (by simp), hiso _ (by simp)⟩

theorem generic_isolates_octet :
    ∀ p ∈ [genericTemplate1, genericTemplate2, genericTemplate3, genericTemplate4,
      genericTemplate5, genericTemplate6, genericTemplate7],
      isolates "application/octet-stream".data p.data = true := by
  decide

theorem generic_isolates_debug :
    ∀ p ∈ [genericTemplate1, genericTemplate2, genericTemplate3, genericTemplate4,
      genericTemplate5, genericTemplate6, genericTemplate7],
      isolates "set -x".data p.data = true := by
  decide

theorem g1_suffix : hasSuffix genericTemplate1 "\nPACK_MODE=" = true := by decide

theorem g2_prefix : hasPrefix genericTemplate2 "\n" = true := by
  unfold genericTemplate2
  repeat apply hasPrefix_append
  decide

theorem g3_prefix : hasPrefix genericTemplate3 "\"; done < /tmp/files.list" = true := by
  unfold genericTemplate3
  repeat apply hasPrefix_append
  decide

theorem g3_suffix : hasSuffix genericTemplate3 "\t\tmt=\"" = true := by
  unfold genericTemplate3
  apply hasSuffix_append
  decide

theorem g4_prefix : hasPrefix genericTemplate4 "\"\n" = true := by
  unfold genericTemplate4
  repeat apply hasPrefix_append
  decide

/-- The archive layer of the script of `generateGenericScript` has the media type
`ocispec.MediaTypeImageLayer` in every pack mode. -/
theorem generic_archive_media_type (C : Codec) (packMode artifactType name refName : String)
    (debug : Bool) :
    containsStr (generateGenericScript C packMode artifactType name refName debug)
      ("\t\tmt=\"" ++ C.mediaTypeImageLayer ++ "\"\n") = true := by
  have h := contains_parts
    (genericTemplate0 ++ (if debug then "set -x" else "") ++ genericTemplate1 ++ packMode
      ++ genericTemplate2
      ++ (if packMode = packModeRaw then "application/octet-stream" else C.mediaTypeImageLayer))
    genericTemplate3 C.mediaTypeImageLayer genericTemplate4
    (artifactType ++ genericTemplate5 ++ name ++ genericTemplate6 ++ refName ++ genericTemplate7)
    "\t\tmt=\"" "\"\n" g3_suffix g4_prefix
  have e : generateGenericScript C packMode artifactType name refName debug
      = genericTemplate0 ++ (if debug then "set -x" else "") ++ genericTemplate1 ++ packMode
        ++ genericTemplate2
        ++ (if packMode = packModeRaw then "application/octet-stream" else C.mediaTypeImageLayer)
        ++ genericTemplate3 ++ C.mediaTypeImageLayer ++ genericTemplate4
        ++ (artifactType ++ genericTemplate5 ++ name ++ genericTemplate6 ++ refName
          ++ genericTemplate7) := by
    simp only [generateGenericScript, String.append_assoc]
  rw [e]
  exact h

/-- C23. Generic gzip media type, at the pack mode `tar+gzip`: the script of
`generateGenericScript` sets the media type of the archive layer to
`application/vnd.oci.image.layer.v1.tar`, the value of `archiveLayerMT` in every
mode, and the gzip media type occurs nowhere in the script, although the blob of
the layer is the output of `gzip`. -/
theorem generic_gzip_media_type :
    containsStr (generateGenericScript demoCodec "tar+gzip" "atype" "nm" "refz" true)
      "\t\tmt=\"application/vnd.oci.image.layer.v1.tar\"\n" = true
    ∧ containsStr (generateGenericScript demoCodec "tar+gzip" "atype" "nm" "refz" true)
      "tar+gzip) gzip -n \"$tarFile\"; outFile=\"$tarFile.gz\" ;;" = true
    ∧ containsStr (generateGenericScript demoCodec "tar+gzip" "atype" "nm" "refz" true)
      "application/vnd.oci.image.layer.v1.tar+gzip" = false := by
  decide

theorem m0_suffix : hasSuffix modelpackTemplate0 "\nPACK_MODE=" = true := by decide

theorem m2_prefix : hasPrefix modelpackTemplate2 "\"" = true := by decide

theorem m5_prefix : hasPrefix modelpackTemplate5 "\" \x7d" = true := by
  unfold modelpackTemplate5
  repeat apply hasPrefix_append
  decide

theorem g5_prefix : hasPrefix genericTemplate5 "\\\"" = true := by
  unfold genericTemplate5
  repeat apply hasPrefix_append
  decide

theorem g7_prefix : hasPrefix genericTemplate7 "\" \x7d" = true := by
  unfold genericTemplate7
  repeat apply hasPrefix_append
  decide

/-- The arguments of `generateModelpackScript` in the script: the line of the
pack mode, the artifact type of the manifest, and the two annotations of the
index, the name as title and the reference name as reference name. -/
theorem modelpack_script_parameters (packMode artifactType mtManifest name refName : String) :
    containsStr (generateModelpackScript packMode artifactType mtManifest name refName)
      ("\nPACK_MODE=" ++ packMode ++ "\n") = true
    ∧ containsStr (generateModelpackScript packMode artifactType mtManifest name refName)
      ("\"artifactType\": \"" ++ artifactType ++ "\"") = true
    ∧ containsStr (generateModelpackScript packMode artifactType mtManifest name refName)
      ("\"annotations\": \x7b \"org.opencontainers.image.title\": \"" ++ name
        ++ "\", \"org.opencontainers.image.ref.name\": \"" ++ refName ++ "\" \x7d") = true := by
  refine ⟨?_, ?_, ?_⟩
  · have h := contains_parts_head modelpackTemplate0 packMode modelpackTemplate1
      (artifactType ++ modelpackTemplate2 ++ mtManifest ++ modelpackTemplate3 ++ name
        ++ modelpackTemplate4 ++ refName ++ modelpackTemplate5)
      "\nPACK_MODE=" "\n" m0_suffix m1_prefix
    simp only [generateModelpackScript, String.append_assoc] at h ⊢
    exact h
  · have h := contains_parts (modelpackTemplate0 ++ packMode) modelpackTemplate1 artifactType
      modelpackTemplate2
      (mtManifest ++ modelpackTemplate3 ++ name ++ modelpackTemplate4 ++ refName
        ++ modelpackTemplate5)
      "\"artifactType\": \"" "\"" m1_suffix m2_prefix
    simp only [generateModelpackScript, String.append_assoc] at h ⊢
    exact h
  · have h := contains_parts_last
      (modelpackTemplate0 ++ packMode ++ modelpackTemplate1 ++ artifactType ++ modelpackTemplate2
        ++ mtManifest)
      modelpackTemplate3 (name ++ modelpackTemplate4 ++ refName) modelpackTemplate5
      "\"annotations\": \x7b \"org.opencontainers.image.title\": \"" "\" \x7d" m3_suffix m5_prefix
    simp only [generateModelpackScript, String.append_assoc, modelpackTemplate4] at h ⊢
    exact h

/-- The arguments of `generateGenericScript` in the script. -/
theorem generic_script_parameters (C : Codec) (packMode artifactType name refName : String)
    (debug : Bool) :
    containsStr (generateGenericScript C packMode artifactType name refName debug)
      ("\nPACK_MODE=" ++ packMode ++ "\n") = true
    ∧ containsStr (generateGenericScript C packMode artifactType name refName debug)
      ("\\\"artifactType\\\": \\\"" ++ artifactType ++ "\\\"") = true
    ∧ containsStr (generateGenericScript C packMode artifactType name refName debug)
      ("\"annotations\": \x7b \"org.opencontainers.image.title\": \"" ++ name
        ++ "\", \"org.opencontainers.image.ref.name\": \"" ++ refName ++ "\" \x7d") = true := by
  refine ⟨?_, ?_, ?_⟩
  · have h := contains_parts (genericTemplate0 ++ (if debug then "set -x" else ""))
      genericTemplate1 packMode genericTemplate2
      ((if packMode = packModeRaw then "application/octet-stream" else C.mediaTypeImageLayer)
        ++ genericTemplate3 ++ C.mediaTypeImageLayer ++ genericTemplate4 ++ artifactType
        ++ genericTemplate5 ++ name ++ genericTemplate6 ++ refName ++ genericTemplate7)
      "\nPACK_MODE=" "\n" g1_suffix g2_prefix
    simp only [generateGenericScript, String.append_assoc] at h ⊢
    exact h
  · have h := contains_parts
      (genericTemplate0 ++ (if debug then "set -x" else "") ++ genericTemplate1 ++ packMode
        ++ genericTemplate2
        ++ (if packMode = packModeRaw then "application/octet-stream" else C.mediaTypeImageLayer)
        ++ genericTemplate3 ++ C.mediaTypeImageLayer)
      genericTemplate4 artifactType genericTemplate5
      (name ++ genericTemplate6 ++ refName ++ genericTemplate7)
      "\\\"artifactType\\\": \\\"" "\\\"" g4_suffix g5_prefix
    simp only [generateGenericScript, String.append_assoc] at h ⊢
    exact h
  · have h := contains_parts_last
      (genericTemplate0 ++ (if debug then "set -x" else "") ++ genericTemplate1 ++ packMode
        ++ genericTemplate2
        ++ (if packMode = packModeRaw then "application/octet-stream" else C.mediaTypeImageLayer)
        ++ genericTemplate3 ++ C.mediaTypeImageLayer ++ genericTemplate4 ++ artifactType)
      genericTemplate5 (name ++ genericTemplate6 ++ refName) genericTemplate7
      "\"annotations\": \x7b \"org.opencontainers.image.title\": \"" "\" \x7d" g5_suffix g7_prefix
    simp only [generateGenericScript, String.append_assoc, genericTemplate6] at h ⊢
    exact h

/-- The second line of the script of `generateGenericScript` is the debug line:
`set -x` when `debug` is set and empty when it is not. -/
theorem generic_script_debug_line (C : Codec) (packMode artifactType name refName : String)
    (debug : Bool) :
    hasPrefix (generateGenericScript C packMode artifactType name refName debug)
      ("set -euo pipefail\n" ++ (if debug then "set -x" else "") ++ "\nPACK_MODE=") = true := by
  unfold hasPrefix
  rw [List.isPrefixOf_iff_prefix]
  have e : generateGenericScript C packMode artifactType name refName debug
      = ("set -euo pipefail\n" ++ (if debug then "set -x" else "") ++ "\nPACK_MODE=")
        ++ (packMode ++ genericTemplate2
        ++ (if packMode = packModeRaw then "application/octet-stream" else C.mediaTypeImageLayer)
        ++ genericTemplate3 ++ C.mediaTypeImageLayer ++ genericTemplate4 ++ artifactType
        ++ genericTemplate5 ++ name ++ genericTemplate6 ++ refName ++ genericTemplate7) := by
    have e0 : genericTemplate0 = "set -euo pipefail\n" := rfl
    have e1 : genericTemplate1 = "\nPACK_MODE=" := by decide
    simp only [generateGenericScript, e0, e1, String.append_assoc]
  rw [e, String.data_append]
  exact List.prefix_append _ _

/-- C24. Script parameter embedding: the scripts of `generateModelpackScript` and
of `generateGenericScript` hold the line `PACK_MODE=` with the pack mode, the
artifact type in the manifest, and the annotations of the index with the name as
title and the reference name as reference name, each argument as it is; the
second line of the generic script is `set -x` when `debug` is set and empty when
it is not, and when `debug` is not set the text `set -x` occurs in the generic
script only if an argument or the media type of the library holds it. -/
theorem script_parameters (C : Codec) (packMode artifactType mtManifest name refName : String)
    (debug : Bool) :
    (containsStr (generateModelpackScript packMode artifactType mtManifest name refName)
        ("\nPACK_MODE=" ++ packMode ++ "\n") = true
      ∧ containsStr (generateModelpackScript packMode artifactType mtManifest name refName)
        ("\"artifactType\": \"" ++ artifactType ++ "\"") = true
      ∧ containsStr (generateModelpackScript packMode artifactType mtManifest name refName)
        ("\"annotations\": \x7b \"org.opencontainers.image.title\": \"" ++ name
          ++ "\", \"org.opencontainers.image.ref.name\": \"" ++ refName ++ "\" \x7d") = true)
    ∧ (containsStr (generateGenericScript C packMode artifactType name refName debug)
        ("\nPACK_MODE=" ++ packMode ++ "\n") = true
      ∧ containsStr (generateGenericScript C packMode artifactType name refName debug)
        ("\\\"artifactType\\\": \\\"" ++ artifactType ++ "\\\"") = true
      ∧ containsStr (generateGenericScript C packMode artifactType name refName debug)
        ("\"annotations\": \x7b \"org.opencontainers.image.title\": \"" ++ name
          ++ "\", \"org.opencontainers.image.ref.name\": \"" ++ refName ++ "\" \x7d") = true)
    ∧ (debug = true →
        hasPrefix (generateGenericScript C packMode artifactType name refName debug)
          "set -euo pipefail\nset -x\nPACK_MODE=" = true)
    ∧ (debug = false →
        hasPrefix (generateGenericScript C packMode artifactType name refName debug)
          "set -euo pipefail\n\nPACK_MODE=" = true)
    ∧ (debug = false →
        (∀ x ∈ [packMode, artifactType, name, refName, C.mediaTypeImageLayer],
          containsStr x "set -x" = false) →
        containsStr (generateGenericScript C packMode artifactType name refName debug) "set -x"
          = false) := by
  refine ⟨modelpack_script_parameters packMode artifactType mtManifest name refName,
    generic_script_parameters C packMode artifactType name refName debug, ?_, ?_, ?_⟩
  · intro hd
    have h := generic_script_debug_line C packMode artifactType name refName debug
    rw [hd] at h ⊢
    exact h
  · intro hd
    have h := generic_script_debug_line C packMode artifactType name refName debug
    rw [hd] at h ⊢
    exact h
  · intro hd hargs
    apply genericScript_absent "set -x" C packMode artifactType name refName debug (by decide)
      (by decide) generic_isolates_debug
    intro x hx
    simp only [List.mem_cons, List.mem_singleton, List.not_mem_nil, or_false] at hx
    rcases hx with rfl | rfl | rfl | rfl | rfl | rfl | rfl
    · rw [hd]
      decide
    · exact hargs _ (by simp)
    · by_cases hp : packMode = packModeRaw
      · rw [if_pos hp]
        decide
      · rw [if_neg hp]
        exact hargs _ (by simp)
    · exact hargs _ (by simp)
    · exact hargs _ (by simp)
    · exact hargs _ (by simp)
    · exact hargs _ (by simp)

/-- The calls of the two tests of build_test.go, and the generic script without
the debug line. -/
theorem script_parameters_witness :
    containsStr (generateModelpackScript "raw" "art.type" "mt.conf" "myname" "refy")
        "\nPACK_MODE=raw\n" = true
    ∧ containsStr (generateModelpackScript "raw" "art.type" "mt.conf" "myname" "refy")
        "\"artifactType\": \"art.type\"" = true
    ∧ containsStr (generateModelpackScript "raw" "art.type" "mt.conf" "myname" "refy")
        "\"annotations\": \x7b \"org.opencontainers.image.title\": \"myname\", \"org.opencontainers.image.ref.name\": \"refy\" \x7d"
        = true
    ∧ containsStr (generateGenericScript demoCodec "tar+gzip" "atype" "nm" "refz" true)
        "\nPACK_MODE=tar+gzip\n" = true
    ∧ hasPrefix (generateGenericScript demoCodec "tar+gzip" "atype" "nm" "refz" true)
        "set -euo pipefail\nset -x\nPACK_MODE=" = true
    ∧ containsStr (generateGenericScript demoCodec "tar+gzip" "atype" "nm" "refz" false) "set -x"
        = false :=
  ⟨(script_parameters demoCodec "raw" "art.type" "mt.conf" "myname" "refy" false).1.1,
   (script_parameters demoCodec "raw" "art.type" "mt.conf" "myname" "refy" false).1.2.1,
   (script_parameters demoCodec "raw" "art.type" "mt.conf" "myname" "refy" false).1.2.2,
   (script_parameters demoCodec "tar+gzip" "atype" "" "nm" "refz" true).2.1.1,
   (script_parameters demoCodec "tar+gzip" "atype" "" "nm" "refz" true).2.2.1 rfl,
   (script_parameters demoCodec "tar+gzip" "atype" "" "nm" "refz" false).2.2.2.2 rfl
     (by decide)⟩

/-- C26. Raw generic media type: in the script of `generateGenericScript` for the
pack mode `raw`, every file is appended as a layer of the media type
`application/octet-stream` and the pack mode line is `PACK_MODE=raw`; for any
other pack mode, the text `application/octet-stream` occurs in the script only if
an argument or the media type of the library holds it. -/
theorem raw_generic_media_type (C : Codec) (packMode artifactType name refName : String)
    (debug : Bool) :
    containsStr (generateGenericScript C "raw" artifactType name refName debug)
      "append_layer \"/tmp/$(basename \"$f\")\" \"application/octet-stream\"; done < /tmp/files.list"
      = true
    ∧ containsStr (generateGenericScript C "raw" artifactType name refName debug)
      "\nPACK_MODE=raw\n" = true
    ∧ (packMode ≠ "raw" →
        (∀ x ∈ [packMode, artifactType, name, refName, C.mediaTypeImageLayer],
          containsStr x "application/octet-stream" = false) →
        containsStr (generateGenericScript C packMode artifactType name refName debug)
          "application/octet-stream" = false) := by
  refine ⟨?_, (generic_script_parameters C "raw" artifactType name refName debug).1, ?_⟩
  · have h := contains_parts
      (genericTemplate0 ++ (if debug then "set -x" else "") ++ genericTemplate1 ++ "raw")
      genericTemplate2 "application/octet-stream" genericTemplate3
      (C.mediaTypeImageLayer ++ genericTemplate4 ++ artifactType ++ genericTemplate5 ++ name
        ++ genericTemplate6 ++ refName ++ genericTemplate7)
      "append_layer \"/tmp/$(basename \"$f\")\" \"" "\"; done < /tmp/files.list"
      g2_suffix g3_prefix
    have hr : ("raw" : String) = packModeRaw := rfl
    simp only [generateGenericScript, String.append_assoc, if_pos hr] at h ⊢
    exact h
  · intro hp hargs
    apply genericScript_absent "application/octet-stream" C packMode artifactType name refName
      debug (by decide) (by decide) generic_isolates_octet
    intro x hx
    simp only [List.mem_cons, List.mem_singleton, List.not_mem_nil, or_false] at hx
    have hp2 : packMode ≠ packModeRaw := hp
    rcases hx with rfl | rfl | rfl | rfl | rfl | rfl | rfl
    · cases debug <;> decide
    · exact hargs _ (by simp)
    · rw [if_neg hp2]
      exact hargs _ (by simp)
    · exact hargs _ (by simp)
    · exact hargs _ (by simp)
    · exact hargs _ (by simp)
    · exact hargs _ (by simp)

/-- The call of the test of build_test.go, and the script of the pack mode
`tar+gzip`, in which the media type of raw layers does not occur. -/
theorem raw_generic_media_type_witness :
    containsStr (generateGenericScript demoCodec "raw" "atype2" "nm2" "ref2" false)
      "append_layer \"/tmp/$(basename \"$f\")\" \"application/octet-stream\"; done < /tmp/files.list"
      = true
    ∧ containsStr (generateGenericScript demoCodec "raw" "atype2" "nm2" "ref2" false)
      "\nPACK_MODE=raw\n" = true
    ∧ containsStr (generateGenericScript demoCodec "tar+gzip" "atype" "nm" "refz" true)
      "application/octet-stream" = false :=
  ⟨(raw_generic_media_type demoCodec "raw" "atype2" "nm2" "ref2" false).1,
   (raw_generic_media_type demoCodec "raw" "atype2" "nm2" "ref2" false).2.1,
   (raw_generic_media_type demoCodec "tar+gzip" "atype" "nm" "refz" true).2.2 (by decide)
     (by decide)⟩

/-! ## The two classifiers side by side -/

theorem nativeSwitch_eq (b : String) (i : FileInfo) :
    nativeSwitch b (some i)
      = if hasAnySuffix b [".safetensors", ".bin", ".gguf", ".pt", ".ckpt"] = true then Slice.weights
        else if hasSuffix b ".json" = true ∨ hasSuffix b ".txt" = true then Slice.cfg
        else if hasPrefix b "readme" = true ∨ hasPrefix b "license" = true
          ∨ hasSuffix b ".md" = true then Slice.docs
        else if i.size < 10485760 then Slice.cfg else Slice.weights := by
  have hc : (b = "config.json" ∨ b = "tokenizer.json" ∨ hasSuffix b ".json" = true
      ∨ hasSuffix b ".txt" = true) ↔ (hasSuffix b ".json" = true ∨ hasSuffix b ".txt" = true) := by
    constructor
    · rintro (h | h | h | h)
      · exact Or.inl (by rw [h]; decide)
      · exact Or.inl (by rw [h]; decide)
      · exact Or.inl h
      · exact Or.inr h
    · rintro (h | h)
      · exact Or.inr (Or.inr (Or.inl h))
      · exact Or.inr (Or.inr (Or.inr h))
  unfold nativeSwitch
  simp only [hc]

theorem shellCase_eq (b : String) (sz : Nat) :
    shellCase b sz
      = if hasAnySuffix b [".safetensors", ".bin", ".gguf", ".pt", ".ckpt"] = true
          then Category.weights
        else if hasPrefix b "readme" = true ∨ hasPrefix b "license" = true
          ∨ hasSuffix b ".md" = true then Category.docs
        else if hasSuffix b ".json" = true ∨ hasSuffix b ".txt" = true then Category.config
        else if hasAnySuffix b [".py", ".sh", ".ipynb", ".go", ".js", ".ts"] = true
          then Category.code
        else if hasAnySuffix b [".csv", ".tsv", ".jsonl", ".parquet", ".arrow", ".h5", ".npz"] = true
          then Category.dataset
        else if sz > 10485760 then Category.weights else Category.config := by
  have hd : (hasPrefix b "readme" = true ∨ hasPrefix b "license" = true ∨ b = "license"
      ∨ hasSuffix b ".md" = true) ↔ (hasPrefix b "readme" = true ∨ hasPrefix b "license" = true
      ∨ hasSuffix b ".md" = true) := by
    constructor
    · rintro (h | h | h | h)
      · exact Or.inl h
      · exact Or.inr (Or.inl h)
      · exact Or.inr (Or.inl (by rw [h]; decide))
      · exact Or.inr (Or.inr h)
    · rintro (h | h | h)
      · exact Or.inl h
      · exact Or.inr (Or.inl h)
      · exact Or.inr (Or.inr (Or.inr h))
  have hc : (b = "config.json" ∨ b = "tokenizer.json"
      ∨ (hasSuffix b ".json" = true
        ∧ containsStr (String.mk (b.data.take (b.data.length - 5))) "tokenizer" = true)
      ∨ b = "generation_config.json" ∨ hasSuffix b ".json" = true ∨ hasSuffix b ".txt" = true)
      ↔ (hasSuffix b ".json" = true ∨ hasSuffix b ".txt" = true) := by
    constructor
    · rintro (h | h | h | h | h | h)
      · exact Or.inl (by rw [h]; decide)
      · exact Or.inl (by rw [h]; decide)
      · exact Or.inl h.1
      · exact Or.inl (by rw [h]; decide)
      · exact Or.inl h
      · exact Or.inr h
    · rintro (h | h)
      · exact Or.inr (Or.inr (Or.inr (Or.inr (Or.inl h))))
      · exact Or.inr (Or.inr (Or.inr (Or.inr (Or.inr h))))
  unfold shellCase
  simp only [hd, hc]

/-- On a comparable file the switch of `buildModelPackLayers` chooses the category
that the `case` of the script gives the base name. -/
theorem comparable_name (L : Lib) (d : DirEntry) (sz : Nat) (h : Comparable L d sz) :
    (entrySlice L d).category = nameCategory d.rel sz := by
  obtain ⟨hord, hinfo, hl, hcode0, hdata0, hrd, hsz⟩ := h
  have hund := (ordinaryPath_undashed d.rel hord).1
  rw [shellCategory_ok _ _ hund] at hcode0 hdata0
  have hcode : nameCategory d.rel sz ≠ Category.code := fun e => hcode0 (by rw [e])
  have hdata : nameCategory d.rel sz ≠ Category.dataset := fun e => hdata0 (by rw [e])
  cases hi : d.info with
  | none => simp [hi] at hinfo
  | some i =>
    have hs : i.size = sz := by simpa [hi] using hinfo
    unfold nameCategory at hcode hdata ⊢
    rw [shellCase_eq] at hcode hdata ⊢
    rw [entrySlice, hl, hi, nativeSwitch_eq, hs]
    by_cases hw : hasAnySuffix (asciiLower (base d.rel))
        [".safetensors", ".bin", ".gguf", ".pt", ".ckpt"] = true
    · simp only [if_pos hw, Slice.category]
    · simp only [if_neg hw] at hcode hdata ⊢
      by_cases hj : hasSuffix (asciiLower (base d.rel)) ".json" = true
          ∨ hasSuffix (asciiLower (base d.rel)) ".txt" = true
      · have hnd : ¬ (hasPrefix (asciiLower (base d.rel)) "readme" = true
            ∨ hasPrefix (asciiLower (base d.rel)) "license" = true
            ∨ hasSuffix (asciiLower (base d.rel)) ".md" = true) := by
          rintro (h1 | h1 | h1)
          · exact hrd ⟨Or.inl h1, hj⟩
          · exact hrd ⟨Or.inr h1, hj⟩
          · rcases hj with h2 | h2
            · exact absurd (hasSuffix_clash _ _ _ h1 h2) (by decide)
            · exact absurd (hasSuffix_clash _ _ _ h1 h2) (by decide)
        simp only [if_pos hj, if_neg hnd, Slice.category]
      · simp only [if_neg hj] at hcode hdata ⊢
        by_cases hdoc : hasPrefix (asciiLower (base d.rel)) "readme" = true
            ∨ hasPrefix (asciiLower (base d.rel)) "license" = true
            ∨ hasSuffix (asciiLower (base d.rel)) ".md" = true
        · simp only [if_pos hdoc, Slice.category]
        · simp only [if_neg hdoc] at hcode hdata ⊢
          by_cases hco : hasAnySuffix (asciiLower (base d.rel))
              [".py", ".sh", ".ipynb", ".go", ".js", ".ts"] = true
          · simp only [if_pos hco] at hcode
            exact absurd rfl hcode
          · simp only [if_neg hco] at hdata ⊢
            by_cases hda : hasAnySuffix (asciiLower (base d.rel))
                [".csv", ".tsv", ".jsonl", ".parquet", ".arrow", ".h5", ".npz"] = true
            · simp only [if_pos hda] at hdata
              exact absurd rfl hdata
            · simp only [if_neg hda]
              by_cases hlt : sz < 10485760
              · have hgt : ¬ sz > 10485760 := by omega
                simp only [if_pos hlt, if_neg hgt, Slice.category]
              · have hgt : sz > 10485760 := by omega
                simp only [if_neg hlt, if_pos hgt, Slice.category]

/-- On a comparable file the script classifies, and chooses the category of the
switch of `buildModelPackLayers`. -/
theorem comparable_agree (L : Lib) (d : DirEntry) (sz : Nat) (h : Comparable L d sz) :
    shellCategory d.rel sz = Except.ok (entrySlice L d).category := by
  rw [shellCategory_ok _ _ (ordinaryPath_undashed d.rel h.1).1, comparable_name L d sz h]

theorem slice_category_inj (s t : Slice) (h : s.category = t.category) : s = t := by
  cases s <;> cases t <;> first | rfl | cases h

/-- A file that the script files under code or dataset is filed by the native
switch under the config or the weights, by its size. -/
theorem code_dataset_native (L : Lib) (d : DirEntry) (i : FileInfo) (hi : d.info = some i)
    (hl : toLower L (base d.rel) = asciiLower (base d.rel))
    (hc : shellCategory d.rel i.size = Except.ok Category.code
      ∨ shellCategory d.rel i.size = Except.ok Category.dataset) :
    entrySlice L d = if i.size < 10485760 then Slice.cfg else Slice.weights := by
  have hund : hasPrefix d.rel "-" = false := by
    cases hp : hasPrefix d.rel "-"
    · rfl
    · simp [shellCategory, hp] at hc
  rw [shellCategory_ok _ _ hund] at hc
  simp only [Except.ok.injEq] at hc
  unfold nameCategory at hc
  rw [shellCase_eq] at hc
  rw [entrySlice, hl, hi, nativeSwitch_eq]
  by_cases hw : hasAnySuffix (asciiLower (base d.rel))
      [".safetensors", ".bin", ".gguf", ".pt", ".ckpt"] = true
  · simp only [if_pos hw] at hc
    rcases hc with h | h <;> cases h
  · simp only [if_neg hw] at hc ⊢
    by_cases hdoc : hasPrefix (asciiLower (base d.rel)) "readme" = true
        ∨ hasPrefix (asciiLower (base d.rel)) "license" = true
        ∨ hasSuffix (asciiLower (base d.rel)) ".md" = true
    · simp only [if_pos hdoc] at hc
      rcases hc with h | h <;> cases h
    · simp only [if_neg hdoc] at hc
      by_cases hj : hasSuffix (asciiLower (base d.rel)) ".json" = true
          ∨ hasSuffix (asciiLower (base d.rel)) ".txt" = true
      · simp only [if_pos hj] at hc
        rcases hc with h | h <;> cases h
      · simp only [if_neg hj, if_neg hdoc]

theorem comparable_ordinary (L : Lib) (size : String → Nat) (entries : List DirEntry)
    (h : ∀ d ∈ entries, d.isDir = false → shellKeeps d = true ∧ Comparable L d (size d.rel)) :
    ∀ d ∈ entries, shellKeeps d = true → ordinaryPath d.rel = true := by
  intro d hd hk
  have hdir : d.isDir = false := by
    cases hdd : d.isDir
    · rfl
    · simp [shellKeeps, hdd] at hk
  exact (h d hd hdir).2.1

/-- On a directory of comparable files that the script selects, the loop of the
script ends and the sorted slices of the native packager are its lists. -/
theorem comparable_lists (L : Lib) (size : String → Nat) (entries : List DirEntry)
    (h : ∀ d ∈ entries, d.isDir = false → shellKeeps d = true ∧ Comparable L d (size d.rel))
    (s : Slice) :
    sortStrings (sliceFiles L entries s)
      = (nameLists size (allFiles entries)).get s.category := by
  rw [nameLists_get]
  have hfilter : ((entries.filter shellKeeps).map (fun d => d.rel)).filter
      (fun f => decide (nameCategory f (size f) = s.category)) = sliceFiles L entries s := by
    rw [List.filter_map, List.filter_filter]
    unfold sliceFiles
    congr 1
    apply List.filter_congr
    intro d hd
    by_cases hdir : d.isDir = true
    · simp [shellKeeps, hdir]
    · have hdir2 : d.isDir = false := by simpa using hdir
      obtain ⟨hk, hc⟩ := h d hd hdir2
      have ha := comparable_name L d _ hc
      simp only [Function.comp, hk, hdir2, Bool.not_false, Bool.and_true, Bool.true_and]
      by_cases hs : entrySlice L d = s
      · simp [hs, ← ha]
      · have hne : ¬ nameCategory d.rel (size d.rel) = s.category := by
          rw [← ha]
          exact fun heq => hs (slice_category_inj _ _ heq)
        simp [hs, hne]
  refine @List.eq_of_perm_of_sorted String StrLE
    ⟨fun a b hab hba => String.ext (strLE_antisymm a.data b.data hab hba)⟩ _ _ ?_
    (sortStrings_sorted _) (List.Pairwise.filter _ (sortStrings_sorted _))
  refine (sortStrings_perm _).trans ?_
  rw [← hfilter]
  exact ((sortStrings_perm _).filter _).symm

theorem comparable_no_code (L : Lib) (size : String → Nat) (entries : List DirEntry)
    (h : ∀ d ∈ entries, d.isDir = false → shellKeeps d = true ∧ Comparable L d (size d.rel)) :
    (nameLists size (allFiles entries)).code = []
    ∧ (nameLists size (allFiles entries)).dataset = [] := by
  have key : ∀ f ∈ allFiles entries, nameCategory f (size f) ≠ Category.code
      ∧ nameCategory f (size f) ≠ Category.dataset := by
    intro f hf
    obtain ⟨d, hd, hk, rfl⟩ := (mem_allFiles entries f).1 hf
    have hdir : d.isDir = false := by
      cases hdd : d.isDir
      · rfl
      · simp [shellKeeps, hdd] at hk
    obtain ⟨hord, _, _, hcode0, hdata0, _⟩ := (h d hd hdir).2
    rw [shellCategory_ok _ _ (ordinaryPath_undashed d.rel hord).1] at hcode0 hdata0
    exact ⟨fun e => hcode0 (by rw [e]), fun e => hdata0 (by rw [e])⟩
  have e1 := nameLists_get size (allFiles entries) Category.code
  have e2 := nameLists_get size (allFiles entries) Category.dataset
  simp only [ShellLists.get] at e1 e2
  rw [e1, e2]
  constructor
  · rw [List.filter_eq_nil_iff]
    intro f hf
    simpa using (key f hf).1
  · rw [List.filter_eq_nil_iff]
    intro f hf
    simpa using (key f hf).2

/-- C27 (amended). The two classifiers on the files they can be compared on. Let
every regular file of the source directory be selected by the script (no lock
file, nothing below `.cache/`) and be comparable: its path is ordinary (printable
characters, no double quote, no backslash, neither the path nor its base name
beginning with `-`), `strings.ToLower` and `tr A-Z a-z` give the same lower-cased
base name, the script does not file it under code or dataset, its name does not
combine a `readme` or `license` start with a `.json` or `.txt` ending, and its size
is not 10485760 bytes. Then the `case` of the script of `generateModelpackScript`
gives every file the category of the switch of `buildModelPackLayers`, the loop
of the script ends, the sorted slices of the native packager are its weights,
config and docs lists, and its code and dataset lists are empty. A file that
the script files under code or dataset goes to the config or the weights of the
native packager, by its size. -/
theorem classifier_equivalence (L : Lib) (size : String → Nat) (entries : List DirEntry)
    (h : ∀ d ∈ entries, d.isDir = false → shellKeeps d = true ∧ Comparable L d (size d.rel)) :
    (∀ d ∈ entries, d.isDir = false →
      shellCategory d.rel (size d.rel) = Except.ok (entrySlice L d).category)
    ∧ (∃ l, shellLists size (allFiles entries) = Except.ok l
      ∧ sortStrings (partitionFiles L entries).weights = l.weights
      ∧ sortStrings (partitionFiles L entries).cfg = l.config
      ∧ sortStrings (partitionFiles L entries).docs = l.docs
      ∧ l.code = []
      ∧ l.dataset = [])
    ∧ ∀ (d : DirEntry) (i : FileInfo), d.info = some i →
        toLower L (base d.rel) = asciiLower (base d.rel) →
        shellCategory d.rel i.size = Except.ok Category.code
          ∨ shellCategory d.rel i.size = Except.ok Category.dataset →
        entrySlice L d = if i.size < 10485760 then Slice.cfg else Slice.weights := by
  have hord := comparable_ordinary L size entries h
  have hlists := shellLists_ok size (allFiles entries)
    (fun f hf => (ordinaryPath_undashed f (allFiles_ordinary entries hord f hf)).1)
  refine ⟨fun d hd hdir => comparable_agree L d _ (h d hd hdir).2,
    ⟨_, hlists, ?_, ?_, ?_, (comparable_no_code L size entries h).1,
      (comparable_no_code L size entries h).2⟩,
    fun d i hi hl hc => code_dataset_native L d i hi hl hc⟩
  · rw [partitionFiles_eq]
    exact comparable_lists L size entries h Slice.weights
  · rw [partitionFiles_eq]
    exact comparable_lists L size entries h Slice.cfg
  · rw [partitionFiles_eq]
    exact comparable_lists L size entries h Slice.docs

/-- A directory of four comparable files: the loop of the script ends, and the
sorted slices of the native packager are its lists. -/
theorem classifier_equivalence_witness :
    sortStrings (partitionFiles demoLib comparableEntries).weights = ["model.safetensors"]
    ∧ shellLists (fun _ => 7) (allFiles comparableEntries)
      = Except.ok { weights := ["model.safetensors"], config := ["config.json", "sub/misc.xyz"],
                    docs := ["README.md"], code := [], dataset := [] }
    ∧ ∃ l, shellLists (fun _ => 7) (allFiles comparableEntries) = Except.ok l
      ∧ sortStrings (partitionFiles demoLib comparableEntries).weights = l.weights
      ∧ sortStrings (partitionFiles demoLib comparableEntries).cfg = l.config
      ∧ sortStrings (partitionFiles demoLib comparableEntries).docs = l.docs
      ∧ l.code = []
      ∧ l.dataset = [] :=
  ⟨by decide, by decide,
   (classifier_equivalence demoLib (fun _ => 7) comparableEntries (by decide)).2.1⟩

/-- C27, counterexample. The file `train.py` is config for the native switch and
code for the script, and `data.csv` of 20000000 bytes is weights for the one and
dataset for the other; the lists of a directory that holds `train.py` differ. -/
theorem classifier_equivalence_counterexample :
    (entrySlice demoLib (fileEntry "train.py" 100)).category = Category.config
    ∧ shellCategory "train.py" 100 = Except.ok Category.code
    ∧ (entrySlice demoLib (fileEntry "data.csv" 20000000)).category = Category.weights
    ∧ shellCategory "data.csv" 20000000 = Except.ok Category.dataset
    ∧ partitionFiles demoLib [fileEntry "train.py" 100]
      = { weights := [], cfg := ["train.py"], docs := [] }
    ∧ shellLists (fun _ => 100) (allFiles [fileEntry "train.py" 100])
      = Except.ok { weights := [], config := [], docs := [], code := ["train.py"],
                    dataset := [] } := by
  decide

end Aikit
